import Mathlib

/-!
# SlideRule: geo-indexed raster sampling engine and refraction corrector

A shallow embedding of `packages/core/Ordering.h`,
`packages/geo/GeoIndexedRaster.cpp` and
`datasets/bathy/package/BathyRefractionCorrector.cpp`, and of single functions of
`plugins/pgc/plugin/PgcDemStripsRaster.cpp`,
`plugins/arcticdem/plugin/ArcticDEMRaster.cpp`,
`plugins/icesat2/plugin/Atl03BathyViewer.cpp` and `packages/core/FieldList.h`,
followed by theorems about the embedded functions.  Pointers into the doubly
linked list of `Ordering` are rendered as a list with a cursor; heap objects
reachable through one pointer only are rendered as values; machine integers are
`Int`/`Nat` with explicit wrap-around; loops that need not end take a bound on
the number of passes and yield `none` when it is used up.  The refraction pass is
generic in the arithmetic of `double`; its numeric properties are stated for the
real numbers.
-/

namespace SlideRule

/-! ## Machine integers -/

/-- Largest `int64_t`, `std::numeric_limits<int64_t>::max()`. -/
def INT64_MAX : Int := 2 ^ 63 - 1

/-- Smallest `int64_t`. -/
def INT64_MIN : Int := -(2 ^ 63)

/-- Two's complement reduction of an integer to the range of `int64_t`. -/
def wrap64 (x : Int) : Int := (x + 2 ^ 63) % 2 ^ 64 - 2 ^ 63

/-- Subtraction of two `int64_t` values. -/
def sub64 (a b : Int) : Int := wrap64 (a - b)

/-- The call `abs(x)` on an `int64_t`. -/
def abs64 (x : Int) : Int := wrap64 (if x < 0 then -x else x)

/-- Reduction of a natural number to the range of `uint32_t`. -/
def wrapU32 (x : Nat) : Nat := x % 2 ^ 32

/-- Two's complement reduction of an integer to the range of `int` (`int32_t`). -/
def wrap32 (x : Int) : Int := (x + 2 ^ 31) % 2 ^ 32 - 2 ^ 31

/-! ## Ordering.h -/

/-- The type `sorted_node_t` of `Ordering<T,K>` with `K = unsigned long`; the
`next`/`prev` links are the positions in the lists of `Links`. -/
structure sorted_node_t (T : Type) where
  key : Nat
  data : T
deriving DecidableEq, Repr

/-- The linked nodes of an `Ordering` together with its cursor `curr`.
`nullCurr nodes`: `curr == NULL`, `nodes` runs from `firstNode` to `lastNode`.
`atCurr prevs c nexts`: `curr` points at `c`; `prevs` are the nodes reached by
following `prev` from `c` (nearest first), `nexts` those reached by following
`next`. -/
inductive Links (T : Type) where
  | nullCurr (nodes : List (sorted_node_t T))
  | atCurr (prevs : List (sorted_node_t T)) (c : sorted_node_t T) (nexts : List (sorted_node_t T))
deriving DecidableEq, Repr

/-- The class `Ordering<T,K>`: the linked list with its cursor and `maxListSize`
(`INFINITE_LIST_SIZE` is `-1`).  The field `len` is the number of linked nodes. -/
structure Ordering (T : Type) where
  links : Links T
  maxListSize : Int
deriving DecidableEq, Repr

/-- The enumeration `searchMode_t`. -/
inductive searchMode_t where
  | EXACT_MATCH
  | GREATER_THAN_OR_EQUAL
  | LESS_THAN_OR_EQUAL
  | GREATER_THAN
  | LESS_THAN
deriving DecidableEq, Repr

/-- The constant `INFINITE_LIST_SIZE`. -/
def INFINITE_LIST_SIZE : Int := -1

/-- The nodes from `firstNode` to `lastNode`, following `next`. -/
def Links.nodes {T : Type} : Links T → List (sorted_node_t T)
  | .nullCurr l => l
  | .atCurr ps c ns => ps.reverse ++ c :: ns

/-- The nodes of an ordering from `firstNode` to `lastNode`. -/
def Ordering.nodes {T : Type} (o : Ordering T) : List (sorted_node_t T) := o.links.nodes

/-- The method `Ordering::length`. -/
def Ordering.length {T : Type} (o : Ordering T) : Nat := o.nodes.length

/-- The constructor `Ordering::Ordering` with its default arguments. -/
def Ordering.new {T : Type} : Ordering T := ⟨.nullCurr [], INFINITE_LIST_SIZE⟩

/-- The statement `if(curr == NULL) curr = lastNode;`. -/
def Links.resetCurr {T : Type} : Links T → Links T
  | .nullCurr l =>
    match l.reverse with
    | [] => .nullCurr []
    | c :: ps => .atCurr ps c []
  | .atCurr ps c ns => .atCurr ps c ns

/-- The loop `while (key < curr->key && curr->prev != NULL) curr = curr->prev;`. -/
def walkPrevLt {T : Type} (key : Nat) :
    List (sorted_node_t T) → sorted_node_t T → List (sorted_node_t T) →
      List (sorted_node_t T) × sorted_node_t T × List (sorted_node_t T)
  | [], c, ns => ([], c, ns)
  | p :: ps, c, ns => if key < c.key then walkPrevLt key ps p (c :: ns) else (p :: ps, c, ns)

/-- The loop `while (key > curr->key && curr->next != NULL) curr = curr->next;`. -/
def walkNextGt {T : Type} (key : Nat) :
    List (sorted_node_t T) → sorted_node_t T → List (sorted_node_t T) →
      List (sorted_node_t T) × sorted_node_t T × List (sorted_node_t T)
  | ps, c, [] => (ps, c, [])
  | ps, c, n :: ns => if key > c.key then walkNextGt key (c :: ps) n ns else (ps, c, n :: ns)

/-- The loop `while (key <= curr->key && curr->prev != NULL) curr = curr->prev;`
of `addNode`. -/
def walkPrevLe {T : Type} (key : Nat) :
    List (sorted_node_t T) → sorted_node_t T → List (sorted_node_t T) →
      List (sorted_node_t T) × sorted_node_t T × List (sorted_node_t T)
  | [], c, ns => ([], c, ns)
  | p :: ps, c, ns => if key ≤ c.key then walkPrevLe key ps p (c :: ns) else (p :: ps, c, ns)

/-- The search of `Ordering::remove`: position of the cursor after the two
loops of the search mode and the value of `found`. -/
def removeSearch {T : Type} (key : Nat) (smode : searchMode_t)
    (ps : List (sorted_node_t T)) (c : sorted_node_t T) (ns : List (sorted_node_t T)) :
    (List (sorted_node_t T) × sorted_node_t T × List (sorted_node_t T)) × Bool :=
  match smode with
  | .EXACT_MATCH =>
    let (ps1, c1, ns1) := walkPrevLt key ps c ns
    let (ps2, c2, ns2) := walkNextGt key ps1 c1 ns1
    ((ps2, c2, ns2), decide (key = c2.key))
  | .GREATER_THAN_OR_EQUAL =>
    let (ps1, c1, ns1) := walkPrevLt key ps c ns
    let (ps2, c2, ns2) := walkNextGt key ps1 c1 ns1
    ((ps2, c2, ns2), decide (key < c2.key))
  | .LESS_THAN_OR_EQUAL =>
    let (ps1, c1, ns1) := walkNextGt key ps c ns
    let (ps2, c2, ns2) := walkPrevLt key ps1 c1 ns1
    ((ps2, c2, ns2), decide (key > c2.key))
  | _ => ((ps, c, ns), false)

/-- The unlinking of the node under the cursor in `Ordering::remove`: the
cursor moves to `curr->next` when there is one, otherwise to `curr->prev`. -/
def unlinkCurr {T : Type} (ps : List (sorted_node_t T)) (ns : List (sorted_node_t T)) : Links T :=
  match ns with
  | n :: ns1 => .atCurr ps n ns1
  | [] =>
    match ps with
    | p :: ps1 => .atCurr ps1 p []
    | [] => .nullCurr []

/-- The method `Ordering::remove`: the returned flag and the ordering afterwards. -/
def Ordering.remove {T : Type} (o : Ordering T) (key : Nat) (smode : searchMode_t) :
    Bool × Ordering T :=
  match o.links.resetCurr with
  | .nullCurr l => (false, { o with links := .nullCurr l })
  | .atCurr ps c ns =>
    match removeSearch key smode ps c ns with
    | ((ps2, _, ns2), true) => (true, { o with links := unlinkCurr ps2 ns2 })
    | ((ps2, c2, ns2), false) => (false, { o with links := .atCurr ps2 c2 ns2 })

/-- The loop at the end of `addNode` that drops first nodes while the list is
longer than `maxListSize`; `fuel` bounds the number of iterations by the length. -/
def dropFirstNodes {T : Type} (maxListSize : Int) : Nat → Links T → Links T
  | 0, l => l
  | fuel + 1, l =>
    if maxListSize ≠ INFINITE_LIST_SIZE ∧ (l.nodes.length : Int) > maxListSize then
      match l with
      | .nullCurr [] => .nullCurr []
      | .nullCurr (_ :: rest) => dropFirstNodes maxListSize fuel (.nullCurr rest)
      | .atCurr [] _ [] => .nullCurr []
      | .atCurr [] _ (n :: ns) => dropFirstNodes maxListSize fuel (.atCurr [] n ns)
      | .atCurr (p :: ps) c ns =>
        dropFirstNodes maxListSize fuel (.atCurr ((p :: ps).dropLast) c ns)
    else l

/-- The method `Ordering::addNode`: the returned flag and the ordering afterwards. -/
def Ordering.addNode {T : Type} (o : Ordering T) (key : Nat) (data : T) (unique : Bool) :
    Bool × Ordering T :=
  match o.links.resetCurr with
  | .nullCurr _ =>
    let l1 : Links T := .atCurr [] ⟨key, data⟩ []
    (true, { o with links := dropFirstNodes o.maxListSize (l1.nodes.length) l1 })
  | .atCurr ps c ns =>
    let (ps1, c1, ns1) :=
      if key ≤ c.key then walkPrevLe key ps c ns else walkNextGt key ps c ns
    if unique ∧ c1.key = key then
      (false, { o with links := .atCurr ps1 c1 ns1 })
    else
      let l1 : Links T :=
        if key ≤ c1.key then .atCurr (⟨key, data⟩ :: ps1) c1 ns1
        else .atCurr ps1 c1 (⟨key, data⟩ :: ns1)
      (true, { o with links := dropFirstNodes o.maxListSize (l1.nodes.length) l1 })

/-- The method `Ordering::add`. -/
def Ordering.add {T : Type} (o : Ordering T) (key : Nat) (data : T) (unique : Bool) :
    Bool × Ordering T :=
  o.addNode key data unique

/-- Modelled from the spec: the class `Ordering::Iterator`, whose declaration is
not part of `Ordering.h` as given.  The group ordering "supports insertion-order
iteration and key-based removal": an iterator is taken once over the ordering
and holds the key and value of every node from first to last (`iter[i].key`,
`iter[i].value`, `iter.length`), unaffected by later removals. -/
def Ordering.Iterator {T : Type} (o : Ordering T) : List (sorted_node_t T) := o.nodes

/-- Modelled from the spec: the method `Ordering::empty`, not part of
`Ordering.h` as given: the ordering holds no node. -/
def Ordering.empty {T : Type} (o : Ordering T) : Bool := o.nodes.isEmpty

/-- The search of `Ordering::get`: position of the cursor after the two loops of
the search mode and the value of `found`. -/
def getSearch {T : Type} (key : Nat) (smode : searchMode_t)
    (ps : List (sorted_node_t T)) (c : sorted_node_t T) (ns : List (sorted_node_t T)) :
    (List (sorted_node_t T) × sorted_node_t T × List (sorted_node_t T)) × Bool :=
  match smode with
  | .EXACT_MATCH =>
    let (ps1, c1, ns1) := walkPrevLt key ps c ns
    let (ps2, c2, ns2) := walkNextGt key ps1 c1 ns1
    ((ps2, c2, ns2), decide (key = c2.key))
  | .GREATER_THAN_OR_EQUAL =>
    let (ps1, c1, ns1) := walkPrevLt key ps c ns
    let (ps2, c2, ns2) := walkNextGt key ps1 c1 ns1
    ((ps2, c2, ns2), decide (key ≤ c2.key))
  | .LESS_THAN_OR_EQUAL =>
    let (ps1, c1, ns1) := walkNextGt key ps c ns
    let (ps2, c2, ns2) := walkPrevLt key ps1 c1 ns1
    ((ps2, c2, ns2), decide (key ≥ c2.key))
  | .GREATER_THAN =>
    let (ps1, c1, ns1) := walkPrevLt key ps c ns
    let (ps2, c2, ns2) := walkNextGt key ps1 c1 ns1
    ((ps2, c2, ns2), decide (key < c2.key))
  | .LESS_THAN =>
    let (ps1, c1, ns1) := walkNextGt key ps c ns
    let (ps2, c2, ns2) := walkPrevLt key ps1 c1 ns1
    ((ps2, c2, ns2), decide (key > c2.key))

/-- The method `Ordering::get`: the data returned (`none` when
`std::out_of_range` is thrown) and the ordering afterwards. -/
def Ordering.get {T : Type} (o : Ordering T) (key : Nat) (smode : searchMode_t) :
    Option T × Ordering T :=
  match o.links.resetCurr with
  | .nullCurr l => (none, { o with links := .nullCurr l })
  | .atCurr ps c ns =>
    match getSearch key smode ps c ns with
    | ((ps2, c2, ns2), true) => (some c2.data, { o with links := .atCurr ps2 c2 ns2 })
    | ((ps2, c2, ns2), false) => (none, { o with links := .atCurr ps2 c2 ns2 })

/-- The method `Ordering::first`: the returned key, the value written to `*data`
(`none` when nothing is written) and the ordering afterwards.  The constant
`INVALID_KEY` is declared outside the embedded sources and is a parameter. -/
def Ordering.first {T : Type} (INVALID_KEY : Nat) (o : Ordering T) :
    Nat × Option T × Ordering T :=
  match o.nodes with
  | [] => (INVALID_KEY, none, { o with links := .nullCurr [] })
  | c :: ns => (c.key, some c.data, { o with links := .atCurr [] c ns })

/-- The method `Ordering::next`. -/
def Ordering.next {T : Type} (INVALID_KEY : Nat) (o : Ordering T) :
    Nat × Option T × Ordering T :=
  match o.links with
  | .nullCurr l => (INVALID_KEY, none, { o with links := .nullCurr l })
  | .atCurr ps c [] => (INVALID_KEY, none, { o with links := .nullCurr (ps.reverse ++ [c]) })
  | .atCurr ps c (n :: ns) => (n.key, some n.data, { o with links := .atCurr (c :: ps) n ns })

/-- The method `Ordering::last`. -/
def Ordering.last {T : Type} (INVALID_KEY : Nat) (o : Ordering T) :
    Nat × Option T × Ordering T :=
  match o.nodes.reverse with
  | [] => (INVALID_KEY, none, { o with links := .nullCurr [] })
  | c :: ps => (c.key, some c.data, { o with links := .atCurr ps c [] })

/-- The method `Ordering::prev`; as in the source, the cursor steps to
`curr->next`. -/
def Ordering.prev {T : Type} (INVALID_KEY : Nat) (o : Ordering T) :
    Nat × Option T × Ordering T :=
  match o.links with
  | .nullCurr l => (INVALID_KEY, none, { o with links := .nullCurr l })
  | .atCurr ps c [] => (INVALID_KEY, none, { o with links := .nullCurr (ps.reverse ++ [c]) })
  | .atCurr ps c (n :: ns) => (n.key, some n.data, { o with links := .atCurr (c :: ps) n ns })

/-- The method `Ordering::clear`: the two loops delete every node (backward from
`lastNode`, then forward from the node behind it, of which there is none), and
`firstNode`, `lastNode` and `curr` are reset to `NULL`. -/
def Ordering.clear {T : Type} (o : Ordering T) : Ordering T :=
  { o with links := .nullCurr [] }

/-- The loop `while (key != INVALID_KEY) { add(key, data); key = next(&data); }`
of `operator=`, run on the assigned object; `none` when `fuel` iterations do not
reach the end of the loop.  A call of `next` that writes no data leaves the
variable `data` as it was. -/
def assignLoop {T : Type} (INVALID_KEY : Nat) :
    Nat → Nat → T → Ordering T → Option (Ordering T)
  | 0, key, _, o => if key = INVALID_KEY then some o else none
  | fuel + 1, key, data, o =>
    if key = INVALID_KEY then some o
    else
      let o1 := (o.add key data false).2
      let r := o1.next INVALID_KEY
      assignLoop INVALID_KEY fuel r.1 (r.2.1.getD data) r.2.2

/-- The operator `Ordering::operator=`: the object `this` after the assignment
of `other`; `data0` is the value of the default-constructed variable `data`.
As in the source, `first` and `next` are called on `this`. -/
def Ordering.assign {T : Type} (INVALID_KEY : Nat) (fuel : Nat) (data0 : T)
    (this other : Ordering T) : Option (Ordering T) :=
  let o1 : Ordering T := { this.clear with maxListSize := other.maxListSize }
  let r := o1.first INVALID_KEY
  assignLoop INVALID_KEY fuel r.1 (r.2.1.getD data0) r.2.2

/-! ## GeoIndexedRaster: data model -/

/-- The type `double`, rendered by the rational numbers (finite values only). -/
abbrev double := ℚ

/-- The type `TimeLib::gmt_time_t`. -/
structure gmt_time_t where
  year : Int
  doy : Int
  hour : Int
  minute : Int
  second : Int
  millisecond : Int
deriving DecidableEq, Repr

/-- The functions of `TimeLib` that the sampling code calls; `TimeLib` is declared
outside the embedded sources, so its functions are parameters of the embedding. -/
structure TimeLib where
  doyinrange : gmt_time_t → Int → Int → Bool
  gmt2gpstime : gmt_time_t → Int

/-- The type `raster_info_t`; `uraster` points into the vector of unique rasters
and is rendered by the position of the pointee in that vector. -/
structure raster_info_t where
  dataIsElevation : Bool
  tag : String
  fileName : String
  uraster : Option Nat
deriving DecidableEq, Repr

/-- The type `rasters_group_t`. -/
structure rasters_group_t where
  id : String
  infovect : List raster_info_t
  gmtDate : gmt_time_t
  gpsTime : Int
deriving DecidableEq, Repr

/-- The type `GroupOrdering`, an `Ordering` of raster groups. -/
abbrev GroupOrdering := Ordering rasters_group_t

/-- The fields of `GeoParms` read by the sampling code; `url_substring` is a
`const char*` that may be `NULL`. -/
structure GeoParms where
  url_substring : Option String
  filter_doy_range : Bool
  doy_keep_inrange : Bool
  doy_start : Int
  doy_end : Int
  filter_closest_time : Bool
  closest_time : gmt_time_t
  flags_file : Bool
  filter_time : Bool
  start_time : gmt_time_t
  stop_time : gmt_time_t
deriving DecidableEq, Repr

/-- The constant `FLAGS_TAG`. -/
def FLAGS_TAG : String := "Fmask"

/-- The constant `VALUE_TAG`. -/
def VALUE_TAG : String := "Value"

/-- The constant `MAX_READER_THREADS`. -/
def MAX_READER_THREADS : Nat := 200

/-- The error bit `SS_NO_ERRORS`. -/
def SS_NO_ERRORS : Nat := 0

/-! ## GeoIndexedRaster::filterRasters -/

/-- The test `fileName.find(sub) == std::string::npos` negated: `sub` occurs in
`fileName`. -/
def strContains (fileName sub : String) : Bool := decide (sub.data <:+: fileName.data)

/-- The loop over `rgroup->infovect` in the first stage of `filterRasters`,
giving the value of `removeGroup` when the loop is left. -/
def removeGroupLoop (tl : TimeLib) (parms : GeoParms) (rgroup : rasters_group_t) :
    List raster_info_t → Bool
  | [] => false
  | rinfo :: rest =>
    if (match parms.url_substring with
        | some sub => !strContains rinfo.fileName sub
        | none => false) then true
    else if parms.filter_doy_range &&
        (let inrange := tl.doyinrange rgroup.gmtDate parms.doy_start parms.doy_end
         if parms.doy_keep_inrange then !inrange else inrange) then true
    else removeGroupLoop tl parms rgroup rest

/-- The first stage of `filterRasters`: URL and day-of-year filter. -/
def filterUrlDoy (tl : TimeLib) (parms : GeoParms) (groupList : GroupOrdering) : GroupOrdering :=
  if parms.url_substring.isSome || parms.filter_doy_range then
    (groupList.Iterator).foldl
      (fun gl kv =>
        if removeGroupLoop tl parms kv.data kv.data.infovect then
          (gl.remove kv.key .EXACT_MATCH).2
        else gl)
      groupList
  else groupList

/-- The value of `closestGps` in `filterRasters`. -/
def closestGpsOf (tl : TimeLib) (parms : GeoParms) (gps : Int) : Int :=
  if gps > 0 then gps
  else if parms.filter_closest_time then tl.gmt2gpstime parms.closest_time
  else 0

/-- The first loop of the closest-time stage: the value of `minDelta` after the
pass over the groups. -/
def findMinDelta (closestGps : Int) (group_iter : List (sorted_node_t rasters_group_t)) : Int :=
  group_iter.foldl
    (fun minDelta kv =>
      let delta := abs64 (sub64 closestGps kv.data.gpsTime)
      if delta < minDelta then delta else minDelta)
    (abs64 (sub64 INT64_MAX closestGps))

/-- The second stage of `filterRasters`: closest-time filter. -/
def filterClosestTime (closestGps : Int) (groupList : GroupOrdering) : GroupOrdering :=
  if closestGps > 0 then
    let group_iter := groupList.Iterator
    let minDelta := findMinDelta closestGps group_iter
    group_iter.foldl
      (fun gl kv =>
        let delta := abs64 (sub64 closestGps kv.data.gpsTime)
        if delta > minDelta then (gl.remove kv.key .EXACT_MATCH).2 else gl)
      groupList
  else groupList

/-- The method `GeoIndexedRaster::filterRasters`: the returned flag and the group
ordering afterwards. -/
def filterRasters (tl : TimeLib) (parms : GeoParms) (gps : Int) (groupList : GroupOrdering) :
    Bool × GroupOrdering :=
  let gl1 := filterUrlDoy tl parms groupList
  let gl2 := filterClosestTime (closestGpsOf tl parms gps) gl1
  (!gl2.empty, gl2)

/-- The merge at the end of `findRastersParallel`: the groups found by the finder
threads, in partition order, are added with key `groupList->length()`. -/
def combineFinderResults (groupList : GroupOrdering) (found : List rasters_group_t) :
    GroupOrdering :=
  found.foldl (fun gl rgroup => (gl.add gl.length rgroup false).2) groupList

/-! ## Declarations outside the embedded sources -/

/-- Constants and functions that the sampling code uses and whose declarations
(`GeoIndexedRaster.h` of this version, `RasterObject.h`) lie outside the
embedded sources; they are parameters of the embedding.  The spec gives
`MAX_FINDER_THREADS` as about 8 and `MIN_FEATURES_PER_FINDER_THREAD` as about
1000; `fileDictAdd` yields the file id of a raster path. -/
structure Constants where
  MAX_CACHE_SIZE : Nat
  MAX_FINDER_THREADS : Nat
  MIN_FEATURES_PER_FINDER_THREAD : Nat
  SS_THREADS_LIMIT_ERROR : Nat
  SS_INDEX_FILE_ERROR : Nat
  SS_RESOURCE_LIMIT_ERROR : Nat
  fileDictAdd : String → Nat

/-- Modelled from the spec: the type `RasterSample`, declared in a header outside
the embedded sources.  "Sample `{value: f64, time: gps, file-id, flags: u32,
error-word: u32}`". -/
structure RasterSample where
  value : double
  time : double
  fileId : Nat
  flags : Nat
  errorWord : Nat
deriving DecidableEq, Repr

/-- Modelled from the spec: the type `RasterSubset`, declared in a header outside
the embedded sources; only the raster name is kept. -/
structure RasterSubset where
  rasterName : String
deriving DecidableEq, Repr

/-- Modelled from the spec: the raster handle `GdalRaster`, declared in a header
outside the embedded sources, with the arguments of its constructor and its "per-handle
error word". -/
structure GdalRaster where
  fileName : String
  gpsTime : double
  fileId : Nat
  dataIsElevation : Bool
  ssError : Nat
deriving DecidableEq, Repr

/-- Modelled from the spec: the method `GdalRaster::getSSerror`, "read and clear
the handle's error word". -/
def GdalRaster.getSSerror (r : GdalRaster) : Nat × GdalRaster := (r.ssError, { r with ssError := 0 })

/-- The conversion of a `double` to `uint32_t` (`return _sample->value;` in a
function returning `uint32_t`): truncation toward zero; values outside the
range of `uint32_t`, where C++ leaves the result undefined, are reduced modulo
`2^32`. -/
def doubleToU32 (v : double) : Nat := (Int.tdiv v.num v.den % 2 ^ 32).toNat

/-- Modelled from the spec: the class `Dictionary<T>` (string keys), declared in
a header outside the embedded sources.  The handle cache is "a bounded mapping from
raster path to an open Raster Handle plus its last result slot"; the entries are
listed in the order of `first`/`next`. -/
structure Dictionary (T : Type) where
  entries : List (String × T)
deriving DecidableEq, Repr

/-- Modelled from the spec: `Dictionary::find`, the value stored under `key`. -/
def Dictionary.find {T : Type} (d : Dictionary T) (key : String) : Option T :=
  d.entries.lookup key

/-- Modelled from the spec: `Dictionary::length`. -/
def Dictionary.length {T : Type} (d : Dictionary T) : Nat := d.entries.length

/-- A write through the pointer that `Dictionary::find` hands out: the value
stored under `key` is replaced by `f` of it. -/
def modifyEntry {T : Type} (key : String) (f : T → T) : List (String × T) → List (String × T)
  | [] => []
  | e :: es => if e.1 == key then (e.1, f e.2) :: es else e :: modifyEntry key f es

/-- A write through the pointer that `Dictionary::find` hands out. -/
def Dictionary.modify {T : Type} (d : Dictionary T) (key : String) (f : T → T) : Dictionary T :=
  ⟨modifyEntry key f d.entries⟩

/-- Modelled from the spec: `Dictionary::add`: the value is stored under `key`,
as a new entry when the key is absent. -/
def Dictionary.add {T : Type} (d : Dictionary T) (key : String) (data : T) :
    Bool × Dictionary T :=
  match d.find key with
  | some _ => (true, d.modify key (fun _ => data))
  | none => (true, ⟨d.entries ++ [(key, data)]⟩)

/-- Modelled from the spec: `Dictionary::remove`: the entry under `key` is
dropped; the flag tells whether there was one. -/
def Dictionary.remove {T : Type} (d : Dictionary T) (key : String) : Bool × Dictionary T :=
  ((d.find key).isSome, ⟨d.entries.filter (fun e => e.1 != key)⟩)

/-! ## GeoIndexedRaster: handle cache and single-point sampling -/

/-- The type `cacheitem_t`. -/
structure cacheitem_t where
  enabled : Bool
  raster : GdalRaster
  sample : Option RasterSample
  subset : Option RasterSubset
deriving DecidableEq, Repr

/-- The members of a `GeoIndexedRaster` object that the single-point path reads
and writes; `readers` is `readers.length()`. -/
structure GeoIndexedRaster where
  cache : Dictionary cacheitem_t
  ssErrors : Nat
  readers : Nat
deriving DecidableEq, Repr

/-- What the environment answers during one request: whether `openGeoIndex` was
called and failed, the groups found by the finder threads (merged in partition
order), how many reader threads the system lets the object have, and for every
raster handle the result of `samplePOI` with the error bits it leaves in the
handle. -/
structure Environment where
  openGeoIndexFails : Bool
  found : List rasters_group_t
  maxThreads : Nat
  samplePOI : GdalRaster → Option RasterSample × Nat

/-- The first block of `updateCache`: every cache item is marked not enabled. -/
def disableAll (cache : Dictionary cacheitem_t) : Dictionary cacheitem_t :=
  ⟨cache.entries.map (fun e => (e.1, { e.2 with enabled := false }))⟩

/-- The body of the inner loop of `updateCache` for one descriptor: the cache
and `rasters2sample` afterwards.  The assignment to `parms->aoi_bbox` is left
out. -/
def updateCacheRaster (c : Constants) (rgroup : rasters_group_t)
    (acc : Dictionary cacheitem_t × Nat) (rinfo : raster_info_t) : Dictionary cacheitem_t × Nat :=
  let key := rinfo.fileName
  let cache1 :=
    match acc.1.find key with
    | some _ => acc.1
    | none =>
      (acc.1.add key
        { enabled := false
          raster := ⟨rinfo.fileName, ((Int.tdiv rgroup.gpsTime 1000 : Int) : ℚ),
            c.fileDictAdd rinfo.fileName, rinfo.dataIsElevation, 0⟩
          sample := none
          subset := none }).2
  (cache1.modify key (fun item => { item with enabled := true }), wrapU32 (acc.2 + 1))

/-- The marking loops of `updateCache` over the groups and their descriptors. -/
def updateCacheMark (c : Constants) (groupList : GroupOrdering)
    (acc : Dictionary cacheitem_t × Nat) : Dictionary cacheitem_t × Nat :=
  (groupList.Iterator).foldl
    (fun acc kv => kv.data.infovect.foldl (updateCacheRaster c kv.data) acc) acc

/-- The block "Maintain cache from getting too big" of `updateCache`. -/
def evictDisabled (c : Constants) (cache : Dictionary cacheitem_t) : Dictionary cacheitem_t :=
  if cache.length > c.MAX_CACHE_SIZE then
    let keys_to_remove := (cache.entries.filter (fun e => !e.2.enabled)).map (fun e => e.1)
    keys_to_remove.foldl (fun d key => (d.remove key).2) cache
  else cache

/-- The method `GeoIndexedRaster::updateCache`: the returned flag, the value of
`rasters2sample` and the object afterwards. -/
def updateCache (c : Constants) (rasters2sample : Nat) (groupList : GroupOrdering)
    (obj : GeoIndexedRaster) : Bool × Nat × GeoIndexedRaster :=
  let marked := updateCacheMark c groupList (disableAll obj.cache, rasters2sample)
  let cache2 := evictDisabled c marked.1
  if marked.2 > MAX_READER_THREADS then
    (false, marked.2,
      { obj with cache := cache2, ssErrors := obj.ssErrors ||| c.SS_THREADS_LIMIT_ERROR })
  else (true, marked.2, { obj with cache := cache2 })

/-- The method `GeoIndexedRaster::findRastersParallel`, with the opening of the
index file and the work of the finder threads answered by the environment. -/
def findRastersParallel (c : Constants) (env : Environment) (groupList : GroupOrdering)
    (obj : GeoIndexedRaster) : Bool × GroupOrdering × GeoIndexedRaster :=
  if env.openGeoIndexFails then
    (false, groupList, { obj with ssErrors := obj.ssErrors ||| c.SS_INDEX_FILE_ERROR })
  else
    let gl := combineFinderResults groupList env.found
    (!gl.empty, gl, obj)

/-- The method `GeoIndexedRaster::createReaderThreads`; creating a thread beyond
`env.maxThreads` raises the exception caught in the method. -/
def createReaderThreads (c : Constants) (env : Environment) (rasters2sample : Nat)
    (obj : GeoIndexedRaster) : Bool × GeoIndexedRaster :=
  let threadsNeeded := rasters2sample
  let threadsNow := obj.readers
  if threadsNeeded ≤ threadsNow then (true, obj)
  else if threadsNeeded ≤ env.maxThreads then (true, { obj with readers := threadsNeeded })
  else
    (false, { obj with readers := max threadsNow env.maxThreads,
                       ssErrors := obj.ssErrors ||| c.SS_RESOURCE_LIMIT_ERROR })

/-- The method `GeoIndexedRaster::sampleRasters` for a point geometry together
with the reader threads it waits for: every enabled cache item is sampled. -/
def sampleRasters (env : Environment) (obj : GeoIndexedRaster) : GeoIndexedRaster :=
  { obj with cache := ⟨obj.cache.entries.map (fun e =>
      if e.2.enabled then
        (e.1, { e.2 with sample := (env.samplePOI e.2.raster).1
                         raster := { e.2.raster with
                           ssError := e.2.raster.ssError ||| (env.samplePOI e.2.raster).2 }
                         enabled := false })
      else e)⟩ }

/-- The method `GeoIndexedRaster::sample`. -/
def sample (c : Constants) (tl : TimeLib) (parms : GeoParms) (env : Environment) (gps : Int)
    (groupList : GroupOrdering) (obj : GeoIndexedRaster) :
    Bool × GroupOrdering × GeoIndexedRaster :=
  match findRastersParallel c env groupList obj with
  | (false, gl1, obj1) => (false, gl1, obj1)
  | (true, gl1, obj1) =>
    match filterRasters tl parms gps gl1 with
    | (false, gl2) => (false, gl2, obj1)
    | (true, gl2) =>
      match updateCache c 0 gl2 obj1 with
      | (false, _, obj2) => (false, gl2, obj2)
      | (true, rasters2sample, obj2) =>
        match createReaderThreads c env rasters2sample obj2 with
        | (false, obj3) => (false, gl2, obj3)
        | (true, obj3) => (true, gl2, sampleRasters env obj3)

/-- The loop of `GeoIndexedRaster::getGroupFlags` over the descriptors. -/
def getGroupFlagsLoop (cache : Dictionary cacheitem_t) : List raster_info_t → Nat
  | [] => 0
  | rinfo :: rest =>
    if rinfo.tag ≠ FLAGS_TAG then getGroupFlagsLoop cache rest
    else
      match cache.find rinfo.fileName with
      | some item =>
        match item.sample with
        | some _sample => doubleToU32 _sample.value
        | none => getGroupFlagsLoop cache rest
      | none => getGroupFlagsLoop cache rest

/-- The method `GeoIndexedRaster::getGroupFlags`. -/
def getGroupFlags (obj : GeoIndexedRaster) (rgroup : rasters_group_t) : Nat :=
  getGroupFlagsLoop obj.cache rgroup.infovect

/-- The loop of `GeoIndexedRaster::getGroupSamples` over the descriptors: the
object and the output list afterwards. -/
def getGroupSamplesLoop (flags : Nat) (obj : GeoIndexedRaster) (slist : List RasterSample) :
    List raster_info_t → GeoIndexedRaster × List RasterSample
  | [] => (obj, slist)
  | rinfo :: rest =>
    if rinfo.tag ≠ VALUE_TAG then getGroupSamplesLoop flags obj slist rest
    else
      let key := rinfo.fileName
      match obj.cache.find key with
      | some item =>
        let r : Dictionary cacheitem_t × List RasterSample :=
          match item.sample with
          | some _sample =>
            (obj.cache.modify key (fun it => { it with sample := none }),
              slist ++ [{ _sample with flags := flags }])
          | none => (obj.cache, slist)
        ({ obj with
            cache := r.1.modify key (fun it => { it with raster := it.raster.getSSerror.2 })
            ssErrors := obj.ssErrors ||| item.raster.getSSerror.1 }, r.2)
      | none => getGroupSamplesLoop flags obj slist rest

/-- The method `GeoIndexedRaster::getGroupSamples`. -/
def getGroupSamples (obj : GeoIndexedRaster) (rgroup : rasters_group_t)
    (slist : List RasterSample) (flags : Nat) : GeoIndexedRaster × List RasterSample :=
  getGroupSamplesLoop flags obj slist rgroup.infovect

/-- The body of the loop of the single-point `getSamples` for one group. -/
def getSamplesGroup (parms : GeoParms) (acc : GeoIndexedRaster × List RasterSample)
    (rgroup : rasters_group_t) : GeoIndexedRaster × List RasterSample :=
  let flags := if parms.flags_file then getGroupFlags acc.1 rgroup else 0
  getGroupSamples acc.1 rgroup acc.2 flags

/-- The block "Free Unreturned Results" of the single-point `getSamples`. -/
def freeUnreturned (obj : GeoIndexedRaster) : GeoIndexedRaster :=
  { obj with cache := ⟨obj.cache.entries.map (fun e =>
      (e.1, { e.2 with sample := none, subset := none }))⟩ }

/-- The method `GeoIndexedRaster::getSamples` for a single point: the returned
error word, the output list and the object afterwards. -/
def getSamples (c : Constants) (tl : TimeLib) (parms : GeoParms) (env : Environment) (gps : Int)
    (slist : List RasterSample) (obj : GeoIndexedRaster) :
    Nat × List RasterSample × GeoIndexedRaster :=
  let obj0 := { obj with ssErrors := SS_NO_ERRORS }
  let r : GeoIndexedRaster × List RasterSample :=
    match sample c tl parms env gps Ordering.new obj0 with
    | (true, groupList, obj1) =>
      ((groupList.Iterator).map (fun kv => kv.data)).foldl (getSamplesGroup parms) (obj1, slist)
    | (false, _, obj1) => (obj1, slist)
  let obj2 := freeUnreturned r.1
  (obj2.ssErrors, r.2, obj2)

/-! ## GeoIndexedRaster: batch sampling -/

/-- The type `MathLib::point_3d_t` (an `OGRPoint`). -/
structure point_3d_t where
  x : double
  y : double
  z : double
deriving DecidableEq, Repr

/-- The type `point_info_t` as filled in the batch `getSamples`: the point and
its index in the list of points. -/
structure point_info_t where
  point : point_3d_t
  index : Nat
deriving DecidableEq, Repr

/-- The type `point_sample_t`. -/
structure point_sample_t where
  pointInfo : point_info_t
  sample : Option RasterSample
  ssErrors : Nat
deriving DecidableEq, Repr

/-- The type `unique_raster_t`. -/
structure unique_raster_t where
  rinfo : raster_info_t
  gpsTime : Int
  fileId : Nat
  pointSamples : List point_sample_t
deriving DecidableEq, Repr

/-- The type `point_groups_t`. -/
structure point_groups_t where
  pointInfo : point_info_t
  groupList : GroupOrdering
deriving DecidableEq, Repr

/-- A pass over a list that carries a state and rewrites every element, the
rendering of a range-based `for` loop over references. -/
def mapAccumList {σ α : Type} (f : σ → α → σ × α) : σ → List α → σ × List α
  | s, [] => (s, [])
  | s, a :: rest =>
    let r1 := f s a
    let r2 := mapAccumList f r1.1 rest
    (r2.1, r1.2 :: r2.2)

/-- A pass over the values of an ordering in iterator order that carries a state
and rewrites the objects the values point to; keys and cursor stay. -/
def Ordering.mapAccumData {σ T : Type} (f : σ → T → σ × T) (s : σ) (o : Ordering T) :
    σ × Ordering T :=
  let g : σ → sorted_node_t T → σ × sorted_node_t T := fun s n => ((f s n.data).1, ⟨n.key, (f s n.data).2⟩)
  match o.links with
  | .nullCurr l =>
    let r := mapAccumList g s l
    (r.1, { o with links := .nullCurr r.2 })
  | .atCurr ps c ns =>
    let r1 := mapAccumList g s ps.reverse
    let r2 := g r1.1 c
    let r3 := mapAccumList g r2.1 ns
    (r3.1, { o with links := .atCurr r1.2.reverse r2.2 r3.2 })

/-- The search `for(unique_raster_t* ur : uiniqueRasters)` of the unique-raster
pass: the position, counted from `i`, of the first unique raster with the file
name. -/
def findUniqueRaster (fileName : String) : List unique_raster_t → Nat → Option Nat
  | [], _ => none
  | ur :: rest, i =>
    if ur.rinfo.fileName = fileName then some i else findUniqueRaster fileName rest (i + 1)

/-- The body of the loop over `rgroup->infovect` in the unique-raster pass: the
vector of unique rasters and the descriptor afterwards. -/
def uniqueRasterStep (c : Constants) (gpsTime : Int) (uiniqueRasters : List unique_raster_t)
    (rinfo : raster_info_t) : List unique_raster_t × raster_info_t :=
  match findUniqueRaster rinfo.fileName uiniqueRasters 0 with
  | some i => (uiniqueRasters, { rinfo with uraster := some i })
  | none =>
    (uiniqueRasters ++ [⟨rinfo, gpsTime, c.fileDictAdd rinfo.fileName, []⟩],
      { rinfo with uraster := some uiniqueRasters.length })

/-- The unique-raster pass over the descriptors of one group. -/
def uniqueRastersGroup (c : Constants) (uiniqueRasters : List unique_raster_t)
    (rgroup : rasters_group_t) : List unique_raster_t × rasters_group_t :=
  let r := mapAccumList (uniqueRasterStep c rgroup.gpsTime) uiniqueRasters rgroup.infovect
  (r.1, { rgroup with infovect := r.2 })

/-- The unique-raster pass over the groups of one point. -/
def uniqueRastersPoint (c : Constants) (uiniqueRasters : List unique_raster_t)
    (pg : point_groups_t) : List unique_raster_t × point_groups_t :=
  let r := pg.groupList.mapAccumData (uniqueRastersGroup c) uiniqueRasters
  (r.1, { pg with groupList := r.2 })

/-- The pass "Create vector of unique rasters" of the batch `getSamples`: the
vector of unique rasters and the point groups with their `uraster` set. -/
def findUniqueRasters (c : Constants) (pointGroups : List point_groups_t) :
    List unique_raster_t × List point_groups_t :=
  mapAccumList (uniqueRastersPoint c) [] pointGroups

/-- The loop over `rgroup->infovect` in the pass "find the points that belong to
it": the point samples of the unique raster afterwards. -/
def addPointForGroup (rasterName : String) (pg : point_groups_t)
    (pointSamples : List point_sample_t) : List raster_info_t → List point_sample_t
  | [] => pointSamples
  | ri :: rest =>
    if ri.fileName = rasterName then pointSamples ++ [⟨pg.pointInfo, none, SS_NO_ERRORS⟩]
    else addPointForGroup rasterName pg pointSamples rest

/-- The body of the loop over the groups of one point for one unique raster. -/
def findPointsForGroup (pg : point_groups_t) (ur : unique_raster_t)
    (kv : sorted_node_t rasters_group_t) : unique_raster_t :=
  { ur with pointSamples :=
      addPointForGroup ur.rinfo.fileName pg ur.pointSamples kv.data.infovect }

/-- The loops over the points and their groups for one unique raster. -/
def findPointsForRaster (pointGroups : List point_groups_t) (ur : unique_raster_t) :
    unique_raster_t :=
  pointGroups.foldl (fun ur pg => (pg.groupList.Iterator).foldl (findPointsForGroup pg) ur) ur

/-- The pass "For each unique raster, find the points that belong to it" of the
batch `getSamples`. -/
def findPointsForUniqueRasters (pointGroups : List point_groups_t)
    (uiniqueRasters : List unique_raster_t) : List unique_raster_t :=
  uiniqueRasters.map (findPointsForRaster pointGroups)

/-- The loop "Sample all points for this raster" of `batchReaderThread`; `read`
answers `samplePOI` on the raster of the thread together with the error bits
that `getSSerror` then returns. -/
def batchReaderSample (read : point_3d_t → Option RasterSample × Nat) (ur : unique_raster_t) :
    unique_raster_t :=
  { ur with pointSamples := ur.pointSamples.map (fun ps =>
      { ps with sample := (read ps.pointInfo.point).1
                ssErrors := ps.ssErrors ||| (read ps.pointInfo.point).2 }) }

/-- The loop over `ur->pointSamples` in `getBatchGroupSamples`: `some` of the
returned error word and the output list when the loop returns, `none` when it is
left by `break` or runs to its end. -/
def batchPointSample (flags pointIndx errors : Nat) (slist : List RasterSample) :
    List point_sample_t → Option (Nat × List RasterSample)
  | [] => none
  | ps :: rest =>
    if ps.pointInfo.index = pointIndx then
      match ps.sample with
      | none => none
      | some s => some (errors ||| ps.ssErrors, slist ++ [{ s with flags := flags }])
    else batchPointSample flags pointIndx errors slist rest

/-- The loop over `rgroup->infovect` in `getBatchGroupSamples`.  A descriptor
whose `uraster` designates no unique raster (excluded by `assert(ur)`) is
passed over. -/
def getBatchGroupSamplesLoop (uiniqueRasters : List unique_raster_t) (flags pointIndx : Nat)
    (errors : Nat) (slist : List RasterSample) : List raster_info_t → Nat × List RasterSample
  | [] => (errors, slist)
  | rinfo :: rest =>
    if rinfo.tag ≠ VALUE_TAG then
      getBatchGroupSamplesLoop uiniqueRasters flags pointIndx errors slist rest
    else
      match rinfo.uraster.bind (fun i => uiniqueRasters[i]?) with
      | none => getBatchGroupSamplesLoop uiniqueRasters flags pointIndx errors slist rest
      | some ur =>
        match batchPointSample flags pointIndx errors slist ur.pointSamples with
        | some r => r
        | none => getBatchGroupSamplesLoop uiniqueRasters flags pointIndx errors slist rest

/-- The method `GeoIndexedRaster::getBatchGroupSamples`: the returned error word
and the output list afterwards. -/
def getBatchGroupSamples (uiniqueRasters : List unique_raster_t) (rgroup : rasters_group_t)
    (slist : List RasterSample) (flags pointIndx : Nat) : Nat × List RasterSample :=
  getBatchGroupSamplesLoop uiniqueRasters flags pointIndx SS_NO_ERRORS slist rgroup.infovect

/-- The loop over `ur->pointSamples` in `getBatchGroupFlags`. -/
def batchPointFlags (pointIndx : Nat) : List point_sample_t → Option Nat
  | [] => none
  | ps :: rest =>
    if ps.pointInfo.index = pointIndx then
      match ps.sample with
      | some s => some (doubleToU32 s.value)
      | none => batchPointFlags pointIndx rest
    else batchPointFlags pointIndx rest

/-- The loop over `rgroup->infovect` in `getBatchGroupFlags`. -/
def getBatchGroupFlagsLoop (uiniqueRasters : List unique_raster_t) (pointIndx : Nat) :
    List raster_info_t → Nat
  | [] => 0
  | rinfo :: rest =>
    if rinfo.tag ≠ FLAGS_TAG then getBatchGroupFlagsLoop uiniqueRasters pointIndx rest
    else
      match rinfo.uraster.bind (fun i => uiniqueRasters[i]?) with
      | none => getBatchGroupFlagsLoop uiniqueRasters pointIndx rest
      | some ur =>
        match batchPointFlags pointIndx ur.pointSamples with
        | some v => v
        | none => getBatchGroupFlagsLoop uiniqueRasters pointIndx rest

/-- The method `GeoIndexedRaster::getBatchGroupFlags`. -/
def getBatchGroupFlags (uiniqueRasters : List unique_raster_t) (rgroup : rasters_group_t)
    (pointIndx : Nat) : Nat :=
  getBatchGroupFlagsLoop uiniqueRasters pointIndx rgroup.infovect

/-- The loop over the groups of one point in "Populate sllist with samples": the
request error word and the sample list of the point afterwards. -/
def populatePoint (parms : GeoParms) (uiniqueRasters : List unique_raster_t) (pointIndx : Nat)
    (pg : point_groups_t) (ssErrors : Nat) : Nat × List RasterSample :=
  (pg.groupList.Iterator).foldl
    (fun acc kv =>
      let flags := if parms.flags_file then getBatchGroupFlags uiniqueRasters kv.data pointIndx else 0
      let r := getBatchGroupSamples uiniqueRasters kv.data acc.2 flags pointIndx
      (acc.1 ||| r.1, r.2))
    (ssErrors, [])

/-- The block "Populate sllist with samples" of the batch `getSamples`, entered
with `pointIndx` for the first point of `pointGroups`: the request error word
and `sllist` afterwards. -/
def populateSamples (parms : GeoParms) (uiniqueRasters : List unique_raster_t) :
    Nat → List point_groups_t → Nat × List (List RasterSample) → Nat × List (List RasterSample)
  | _, [], acc => acc
  | pointIndx, pg :: rest, acc =>
    let r := populatePoint parms uiniqueRasters pointIndx pg acc.1
    populateSamples parms uiniqueRasters (pointIndx + 1) rest (r.1, acc.2 ++ [r.2])

/-! ## GeoIndexedRaster::setFindersRange -/

/-- The type `finder_range_t`. -/
structure finder_range_t where
  start_indx : Nat
  end_indx : Nat
deriving DecidableEq, Repr

/-- The loop of `setFindersRange` with `n` iterations left: the ranges written
from the current index on. -/
def setFindersRangeLoop (featuresPerThread : Nat) : Nat → Nat → Nat → List finder_range_t
  | 0, _, _ => []
  | n + 1, start, remainingFeatures =>
    let end_indx := wrapU32 (start + featuresPerThread + (if remainingFeatures > 0 then 1 else 0))
    ⟨start, end_indx⟩ ::
      setFindersRangeLoop featuresPerThread n end_indx
        (if remainingFeatures > 0 then remainingFeatures - 1 else remainingFeatures)

/-- The method `GeoIndexedRaster::setFindersRange` for `features`, the value of
the `uint32_t` variable of that name: `numFinders` and the entries
`findersRange[0 .. numFinders-1]` that the method writes. -/
def setFindersRange (c : Constants) (features : Nat) : Nat × List finder_range_t :=
  let minFeaturesPerThread := wrapU32 c.MIN_FEATURES_PER_FINDER_THREAD
  if features ≤ minFeaturesPerThread then (1, [⟨0, features⟩])
  else
    let numFinders0 := min (wrapU32 c.MAX_FINDER_THREADS) (features / minFeaturesPerThread)
    let numFinders := if numFinders0 = 1 then 2 else numFinders0
    let featuresPerThread := features / numFinders
    let remainingFeatures := features % numFinders
    (numFinders, setFindersRangeLoop featuresPerThread numFinders 0 remainingFeatures)

/-! ## GeoIndexedRaster::openGeoIndex -/

/-- What the code reads of an `OGRFeature` of the index layer: an identifier of
the feature and the date that `getFeatureDate` obtains from it (`none` when
`getFeatureDate` returns false). -/
structure OGRFeature where
  fid : Nat
  date : Option gmt_time_t
deriving DecidableEq, Repr

/-- The type `bbox_t`. -/
structure bbox_t where
  lon_min : double
  lat_min : double
  lon_max : double
  lat_max : double
deriving DecidableEq, Repr

/-- What GDAL answers for the layer of an index file: the features in reading
order and the envelope of `GetExtent` (`none` when the call does not return
`OGRERR_NONE`). -/
structure OGRLayer where
  features : List OGRFeature
  extent : Option bbox_t
deriving DecidableEq, Repr

/-- What GDAL answers for an opened index file: `GetLayer(0)` (`none` for a null
pointer) and the raster sizes. -/
structure GDALDataset where
  layer0 : Option OGRLayer
  rasterXSize : Nat
  rasterYSize : Nat
deriving DecidableEq, Repr

/-- The members of a `GeoIndexedRaster` object that `openGeoIndex` reads and
writes; `geoIndexPoly` is `none` for the empty polygon and otherwise the rectangle
made by `GdalRaster::makeRectangle`. -/
structure GeoIndex where
  featuresList : List OGRFeature
  indexFile : String
  geoIndexPoly : Option bbox_t
  bbox : bbox_t
  cols : Nat
  rows : Nat
  ssErrors : Nat
deriving DecidableEq, Repr

/-- The calls of `openGeoIndex` that leave the embedded sources: the virtual
`getIndexFile`, `GDALOpenEx` (`none` for a null dataset) and
`TimeLib::gmtinrange`. -/
structure IndexEnvironment (Geo : Type) where
  getIndexFile : Geo → String
  GDALOpenEx : String → Option GDALDataset
  gmtinrange : gmt_time_t → gmt_time_t → gmt_time_t → Bool

/-- The temporal filter in the feature loop of `openGeoIndex`: whether the
feature is cloned into `featuresList`. -/
def keepFeature {Geo : Type} (env : IndexEnvironment Geo) (parms : GeoParms)
    (feature : OGRFeature) : Bool :=
  match feature.date with
  | some gmtDate =>
    if parms.filter_time then env.gmtinrange gmtDate parms.start_time parms.stop_time else true
  | none => true

/-- The `catch` block of `openGeoIndex`. -/
def openGeoIndexCatch (c : Constants) (idx : GeoIndex) : Bool × GeoIndex :=
  (false, { idx with featuresList := [], ssErrors := idx.ssErrors ||| c.SS_INDEX_FILE_ERROR })

/-- The method `GeoIndexedRaster::openGeoIndex`: the returned flag and the index
members afterwards. -/
def openGeoIndex {Geo : Type} (c : Constants) (env : IndexEnvironment Geo) (parms : GeoParms)
    (geo : Geo) (idx : GeoIndex) : Bool × GeoIndex :=
  let newFile := env.getIndexFile geo
  if !idx.featuresList.isEmpty && newFile == idx.indexFile then (true, idx)
  else
    let idx1 := { idx with featuresList := [], geoIndexPoly := none }
    match env.GDALOpenEx newFile with
    | none => openGeoIndexCatch c idx1
    | some dset =>
      let idx2 := { idx1 with indexFile := newFile }
      match dset.layer0 with
      | none => openGeoIndexCatch c idx2
      | some layer =>
        let idx3 := { idx2 with
          featuresList := idx2.featuresList ++ layer.features.filter (keepFeature env parms)
          cols := dset.rasterXSize
          rows := dset.rasterYSize }
        match layer.extent with
        | some e => (true, { idx3 with bbox := e, geoIndexPoly := some e })
        | none => (true, idx3)

/-! ## BathyRefractionCorrector.cpp -/

/-- The operations of C++ `double` arithmetic and of `<cmath>` that the
refraction pass uses, over a carrier `F` for the values of type `double`:
literals, `M_PI`, the four operations, `sin`, `cos`, `asin`, `sqrt`, the test
`a > b` and `static_cast<uint32_t>`.  The embedding of the pass is generic in
them; rounding is a property of the instance. -/
structure DoubleOps (F : Type) where
  ofRat : ℚ → F
  M_PI : F
  add : F → F → F
  sub : F → F → F
  mul : F → F → F
  div : F → F → F
  sin : F → F
  cos : F → F
  asin : F → F
  sqrt : F → F
  gt : F → F → Bool
  toUint32 : F → Nat

/-- The constant `GLOBAL_WATER_RI_MASK_MAX_LAT`. -/
def GLOBAL_WATER_RI_MASK_MAX_LAT : double := 90.0

/-- The constant `GLOBAL_WATER_RI_MASK_MIN_LAT`. -/
def GLOBAL_WATER_RI_MASK_MIN_LAT : double := -78.75

/-- The constant `GLOBAL_WATER_RI_MASK_MAX_LON`. -/
def GLOBAL_WATER_RI_MASK_MAX_LON : double := 180.0

/-- The constant `GLOBAL_WATER_RI_MASK_MIN_LON`. -/
def GLOBAL_WATER_RI_MASK_MIN_LON : double := -180.0

/-- The constant `GLOBAL_WATER_RI_MASK_PIXEL_SIZE`. -/
def GLOBAL_WATER_RI_MASK_PIXEL_SIZE : double := 0.25

/-- Modelled from the spec: row `i` of the `BathyDataFrame`, whose declaration is
outside the embedded sources.  A photon "carries lat, lon, x (UTM E), y (UTM N),
surface_h, ortho_h, ref_el, ref_az, delta_h (output)"; the fields are the values
`df.lat_ph[i]`, `df.lon_ph[i]`, ... of the columns that `runThread` touches. -/
structure Photon (F : Type) where
  lat_ph : F
  lon_ph : F
  x_ph : F
  y_ph : F
  surface_h : F
  ortho_h : F
  ref_el : F
  ref_az : F
  delta_h : F
deriving DecidableEq, Repr

/-- Modelled from the spec: the photon data frame, one row per photon
(`df.length()` is the length of the list). -/
abbrev BathyDataFrame (F : Type) := List (Photon F)

/-- Modelled from the spec: the refraction parameters `RIAir`, `RIWater`,
`useWaterRIMask` of the request (`RefractionFields`, declared outside the embedded
sources). -/
structure RefractionFields (F : Type) where
  RIAir : F
  RIWater : F
  useWaterRIMask : Bool
deriving DecidableEq, Repr

/-- The calls into `GeoLib::TIFFImage`, declared outside the embedded sources:
`getHeight()` and the field `f64` of `getPixel(x, y)`. -/
structure TIFFImage (F : Type) where
  getHeight : Nat
  getPixel : Nat → Nat → F

/-- The members of a `BathyRefractionCorrector` that `runThread` reads and
writes; `waterRiMask` is `none` for the null pointer. -/
structure BathyRefractionCorrector (F : Type) where
  parms : RefractionFields F
  waterRiMask : Option (TIFFImage F)
  subaqueousPhotons : Nat

/-- The constructor `BathyRefractionCorrector::BathyRefractionCorrector`;
`image` is the image that `new GeoLib::TIFFImage(...)` loads from
`GLOBAL_WATER_RI_MASK`. -/
def BathyRefractionCorrector.new {F : Type} (parms : RefractionFields F) (image : TIFFImage F) :
    BathyRefractionCorrector F :=
  ⟨parms, if parms.useWaterRIMask then some image else none, 0⟩

/-- The block "Get Refraction Index of Water" of `runThread`: the value of
`ri_water` for one photon. -/
def waterRI {F : Type} (ops : DoubleOps F) (parms : RefractionFields F)
    (waterRiMask : Option (TIFFImage F)) (ph : Photon F) : F :=
  match waterRiMask with
  | none => parms.RIWater
  | some mask =>
    let degrees_of_latitude := ops.sub ph.lat_ph (ops.ofRat GLOBAL_WATER_RI_MASK_MIN_LAT)
    let latitude_pixels := ops.div degrees_of_latitude (ops.ofRat GLOBAL_WATER_RI_MASK_PIXEL_SIZE)
    let y := wrapU32 (mask.getHeight + 2 ^ 32 - wrapU32 (ops.toUint32 latitude_pixels))
    let degrees_of_longitude := ops.sub ph.lon_ph (ops.ofRat GLOBAL_WATER_RI_MASK_MIN_LON)
    let longitude_pixels := ops.div degrees_of_longitude (ops.ofRat GLOBAL_WATER_RI_MASK_PIXEL_SIZE)
    let x := wrapU32 (ops.toUint32 longitude_pixels)
    mask.getPixel x y

/-- The local constants of the refraction block of `runThread`. -/
structure refraction_t (F : Type) where
  theta_1 : F
  theta_2 : F
  phi : F
  s : F
  r : F
  p : F
  gamma : F
  alpha : F
  beta : F
  dZ : F
  dY : F
  dE : F
  dN : F

/-- The refraction block of `runThread` ("photon_refraction", after Parrish et
al. 2019) for one photon with `depth > 0`: the constants it computes from the
refraction indices, the depth and the pointing angles. -/
def photon_refraction {F : Type} (ops : DoubleOps F) (n1 n2 depth ref_el ref_az : F) :
    refraction_t F :=
  let theta_1 := ops.sub (ops.div ops.M_PI (ops.ofRat 2)) ref_el
  let theta_2 := ops.asin (ops.div (ops.mul n1 (ops.sin theta_1)) n2)
  let phi := ops.sub theta_1 theta_2
  let s := ops.div depth (ops.cos theta_1)
  let r := ops.div (ops.mul s n1) n2
  let p := ops.sqrt (ops.sub (ops.add (ops.mul r r) (ops.mul s s))
    (ops.mul (ops.mul (ops.mul (ops.ofRat 2) r) s) (ops.cos (ops.sub theta_1 theta_2))))
  let gamma := ops.sub (ops.div ops.M_PI (ops.ofRat 2)) theta_1
  let alpha := ops.asin (ops.div (ops.mul r (ops.sin phi)) p)
  let beta := ops.sub gamma alpha
  let dZ := ops.mul p (ops.sin beta)
  let dY := ops.mul p (ops.cos beta)
  let dE := ops.mul dY (ops.sin ref_az)
  let dN := ops.mul dY (ops.cos ref_az)
  ⟨theta_1, theta_2, phi, s, r, p, gamma, alpha, beta, dZ, dY, dE, dN⟩

/-- The local `depth` of `runThread`: `df.surface_h[i] - df.ortho_h[i]`. -/
def depth {F : Type} (ops : DoubleOps F) (ph : Photon F) : F := ops.sub ph.surface_h ph.ortho_h

/-- The body of the loop of `runThread` for one photon: the corrector (with its
counter `subaqueousPhotons`) and the row afterwards.  `transform` is
`GeoLib::UTMTransform::calculateCoordinates`, giving the fields `x` and `y` of
the returned point. -/
def runThreadBody {F : Type} (ops : DoubleOps F) (transform : F → F → F × F)
    (rc : BathyRefractionCorrector F) (ph : Photon F) : BathyRefractionCorrector F × Photon F :=
  let ri_water := waterRI ops rc.parms rc.waterRiMask ph
  if ops.gt (depth ops ph) (ops.ofRat 0) then
    let n1 := rc.parms.RIAir
    let n2 := ri_water
    let c := photon_refraction ops n1 n2 (depth ops ph) ph.ref_el ph.ref_az
    let corr_x_ph := ops.add ph.x_ph c.dE
    let corr_y_ph := ops.add ph.y_ph c.dN
    let point := transform corr_x_ph corr_y_ph
    ({ rc with subaqueousPhotons := rc.subaqueousPhotons + 1 },
     { ph with delta_h := c.dZ, lat_ph := point.1, lon_ph := point.2 })
  else (rc, ph)

/-- The constants of the refraction block as `runThread` computes them for the
row `ph`: `n1` is `RIAir`, `n2` is the value of `ri_water`. -/
def refractionOf {F : Type} (ops : DoubleOps F) (rc : BathyRefractionCorrector F)
    (ph : Photon F) : refraction_t F :=
  photon_refraction ops rc.parms.RIAir (waterRI ops rc.parms rc.waterRiMask ph) (depth ops ph)
    ph.ref_el ph.ref_az

/-- The function `BathyRefractionCorrector::runThread`: the corrector and the
data frame after the pass over all rows. -/
def runThread {F : Type} (ops : DoubleOps F) (transform : F → F → F × F)
    (rc : BathyRefractionCorrector F) (df : BathyDataFrame F) :
    BathyRefractionCorrector F × BathyDataFrame F :=
  mapAccumList (runThreadBody ops transform) rc df

/-- The idealisation of `double` arithmetic by the real numbers: exact
operations, `M_PI` is the number pi, `asin` and `sqrt` are the real functions
(a quotient with divisor zero has no meaning in it). -/
noncomputable def realOps : DoubleOps ℝ where
  ofRat q := (q : ℝ)
  M_PI := Real.pi
  add a b := a + b
  sub a b := a - b
  mul a b := a * b
  div a b := a / b
  sin := Real.sin
  cos := Real.cos
  asin := Real.arcsin
  sqrt := Real.sqrt
  gt a b := decide (a > b)
  toUint32 v := ((if 0 ≤ v then ⌊v⌋ else ⌈v⌉) % 2 ^ 32).toNat

/-- The pixel coordinates `(x, y)` that the block "Get Refraction Index of Water"
of `runThread` computes for one photon and passes to `getPixel`. -/
def waterRiMaskPixel {F : Type} (ops : DoubleOps F) (mask : TIFFImage F) (ph : Photon F) :
    Nat × Nat :=
  let degrees_of_latitude := ops.sub ph.lat_ph (ops.ofRat GLOBAL_WATER_RI_MASK_MIN_LAT)
  let latitude_pixels := ops.div degrees_of_latitude (ops.ofRat GLOBAL_WATER_RI_MASK_PIXEL_SIZE)
  let y := wrapU32 (mask.getHeight + 2 ^ 32 - wrapU32 (ops.toUint32 latitude_pixels))
  let degrees_of_longitude := ops.sub ph.lon_ph (ops.ofRat GLOBAL_WATER_RI_MASK_MIN_LON)
  let longitude_pixels := ops.div degrees_of_longitude (ops.ofRat GLOBAL_WATER_RI_MASK_PIXEL_SIZE)
  let x := wrapU32 (ops.toUint32 longitude_pixels)
  (x, y)

/-! ## PgcDemStripsRaster::getIndexFile -/

/-- The conversion `static_cast<int>(floor(v))` of a double; values outside the
range of `int`, where C++ leaves the result undefined, are reduced modulo
`2^32`. -/
def floorToInt (v : double) : Int := wrap32 ⌊v⌋

/-- The call `abs(x)` on an `int`. -/
def abs32 (x : Int) : Int := wrap32 (if x < 0 then -x else x)

/-- The conversion `%0<width>d` of `sprintf`: the decimal digits of `v`, after
the sign if `v` is negative, filled with zeros to `width` characters. -/
def sprintf0d (width : Nat) (v : Int) : String :=
  if v < 0 then
    "-" ++ String.mk (List.replicate (width - 1 - (Nat.repr v.natAbs).length) '0') ++
      Nat.repr v.natAbs
  else
    String.mk (List.replicate (width - (Nat.repr v.natAbs).length) '0') ++ Nat.repr v.natAbs

/-- The method `PgcDemStripsRaster::getIndexFile`: the value written to `file`. -/
def getIndexFile (path2geocells : String) (lon lat : double) : String :=
  let _lon := floorToInt lon
  let _lat := floorToInt lat
  let lonStr := sprintf0d 3 (abs32 _lon)
  let latStr := sprintf0d 2 (abs32 _lat)
  path2geocells ++ latStr ++ (if _lon < 0 then "w" else "e") ++ lonStr ++ ".geojson"

/-! ## ArcticDEMRaster::readRaster -/

/-- The enumeration `GDALRIOResampleAlg` of GDAL. -/
inductive GDALRIOResampleAlg where
  | GRIORA_NearestNeighbour
  | GRIORA_Bilinear
  | GRIORA_Cubic
  | GRIORA_CubicSpline
  | GRIORA_Lanczos
  | GRIORA_Average
  | GRIORA_Mode
  | GRIORA_Gauss
deriving DecidableEq, Repr

/-- The arguments of a call of `GDALRasterBand::RasterIO` that `readRaster`
varies: offset and size of the window, and the resampling of the extra
arguments. -/
structure RasterIOArgs where
  nXOff : Int
  nYOff : Int
  nXSize : Int
  nYSize : Int
  eResampleAlg : GDALRIOResampleAlg
deriving DecidableEq, Repr

/-- The calls of GDAL on the raster band, outside the embedded sources.  The
last argument is the number of the attempt, so that a read may fail at one
attempt and succeed at a later one; `none` is a null block or an error code
other than `CE_None`.  A block is given by the values `fp[offset]` of its data. -/
structure GDALRasterBand (V : Type) where
  GetLockedBlockRef : Nat → Nat → Nat → Option (Nat → V)
  RasterIO : RasterIOArgs → Nat → Option V

/-- The fields of `ArcticDEMRaster::raster_info_t` that the pixel read uses. -/
structure ArcticDEMRaster.raster_info_t where
  cols : Int
  rows : Int
  cellSize : double
  xBlockSize : Int
  yBlockSize : Int
deriving DecidableEq, Repr

/-- The conversion of an `int` to `uint32_t`. -/
def intToU32 (x : Int) : Nat := (x % 2 ^ 32).toNat

/-- The retry loop `int cnt = 2; do { r = read(); } while (failed(r) && cnt--);`
started with counter `cnt` before attempt number `i`: the outcome of the last
attempt and the number of attempts made so far. -/
def retryRead {α : Type} (read : Nat → Option α) : Nat → Nat → Option α × Nat
  | 0, i => (read i, i + 1)
  | cnt + 1, i =>
    match read i with
    | some v => (some v, i + 1)
    | none => retryRead read cnt (i + 1)

/-- The local `radius_in_pixels` of the kernel branch of `readRaster`, from the
sampling radius in meters and the cell size; `int` arithmetic without overflow,
a division by a zero cell size (undefined in the source) yields 0. -/
def radius_in_pixels (radius : Int) (cellSize : double) : Int :=
  let _cellsize := Int.tdiv cellSize.num cellSize.den
  let radius_in_meters := Int.tdiv (radius + _cellsize - 1) _cellsize * _cellsize
  if radius_in_meters = 0 then 1 else Int.tdiv radius_in_meters _cellsize

/-- The window of the kernel branch of `readRaster`: the arguments `_col`,
`_row`, `size`, `size` and the resampling passed to `RasterIO`. -/
def kernelWindow (sampleAlg : GDALRIOResampleAlg) (radius : Int) (cellSize : double)
    (col row : Int) : RasterIOArgs :=
  let _col := col - radius_in_pixels radius cellSize
  let _row := row - radius_in_pixels radius cellSize
  let size := radius_in_pixels radius cellSize + 1 + radius_in_pixels radius cellSize
  if _col < 0 ∨ _row < 0 then ⟨col, row, 1, 1, .GRIORA_NearestNeighbour⟩
  else ⟨_col, _row, size, size, sampleAlg⟩

/-- What the pixel read of `readRaster` leaves: the value stored in
`rinfo->value` (`none` when an exception leaves it as it was), the value of
`obj->sampleAlg` afterwards, the number of calls of the GDAL read, and the
window of the `RasterIO` call when the kernel branch ran. -/
structure ArcticDEMRaster.read_t (V : Type) where
  value : Option V
  sampleAlg : GDALRIOResampleAlg
  attempts : Nat
  window : Option RasterIOArgs

/-- The part of `ArcticDEMRaster::readRaster` that reads the pixel `(col, row)`
of a raster containing the point: the block lookup for nearest neighbour, the
`RasterIO` call for the kernels. -/
def ArcticDEMRaster.readPixel {V : Type} (band : GDALRasterBand V)
    (rinfo : ArcticDEMRaster.raster_info_t) (sampleAlg : GDALRIOResampleAlg) (radius : Int)
    (col row : Int) : ArcticDEMRaster.read_t V :=
  if sampleAlg = .GRIORA_NearestNeighbour then
    let xblk := intToU32 (Int.tdiv col rinfo.xBlockSize)
    let yblk := intToU32 (Int.tdiv row rinfo.yBlockSize)
    let block := retryRead (band.GetLockedBlockRef xblk yblk) 2 0
    match block.1 with
    | none => ⟨none, sampleAlg, block.2, none⟩
    | some fp =>
      let _col := intToU32 (Int.tmod col rinfo.xBlockSize)
      let _row := intToU32 (Int.tmod row rinfo.yBlockSize)
      let offset := wrapU32 (_row * intToU32 rinfo.xBlockSize + _col)
      ⟨some (fp offset), sampleAlg, block.2, none⟩
  else
    let args := kernelWindow sampleAlg radius rinfo.cellSize col row
    let err := retryRead (band.RasterIO args) 2 0
    ⟨err.1, args.eResampleAlg, err.2, some args⟩

/-! ## Atl03BathyViewer::subsettingThread -/

/-- The constant `GLOBAL_BATHYMETRY_MASK_MIN_LAT`. -/
def GLOBAL_BATHYMETRY_MASK_MIN_LAT : double := -79.0

/-- The constant `GLOBAL_BATHYMETRY_MASK_MIN_LON`. -/
def GLOBAL_BATHYMETRY_MASK_MIN_LON : double := -180.0

/-- The constant `GLOBAL_BATHYMETRY_MASK_PIXEL_SIZE`. -/
def GLOBAL_BATHYMETRY_MASK_PIXEL_SIZE : double := 0.25

/-- The constant `GLOBAL_BATHYMETRY_MASK_OFF_VALUE`. -/
def GLOBAL_BATHYMETRY_MASK_OFF_VALUE : Nat := 0xFFFFFFFF

/-- The class `Atl03BathyViewer::Region`: the three datasets read for a track;
`segment_ph_cnt.size` is the length of the list.  A read outside a dataset,
undefined in the source, yields 0. -/
structure Atl03BathyViewer.Region (F : Type) where
  segment_lat : List F
  segment_lon : List F
  segment_ph_cnt : List Int

/-- The members of the reader that `subsettingThread` updates at the end. -/
structure Atl03BathyViewer where
  threadCount : Int
  numComplete : Int
  totalPhotonsInMask : Int
  complete : Bool
deriving DecidableEq, Repr

/-- The body of the loop of `subsettingThread` for the segment
`current_segment`: the value of `photons_in_mask` afterwards.  The body does not
assign `current_segment`.  `getPixel` is the call `bathyMask->getPixel(x, y)`. -/
def subsettingBody {F : Type} (ops : DoubleOps F) (getPixel : Nat → Nat → Nat)
    (region : Atl03BathyViewer.Region F) (current_segment : Int) (photons_in_mask : Int) : Int :=
  let degrees_of_latitude :=
    ops.sub (region.segment_lat.getD current_segment.toNat (ops.ofRat 0))
      (ops.ofRat GLOBAL_BATHYMETRY_MASK_MIN_LAT)
  let latitude_pixels := ops.div degrees_of_latitude (ops.ofRat GLOBAL_BATHYMETRY_MASK_PIXEL_SIZE)
  let y := wrapU32 (ops.toUint32 latitude_pixels)
  let degrees_of_longitude :=
    ops.sub (region.segment_lon.getD current_segment.toNat (ops.ofRat 0))
      (ops.ofRat GLOBAL_BATHYMETRY_MASK_MIN_LON)
  let longitude_pixels := ops.div degrees_of_longitude (ops.ofRat GLOBAL_BATHYMETRY_MASK_PIXEL_SIZE)
  let x := wrapU32 (ops.toUint32 longitude_pixels)
  let pixel := getPixel x y
  if pixel = GLOBAL_BATHYMETRY_MASK_OFF_VALUE then
    wrap64 (photons_in_mask + region.segment_ph_cnt.getD current_segment.toNat 0)
  else photons_in_mask

/-- The loop `while(reader->active && (current_segment < region.segment_ph_cnt.size))`
of `subsettingThread`: the value of `photons_in_mask` when the loop is left,
`none` when `fuel` passes do not leave it.  `active n` is the value of
`reader->active` read before pass number `n`. -/
def subsettingLoop {F : Type} (ops : DoubleOps F) (active : Nat → Bool)
    (getPixel : Nat → Nat → Nat) (region : Atl03BathyViewer.Region F) :
    Nat → Nat → Int → Int → Option Int
  | 0, _, _, _ => none
  | fuel + 1, n, current_segment, photons_in_mask =>
    if active n && decide (current_segment < (region.segment_ph_cnt.length : Int)) then
      subsettingLoop ops active getPixel region fuel (n + 1) current_segment
        (subsettingBody ops getPixel region current_segment photons_in_mask)
    else some photons_in_mask

/-- The function `Atl03BathyViewer::subsettingThread`: the reader after the
thread has counted its completion, `none` when the thread does not get there
within `fuel` passes of the loop. -/
def subsettingThread {F : Type} (ops : DoubleOps F) (active : Nat → Bool)
    (getPixel : Nat → Nat → Nat) (region : Atl03BathyViewer.Region F)
    (reader : Atl03BathyViewer) (fuel : Nat) : Option Atl03BathyViewer :=
  match subsettingLoop ops active getPixel region fuel 0 0 0 with
  | none => none
  | some photons_in_mask =>
    let numComplete := reader.numComplete + 1
    if numComplete = reader.threadCount then
      some { reader with
        numComplete := numComplete
        totalPhotonsInMask := wrap64 (reader.totalPhotonsInMask + photons_in_mask)
        complete := true }
    else some { reader with numComplete := numComplete }

/-! ## FieldList.h -/

/-- The class `FieldList<T>`: the vector `values` and the `encoding` of the base
class `Field`. -/
structure FieldList (T : Type) where
  values : List T
  encoding : Nat
deriving DecidableEq, Repr

/-- The method `FieldList::length`. -/
def FieldList.length {T : Type} (l : FieldList T) : Nat := l.values.length

/-- The loop `for(size_t i = 0; i < values.size(); i++) values[i] = list.values[i];`
of `FieldList::copy`, on the elements of `values` from index `i` on and the
elements of `list.values` from index `i` on; `none` when `list.values` is read
outside its bounds. -/
def FieldList.copyLoop {T : Type} : List T → List T → Option (List T)
  | [], _ => some []
  | _ :: _, [] => none
  | _ :: values, v :: listValues => (FieldList.copyLoop values listValues).map (fun r => v :: r)

/-- The method `FieldList::copy`: the object afterwards, `none` when the loop
reads `list.values` outside its bounds. -/
def FieldList.copy {T : Type} (this list : FieldList T) : Option (FieldList T) :=
  (FieldList.copyLoop this.values list.values).map (fun values => ⟨values, list.encoding⟩)

/-- The copy constructor `FieldList(const FieldList<T>& list)`; `impliedEncoding`
is the encoding set by the constructor of the base class. -/
def FieldList.copyConstructor {T : Type} (impliedEncoding : Nat) (list : FieldList T) :
    Option (FieldList T) :=
  FieldList.copy ⟨[], impliedEncoding⟩ list

/-- The operator `FieldList::operator=(const FieldList<T>& list)` for an object
`list` other than `this`. -/
def FieldList.assign {T : Type} (this list : FieldList T) : Option (FieldList T) :=
  FieldList.copy this list

/-- The operator `FieldList::operator=(std::initializer_list<T> init_list)`. -/
def FieldList.assignFromList {T : Type} (this : FieldList T) (init_list : List T) :
    FieldList T :=
  { this with values := init_list.foldl (fun values element => values ++ [element]) [] }

/-! ## Properties used in the statements -/

/-- Keys strictly ascending from the first node to the last. -/
def KeysAscending {T : Type} (l : List (sorted_node_t T)) : Prop :=
  l.Pairwise (fun a b => a.key < b.key)

/-- The position reached by a search, relative to the searched key. -/
def SeekPost {T : Type} (key : Nat)
    (r : List (sorted_node_t T) × sorted_node_t T × List (sorted_node_t T)) : Prop :=
  r.2.1.key = key ∨ (r.2.1.key < key ∧ r.2.2 = []) ∨
    (key < r.2.1.key ∧ (r.1 = [] ∨ ∃ p ps0, r.1 = p :: ps0 ∧ p.key < key))

/-- The state of the cache during the marking loops of `updateCache`: keys
pairwise distinct, an entry is enabled exactly when its key is among the file
names `seen` so far, and every file name seen has an entry. -/
def MarkInv (cache : Dictionary cacheitem_t) (seen : List String) : Prop :=
  (cache.entries.map (fun e => e.1)).Nodup ∧
    (∀ e ∈ cache.entries, e.2.enabled = true ↔ e.1 ∈ seen) ∧
    (∀ k ∈ seen, k ∈ cache.entries.map (fun e => e.1))

/-- The file paths of all descriptors of the groups of an iterator, in the order
in which the loops of `updateCache` visit them. -/
def descriptorPaths (it : List (sorted_node_t rasters_group_t)) : List String :=
  it.flatMap (fun kv => kv.data.infovect.map (fun ri => ri.fileName))

/-- No two unique rasters share a file path. -/
def UniquePaths (uiniqueRasters : List unique_raster_t) : Prop :=
  (uiniqueRasters.map (fun ur => ur.rinfo.fileName)).Nodup

/-- The `uraster` reference of a descriptor designates an entry of the vector of
unique rasters whose file path is the descriptor's. -/
def Resolved (uiniqueRasters : List unique_raster_t) (ri : raster_info_t) : Prop :=
  ∃ i ur, ri.uraster = some i ∧ uiniqueRasters[i]? = some ur ∧
    ur.rinfo.fileName = ri.fileName

/-- The cache `cache1` arises from `cache0` by emptying sample slots: every entry
of `cache1` has an entry under the same key in `cache0`, with the same sample
unless the slot of `cache1` is null. -/
def CacheLe (cache0 cache1 : Dictionary cacheitem_t) : Prop :=
  ∀ key item1, cache1.find key = some item1 →
    ∃ item0, cache0.find key = some item0 ∧
      (item1.sample = none ∨ item1.sample = item0.sample)

/-- The sample `e` is, up to its flags, the sample that `cache` holds for a VALUE
descriptor of the group. -/
def IsValueSampleOf (cache : Dictionary cacheitem_t) (rgroup : rasters_group_t)
    (e : RasterSample) : Prop :=
  ∃ ri ∈ rgroup.infovect, ri.tag = VALUE_TAG ∧
    ∃ (item : cacheitem_t) (s : RasterSample) (flags : Nat),
      cache.find ri.fileName = some item ∧ item.sample = some s ∧ e = { s with flags := flags }

/-- Keys non-decreasing from the first node to the last. -/
def KeysSorted {T : Type} (l : List (sorted_node_t T)) : Prop :=
  l.Pairwise (fun a b => a.key ≤ b.key)

/-- A call of one of the public methods of `Ordering` that change the list or
move the cursor. -/
inductive OrderingCall (T : Type) where
  | add (key : Nat) (data : T) (unique : Bool)
  | remove (key : Nat) (smode : searchMode_t)
  | get (key : Nat) (smode : searchMode_t)
  | first
  | next
  | last
  | prev

/-- The ordering after one call. -/
def Ordering.call {T : Type} (INVALID_KEY : Nat) (o : Ordering T) : OrderingCall T → Ordering T
  | .add key data unique => (o.add key data unique).2
  | .remove key smode => (o.remove key smode).2
  | .get key smode => (o.get key smode).2
  | .first => (o.first INVALID_KEY).2.2
  | .next => (o.next INVALID_KEY).2.2
  | .last => (o.last INVALID_KEY).2.2
  | .prev => (o.prev INVALID_KEY).2.2

/-- The ordering after a sequence of calls. -/
def Ordering.calls {T : Type} (INVALID_KEY : Nat) (o : Ordering T)
    (cs : List (OrderingCall T)) : Ordering T :=
  cs.foldl (Ordering.call INVALID_KEY) o

/-- The keys and data returned by `n` successive calls of `next`. -/
def nextCalls {T : Type} (INVALID_KEY : Nat) : Nat → Ordering T → List (Nat × Option T)
  | 0, _ => []
  | n + 1, o =>
    ((o.next INVALID_KEY).1, (o.next INVALID_KEY).2.1) ::
      nextCalls INVALID_KEY n (o.next INVALID_KEY).2.2

/-- The keys and data returned by `first()` followed by `length()` calls of
`next()`. -/
def Ordering.traverse {T : Type} (INVALID_KEY : Nat) (o : Ordering T) : List (Nat × Option T) :=
  ((o.first INVALID_KEY).1, (o.first INVALID_KEY).2.1) ::
    nextCalls INVALID_KEY o.length (o.first INVALID_KEY).2.2

/-- The position reached by a search that walks forward first and then
backward, relative to the searched key. -/
def SeekPostRev {T : Type} (key : Nat)
    (r : List (sorted_node_t T) × sorted_node_t T × List (sorted_node_t T)) : Prop :=
  r.2.1.key = key ∨ (key < r.2.1.key ∧ r.1 = []) ∨
    (r.2.1.key < key ∧ (r.2.2 = [] ∨ ∃ n ns0, r.2.2 = n :: ns0 ∧ key < n.key))

/-- A natural number in decimal, filled with zeros on the left to `width`
digits. -/
def zeroPadded (width n : Nat) : String :=
  String.mk (List.replicate (width - (Nat.repr n).length) '0') ++ Nat.repr n

/-- The index file of the geocell of a point as the specification describes it:
the path, `|floor(lat)|` on two digits, `w` or `e`, `|floor(lon)|` on three digits
and the suffix `.geojson`. -/
def geocellFile (path2geocells : String) (lon lat : double) : String :=
  path2geocells ++ zeroPadded 2 ⌊lat⌋.natAbs ++ (if ⌊lon⌋ < 0 then "w" else "e") ++
    zeroPadded 3 ⌊lon⌋.natAbs ++ ".geojson"

/-! ## Concrete inputs -/

/-- A `TimeLib` whose day-of-year test always succeeds and whose conversion of
the request's closest time yields 1000. -/
def exampleTimeLib : TimeLib := ⟨fun _ _ _ => true, fun _ => 1000⟩

/-- The date 2020, day 1, 00:00:00. -/
def exampleDate : gmt_time_t := ⟨2020, 1, 0, 0, 0, 0⟩

/-- Request parameters with every filter switched off and `flags_file` set. -/
def exampleParms : GeoParms :=
  ⟨none, false, false, 0, 0, false, exampleDate, true, false, exampleDate, exampleDate⟩

/-- A group with one VALUE raster `file` and the given group time. -/
def exampleGroup (file : String) (gpsTime : Int) : rasters_group_t :=
  ⟨"group", [⟨true, VALUE_TAG, file, none⟩], exampleDate, gpsTime⟩

/-- The group ordering merged from three groups with times 900, 1100, 1100. -/
def exampleGroupList : GroupOrdering :=
  combineFinderResults Ordering.new
    [exampleGroup "a.tif" 900, exampleGroup "b.tif" 1100, exampleGroup "c.tif" 1100]

/-- The group ordering merged from a single group with time 0. -/
def exampleGroupListZero : GroupOrdering :=
  combineFinderResults Ordering.new [exampleGroup "a.tif" 0]

/-- Constants for the examples: a cache of at most 2 entries, 8 finder threads,
1000 features per finder thread, and three distinct error bits. -/
def exampleConstants : Constants := ⟨2, 8, 1000, 1, 64, 128, fun _ => 0⟩

/-- An object whose cache holds one entry left from an earlier request. -/
def exampleStaleObject : GeoIndexedRaster :=
  ⟨⟨[("old.tif", ⟨true, ⟨"old.tif", 0, 0, true, 0⟩, none, none⟩)]⟩, 0, 0⟩

/-- An object with an empty cache. -/
def exampleEmptyObject : GeoIndexedRaster := ⟨⟨[]⟩, 0, 0⟩

/-- The group ordering merged from 201 groups whose VALUE descriptors all name
the file `a.tif`. -/
def exampleGroupListRepeated : GroupOrdering :=
  combineFinderResults Ordering.new (List.replicate 201 (exampleGroup "a.tif" 1000))

/-- Two points: point 0 with three groups, two of which hold `a.tif`, and
point 1 with one group. -/
def examplePointGroups : List point_groups_t :=
  [⟨⟨⟨0, 0, 0⟩, 0⟩, combineFinderResults Ordering.new
      [exampleGroup "a.tif" 1, exampleGroup "a.tif" 2, exampleGroup "b.tif" 2]⟩,
   ⟨⟨⟨1, 0, 0⟩, 1⟩, combineFinderResults Ordering.new [exampleGroup "b.tif" 2]⟩]

/-- Two points with one group each, both holding `a.tif`. -/
def examplePointGroupsSingle : List point_groups_t :=
  [⟨⟨⟨0, 0, 0⟩, 0⟩, combineFinderResults Ordering.new [exampleGroup "a.tif" 1]⟩,
   ⟨⟨⟨1, 0, 0⟩, 1⟩, combineFinderResults Ordering.new [exampleGroup "a.tif" 1]⟩]

/-- The unique raster of `a.tif` as the unique-raster pass creates it. -/
def exampleUniqueRaster : unique_raster_t :=
  ⟨⟨true, VALUE_TAG, "a.tif", none⟩, 1, 0, []⟩

/-- The unique raster of `a.tif` with its entry for point 0, before the batch
reader runs. -/
def exampleUniqueRasterOnePoint : unique_raster_t :=
  ⟨⟨true, VALUE_TAG, "a.tif", none⟩, 1, 0, [⟨⟨⟨0, 0, 0⟩, 0⟩, none, SS_NO_ERRORS⟩]⟩

/-- A group whose VALUE descriptor `a.tif` points at unique raster 0. -/
def exampleResolvedGroup : rasters_group_t :=
  ⟨"group", [⟨true, VALUE_TAG, "a.tif", some 0⟩], exampleDate, 1⟩

/-- An object whose cache entry of `a.tif` holds no sample and whose handle
carries the error bit 4, as left by a failed read. -/
def exampleFailedReadObject : GeoIndexedRaster :=
  ⟨⟨[("a.tif", ⟨false, ⟨"a.tif", 0, 0, true, 4⟩, none, none⟩)]⟩, 0, 1⟩

/-- A group with the VALUE raster `/t/dem.tif` and the FLAGS raster
`/t/dem_bitmask.tif`. -/
def exampleFlagsGroup : rasters_group_t :=
  ⟨"group", [⟨true, VALUE_TAG, "/t/dem.tif", none⟩,
    ⟨false, FLAGS_TAG, "/t/dem_bitmask.tif", none⟩], exampleDate, 1000⟩

/-- An environment in which the finders return `exampleFlagsGroup`, the value
raster reads 123 and every other raster reads 7, without errors. -/
def exampleFlagsEnvironment : Environment :=
  ⟨false, [exampleFlagsGroup], 200,
    fun r => if r.fileName = "/t/dem.tif" then (some ⟨123, 1, 0, 0, 0⟩, 0)
      else (some ⟨7, 1, 0, 0, 0⟩, 0)⟩

/-- The object after `sample` has run in `exampleFlagsEnvironment`. -/
def exampleSampledObject : GeoIndexedRaster :=
  (sample exampleConstants exampleTimeLib exampleParms exampleFlagsEnvironment 0 Ordering.new
    exampleEmptyObject).2.2

/-- An index with no feature loaded and no error recorded. -/
def exampleIndex : GeoIndex := ⟨[], "", none, ⟨0, 0, 0, 0⟩, 0, 0, 0⟩

/-- An environment in which `empty.geojson` opens with a layer without features,
`noextent.geojson` opens with a layer of one feature whose extent cannot be
computed, and no other file can be opened. -/
def exampleIndexEnvironment : IndexEnvironment String :=
  ⟨fun geo => geo,
   fun file =>
    if file = "empty.geojson" then some ⟨some ⟨[], some ⟨0, 0, 1, 1⟩⟩, 0, 0⟩
    else if file = "noextent.geojson" then some ⟨some ⟨[⟨7, none⟩], none⟩, 0, 0⟩
    else none,
   fun _ _ _ => true⟩

/-- An arithmetic on the rational numbers for the examples: exact field
operations, with the functions of `<cmath>` replaced by rational stand-ins. -/
def exampleOps : DoubleOps ℚ where
  ofRat q := q
  M_PI := 22 / 7
  add a b := a + b
  sub a b := a - b
  mul a b := a * b
  div a b := a / b
  sin x := x
  cos _ := 1
  asin x := x
  sqrt x := x
  gt a b := decide (a > b)
  toUint32 := doubleToU32

/-- The refraction parameters with the default indices and the mask switched on. -/
def exampleRefractionFields : RefractionFields ℚ := ⟨1.00029, 1.34116, true⟩

/-- A mask of 675 rows in which every pixel holds the index 2. -/
def exampleMask : TIFFImage ℚ := ⟨675, fun _ _ => 2⟩

/-- A photon at latitude -80, south of the mask, 10 above the sea floor. -/
def examplePhotonSouth : Photon ℚ := ⟨-80, 0, 0, 0, 10, 0, 1, 0, 0⟩

/-- A photon above the sea surface. -/
def examplePhotonDry : Photon ℚ := ⟨0, 0, 0, 0, 0, 5, 1, 0, 0⟩

/-- The photon of the worked example: sea surface at 10, photon at 0, elevation
pi/4, azimuth 0, at the origin of the UTM zone. -/
noncomputable def refractionExamplePhoton : Photon ℝ := ⟨0, 0, 0, 0, 10, 0, Real.pi / 4, 0, 0⟩

/-- A corrector with the constant indices 1.00029 and 1.34116 and no mask. -/
def refractionExampleCorrector : BathyRefractionCorrector ℝ := ⟨⟨1.00029, 1.34116, false⟩, none, 0⟩

/-- A corrector with both indices equal to 1.34116 and no mask. -/
def refractionEqualCorrector : BathyRefractionCorrector ℝ := ⟨⟨1.34116, 1.34116, false⟩, none, 0⟩

/-- A mask of 675 rows in which every pixel holds the index 1.34. -/
def exampleMaskRows : TIFFImage ℚ := ⟨675, fun _ _ => 1.34⟩

/-- A photon at the south-east corner of the extent of the mask: latitude
-78.75, longitude 180. -/
def examplePhotonCorner : Photon ℚ := ⟨-78.75, 180, 0, 0, 10, 0, 1, 0, 0⟩

/-- A raster of 10 by 10 cells of size 2 with blocks of 5 by 5 cells. -/
def exampleRasterInfo : ArcticDEMRaster.raster_info_t := ⟨10, 10, 2, 5, 5⟩

/-- A band on which every read fails. -/
def exampleFailingBand : GDALRasterBand Nat := ⟨fun _ _ _ => none, fun _ _ => none⟩

/-- A band on which every read succeeds with the value 42. -/
def exampleBand : GDALRasterBand Nat := ⟨fun _ _ _ => some (fun _ => 42), fun _ _ => some 42⟩

/-- A region with one segment at latitude 0, longitude 0, holding 7 photons. -/
def exampleRegion : Atl03BathyViewer.Region ℚ := ⟨[0], [0], [7]⟩

/-- A reader with one thread that has not completed. -/
def exampleReader : Atl03BathyViewer := ⟨1, 0, 0, false⟩

/-! # Theorems -/

/-! ## Ordering: removal by key -/

@[simp] theorem Links.nodes_nullCurr {T : Type} (l : List (sorted_node_t T)) :
    (Links.nullCurr l).nodes = l := rfl

@[simp] theorem Links.nodes_atCurr {T : Type} (ps : List (sorted_node_t T)) (c : sorted_node_t T)
    (ns : List (sorted_node_t T)) : (Links.atCurr ps c ns).nodes = ps.reverse ++ c :: ns := rfl

theorem Links.resetCurr_nodes {T : Type} (l : Links T) : l.resetCurr.nodes = l.nodes := by
  cases l with
  | nullCurr l =>
    simp only [Links.resetCurr]
    rcases h : l.reverse with _ | ⟨c, ps⟩
    · simpa using h.symm
    · have := congrArg List.reverse h
      simpa using this.symm
  | atCurr ps c ns => rfl

theorem Links.resetCurr_null {T : Type} (l : Links T) (l1 : List (sorted_node_t T))
    (h : l.resetCurr = .nullCurr l1) : l.nodes = [] ∧ l1 = [] := by
  cases l with
  | nullCurr l =>
    simp only [Links.resetCurr] at h
    rcases h2 : l.reverse with _ | ⟨c, ps⟩
    · rw [h2] at h
      simp only [Links.nullCurr.injEq] at h
      exact ⟨by simpa using h2, h.symm⟩
    · rw [h2] at h
      simp at h
  | atCurr ps c ns => simp [Links.resetCurr] at h

theorem walkPrevLt_nodes {T : Type} (key : Nat) :
    ∀ (ps : List (sorted_node_t T)) (c : sorted_node_t T) (ns : List (sorted_node_t T)),
      (walkPrevLt key ps c ns).1.reverse ++ (walkPrevLt key ps c ns).2.1 ::
        (walkPrevLt key ps c ns).2.2 = ps.reverse ++ c :: ns
  | [], c, ns => rfl
  | p :: ps, c, ns => by
    unfold walkPrevLt
    split
    · rw [walkPrevLt_nodes key ps p (c :: ns)]
      simp
    · rfl

theorem walkNextGt_nodes {T : Type} (key : Nat) :
    ∀ (ns : List (sorted_node_t T)) (ps : List (sorted_node_t T)) (c : sorted_node_t T),
      (walkNextGt key ps c ns).1.reverse ++ (walkNextGt key ps c ns).2.1 ::
        (walkNextGt key ps c ns).2.2 = ps.reverse ++ c :: ns
  | [], ps, c => rfl
  | n :: ns, ps, c => by
    unfold walkNextGt
    split
    · rw [walkNextGt_nodes key ns (c :: ps) n]
      simp
    · rfl

/-- Where the backward loop stops: on a node whose key is not above the searched
key, or on the first node. -/
theorem walkPrevLt_stop {T : Type} (key : Nat) :
    ∀ (ps : List (sorted_node_t T)) (c : sorted_node_t T) (ns : List (sorted_node_t T)),
      (walkPrevLt key ps c ns).2.1.key ≤ key ∨ (walkPrevLt key ps c ns).1 = []
  | [], c, ns => Or.inr rfl
  | p :: ps, c, ns => by
    unfold walkPrevLt
    split
    · exact walkPrevLt_stop key ps p (c :: ns)
    · rename_i h
      exact Or.inl (Nat.le_of_not_lt h)

theorem walkNextGt_stop {T : Type} (key : Nat) :
    ∀ (ns : List (sorted_node_t T)) (ps : List (sorted_node_t T)) (c : sorted_node_t T),
      (c.key ≤ key ∨ ps = [] ∨ ∃ p ps0, ps = p :: ps0 ∧ p.key < key) →
      SeekPost key (walkNextGt key ps c ns)
  | [], ps, c, hq => by
    unfold walkNextGt
    unfold SeekPost
    rcases Nat.lt_trichotomy c.key key with h | h | h
    · exact Or.inr (Or.inl ⟨h, rfl⟩)
    · exact Or.inl h
    · refine Or.inr (Or.inr ⟨h, ?_⟩)
      rcases hq with h1 | h1
      · omega
      · exact h1
  | n :: ns, ps, c, hq => by
    unfold walkNextGt
    split
    · rename_i h
      exact walkNextGt_stop key ns (c :: ps) n (Or.inr (Or.inr ⟨c, ps, rfl, h⟩))
    · rename_i h
      unfold SeekPost
      rcases Nat.lt_trichotomy c.key key with h2 | h2 | h2
      · exact absurd h2 h
      · exact Or.inl h2
      · refine Or.inr (Or.inr ⟨h2, ?_⟩)
        rcases hq with h1 | h1
        · omega
        · exact h1

theorem unlinkCurr_nodes {T : Type} (ps ns : List (sorted_node_t T)) :
    (unlinkCurr ps ns).nodes = ps.reverse ++ ns := by
  unfold unlinkCurr
  cases ns with
  | cons n ns1 => simp
  | nil =>
    cases ps with
    | cons p ps1 => simp
    | nil => simp

theorem filter_key_ne_of_absent {T : Type} (key : Nat) (l : List (sorted_node_t T))
    (h : ∀ n ∈ l, n.key ≠ key) : l.filter (fun n => decide (n.key ≠ key)) = l := by
  rw [List.filter_eq_self]
  intro n hn
  simpa using h n hn

/-- On a list with strictly ascending keys, an exact-match removal drops the
node with the given key and nothing else. -/
theorem Ordering.remove_nodes {T : Type} (o : Ordering T) (key : Nat)
    (hs : KeysAscending o.nodes) :
    (o.remove key .EXACT_MATCH).2.nodes = o.nodes.filter (fun n => decide (n.key ≠ key)) := by
  unfold Ordering.remove
  have hn := Links.resetCurr_nodes o.links
  rcases hr : o.links.resetCurr with l1 | ⟨ps, c, ns⟩
  · obtain ⟨h1, h2⟩ := Links.resetCurr_null _ _ hr
    simp only [Ordering.nodes, h1, h2, Links.nodes_nullCurr, List.filter_nil]
  · rw [hr] at hn
    simp only [Links.nodes] at hn
    have hw1 := walkPrevLt_nodes key ps c ns
    have hs1 := walkPrevLt_stop key ps c ns
    have hw2 := walkNextGt_nodes key (walkPrevLt key ps c ns).2.2 (walkPrevLt key ps c ns).1
      (walkPrevLt key ps c ns).2.1
    have hs2 := walkNextGt_stop key (walkPrevLt key ps c ns).2.2 (walkPrevLt key ps c ns).1
      (walkPrevLt key ps c ns).2.1 (by tauto)
    simp only [removeSearch]
    generalize walkNextGt key (walkPrevLt key ps c ns).1 (walkPrevLt key ps c ns).2.1
      (walkPrevLt key ps c ns).2.2 = r at hw2 hs2
    obtain ⟨ps2, c2, ns2⟩ := r
    simp only at hw2 hs2
    have hnodes : o.nodes = ps2.reverse ++ c2 :: ns2 := by
      exact hn.symm.trans (hw1.symm.trans hw2.symm)
    have hs' : KeysAscending (ps2.reverse ++ c2 :: ns2) := hnodes ▸ hs
    unfold KeysAscending at hs'
    rw [List.pairwise_append] at hs'
    obtain ⟨hps, hcns, hcross⟩ := hs'
    rw [List.pairwise_cons] at hcns
    by_cases hk : key = c2.key
    · simp only [hk, decide_True]
      show (unlinkCurr ps2 ns2).nodes = _
      rw [unlinkCurr_nodes, hnodes, List.filter_append, List.filter_cons]
      simp only [ne_eq, not_true_eq_false, decide_False, Bool.false_eq_true, if_false]
      rw [filter_key_ne_of_absent, filter_key_ne_of_absent]
      · intro n hn2
        exact Nat.ne_of_gt (hcns.1 n hn2)
      · intro n hn2
        exact Nat.ne_of_lt (hcross n hn2 c2 (List.mem_cons_self _ _))
    · simp only [hk, decide_False]
      show ps2.reverse ++ c2 :: ns2 = _
      rw [hnodes, filter_key_ne_of_absent]
      intro n hn2
      unfold SeekPost at hs2
      simp only at hs2
      rw [List.mem_append, List.mem_cons] at hn2
      rcases hs2 with h | ⟨h, h0⟩ | ⟨h, h0⟩
      · exact absurd h.symm hk
      · subst h0
        rcases hn2 with h3 | h3 | h3
        · have := hcross n h3 c2 (List.mem_cons_self _ _)
          omega
        · subst h3; omega
        · simp at h3
      · rcases hn2 with h3 | h3 | h3
        · rcases h0 with h0 | ⟨p, ps0, h0, hp⟩
          · subst h0; simp at h3
          · subst h0
            rw [List.mem_reverse, List.mem_cons] at h3
            rcases h3 with h3 | h3
            · subst h3; omega
            · rw [List.reverse_cons, List.pairwise_append] at hps
              have := hps.2.2 n (List.mem_reverse.mpr h3) p (List.mem_singleton_self _)
              omega
        · subst h3; omega
        · have := hcns.1 n h3
          omega

theorem KeysAscending.filter {T : Type} {l : List (sorted_node_t T)} (h : KeysAscending l)
    (p : sorted_node_t T → Bool) : KeysAscending (l.filter p) :=
  List.Pairwise.sublist (List.filter_sublist l) h

theorem KeysAscending.eq_of_key_eq {T : Type} {l : List (sorted_node_t T)} (h : KeysAscending l)
    {a b : sorted_node_t T} (ha : a ∈ l) (hb : b ∈ l) (hk : a.key = b.key) : a = b := by
  unfold KeysAscending at h
  induction l with
  | nil => simp at ha
  | cons x xs ih =>
    rw [List.pairwise_cons] at h
    rw [List.mem_cons] at ha hb
    rcases ha with ha | ha <;> rcases hb with hb | hb
    · rw [ha, hb]
    · have := h.1 b hb
      subst ha
      omega
    · have := h.1 a ha
      subst hb
      omega
    · exact ih h.2 ha hb

/-- Removing, one exact-match removal per selected iterator entry, leaves the
nodes whose key was not selected. -/
theorem foldl_remove_nodes {T : Type} (rm : sorted_node_t T → Prop) [DecidablePred rm] :
    ∀ (it : List (sorted_node_t T)) (o : Ordering T), KeysAscending o.nodes →
      (it.foldl (fun gl kv => if rm kv then (gl.remove kv.key .EXACT_MATCH).2 else gl) o).nodes
        = o.nodes.filter (fun n => !(it.any (fun kv => decide (rm kv) && decide (kv.key = n.key))))
  | [], o, _ => by simp
  | kv :: it, o, hs => by
    rw [List.foldl_cons]
    by_cases h : rm kv
    · rw [if_pos h, foldl_remove_nodes rm it _ (by rw [Ordering.remove_nodes o kv.key hs]; exact hs.filter _),
        Ordering.remove_nodes o kv.key hs, List.filter_filter]
      apply List.filter_congr
      intro n _
      by_cases h2 : kv.key = n.key
      · simp [h, h2]
      · have h3 : ¬ n.key = kv.key := fun e => h2 e.symm
        simp [h, h2, h3]
    · rw [if_neg h, foldl_remove_nodes rm it o hs]
      apply List.filter_congr
      intro n _
      simp [h]

/-- Removing the selected entries of an iterator taken over the ordering itself
leaves exactly the nodes that were not selected, in their order. -/
theorem foldl_remove_iterator {T : Type} (rm : sorted_node_t T → Prop) [DecidablePred rm]
    (o : Ordering T) (hs : KeysAscending o.nodes) :
    ((o.Iterator).foldl (fun gl kv => if rm kv then (gl.remove kv.key .EXACT_MATCH).2 else gl) o).nodes
      = o.nodes.filter (fun n => !decide (rm n)) := by
  unfold Ordering.Iterator
  rw [foldl_remove_nodes rm o.nodes o hs]
  apply List.filter_congr
  intro n hn
  congr 1
  rw [Bool.eq_iff_iff]
  simp only [List.any_eq_true, Bool.and_eq_true, decide_eq_true_eq]
  constructor
  · rintro ⟨kv, hkv, h1, h2⟩
    rw [← hs.eq_of_key_eq hkv hn h2]
    exact h1
  · intro h
    exact ⟨n, hn, h, rfl⟩

theorem wrap64_of_range (x : Int) (h1 : INT64_MIN ≤ x) (h2 : x ≤ INT64_MAX) : wrap64 x = x := by
  unfold wrap64
  unfold INT64_MIN at h1
  unfold INT64_MAX at h2
  norm_num at h1 h2 ⊢
  omega

/-- Without overflow, `abs(a - b)` on `int64_t` is the distance of `a` and `b`. -/
theorem abs64_sub64 (a b : Int) (h1 : INT64_MIN + 1 ≤ a - b) (h2 : a - b ≤ INT64_MAX) :
    abs64 (sub64 a b) = ((a - b).natAbs : Int) := by
  unfold abs64 sub64
  rw [wrap64_of_range (a - b) (by omega) h2]
  unfold INT64_MIN at h1
  unfold INT64_MAX at h2
  split
  · rw [wrap64_of_range]
    · omega
    · unfold INT64_MIN; omega
    · unfold INT64_MAX; omega
  · rw [wrap64_of_range]
    · omega
    · unfold INT64_MIN; omega
    · unfold INT64_MAX; omega

/-- The running minimum of `findMinDelta`. -/
theorem foldl_min_spec {α : Type} (d : α → Int) :
    ∀ (l : List α) (init : Int),
      let m := l.foldl (fun m x => if d x < m then d x else m) init
      m ≤ init ∧ (∀ x ∈ l, m ≤ d x) ∧ (m = init ∨ ∃ x ∈ l, m = d x)
  | [], init => by simp
  | a :: l, init => by
    intro m
    have ih := foldl_min_spec d l (if d a < init then d a else init)
    simp only at ih
    obtain ⟨h1, h2, h3⟩ := ih
    have hm : m = l.foldl (fun m x => if d x < m then d x else m)
        (if d a < init then d a else init) := rfl
    rw [← hm] at h1 h2 h3
    refine ⟨?_, ?_, ?_⟩
    · split at h1 <;> omega
    · intro x hx
      rw [List.mem_cons] at hx
      rcases hx with hx | hx
      · subst hx
        split at h1 <;> omega
      · exact h2 x hx
    · rcases h3 with h3 | ⟨x, hx, h3⟩
      · split at h3
        · exact Or.inr ⟨a, List.mem_cons_self _ _, h3⟩
        · exact Or.inl h3
      · exact Or.inr ⟨x, List.mem_cons_of_mem _ hx, h3⟩

/-! ## Orderings built by findRastersParallel -/

theorem dropFirstNodes_infinite {T : Type} (fuel : Nat) (l : Links T) :
    dropFirstNodes INFINITE_LIST_SIZE fuel l = l := by
  cases fuel with
  | zero => rfl
  | succ f =>
    unfold dropFirstNodes
    simp

theorem walkNextGt_to_last {T : Type} (key : Nat) :
    ∀ (ns : List (sorted_node_t T)) (ps : List (sorted_node_t T)) (c : sorted_node_t T),
      (∀ n ∈ c :: ns, n.key < key) →
      (walkNextGt key ps c ns).2.2 = [] ∧ (walkNextGt key ps c ns).2.1.key < key
  | [], ps, c, h => ⟨rfl, h c (List.mem_cons_self _ _)⟩
  | n :: ns, ps, c, h => by
    unfold walkNextGt
    rw [if_pos (h c (List.mem_cons_self _ _))]
    exact walkNextGt_to_last key ns (c :: ps) n (fun m hm => h m (List.mem_cons_of_mem _ hm))

/-- Adding a key above all present keys to an unbounded ordering appends the node. -/
theorem Ordering.add_above_nodes {T : Type} (o : Ordering T) (key : Nat) (data : T)
    (hinf : o.maxListSize = INFINITE_LIST_SIZE) (habove : ∀ n ∈ o.nodes, n.key < key) :
    (o.add key data false).2.nodes = o.nodes ++ [⟨key, data⟩] ∧
      (o.add key data false).2.maxListSize = INFINITE_LIST_SIZE := by
  unfold Ordering.add Ordering.addNode
  have hn := Links.resetCurr_nodes o.links
  rcases hr : o.links.resetCurr with l1 | ⟨ps, c, ns⟩
  · obtain ⟨h1, _⟩ := Links.resetCurr_null _ _ hr
    simp only [hinf, dropFirstNodes_infinite, Ordering.nodes, h1, Links.nodes_atCurr]
    simp
  · rw [hr, Links.nodes_atCurr] at hn
    have hc : c.key < key := habove c (by
      show c ∈ o.links.nodes
      rw [← hn]; simp)
    have hall : ∀ n ∈ c :: ns, n.key < key := by
      intro n hn2
      apply habove n
      show n ∈ o.links.nodes
      rw [← hn]
      exact List.mem_append_right _ hn2
    have hw := walkNextGt_nodes key ns ps c
    have hl := walkNextGt_to_last key ns ps c hall
    simp only [if_neg (Nat.not_le.mpr hc)]
    generalize walkNextGt key ps c ns = r at hw hl
    obtain ⟨ps1, c1, ns1⟩ := r
    simp only at hw hl
    obtain ⟨hl1, hl2⟩ := hl
    subst hl1
    have hne : ¬ c1.key = key := Nat.ne_of_lt hl2
    simp only [Bool.false_eq_true, false_and, if_false, if_neg (Nat.not_le.mpr hl2), hinf,
      dropFirstNodes_infinite, Ordering.nodes, Links.nodes_atCurr, and_true]
    rw [← hn, ← hw]
    simp

/-- The ordering merged from the finder results holds the groups in partition
order under the keys `0, 1, 2, ...`. -/
theorem combineFinderResults_nodes (found : List rasters_group_t) :
    ∀ (gl : GroupOrdering), gl.maxListSize = INFINITE_LIST_SIZE →
      (∀ n ∈ gl.nodes, n.key < gl.length) →
      (combineFinderResults gl found).nodes.map (fun n => n.data) =
        gl.nodes.map (fun n => n.data) ++ found ∧
      ((combineFinderResults gl found).nodes.map (fun n => n.key)) =
        gl.nodes.map (fun n => n.key) ++ List.range' gl.length found.length := by
  induction found with
  | nil => intro gl _ _; simp [combineFinderResults]
  | cons g rest ih =>
    intro gl hinf habove
    obtain ⟨h1, h2⟩ := Ordering.add_above_nodes gl gl.length g hinf habove
    have hlen : (gl.add gl.length g false).2.length = gl.length + 1 := by
      show ((gl.add gl.length g false).2.nodes).length = gl.nodes.length + 1
      rw [h1]; simp
    have := ih (gl.add gl.length g false).2 h2 (by
      intro n hn
      rw [hlen]
      rw [h1, List.mem_append, List.mem_singleton] at hn
      rcases hn with hn | hn
      · exact Nat.lt_succ_of_lt (habove n hn)
      · subst hn; exact Nat.lt_succ_self _)
    unfold combineFinderResults at this ⊢
    rw [List.foldl_cons]
    rw [this.1, this.2, h1, hlen]
    simp [List.range'_succ]

theorem combineFinderResults_keysAscending (found : List rasters_group_t) :
    KeysAscending (combineFinderResults Ordering.new found).nodes := by
  have h := (combineFinderResults_nodes found Ordering.new rfl (by
    intro n hn; simp [Ordering.new, Ordering.nodes] at hn)).2
  unfold KeysAscending
  have h2 : List.Pairwise (fun a b => a < b)
      ((combineFinderResults Ordering.new found).nodes.map (fun n => n.key)) := by
    rw [h]
    simp [Ordering.new, Ordering.nodes, Ordering.length, List.pairwise_lt_range']
  exact List.pairwise_map.mp h2

/-! ## filterRasters -/

/-- The first stage keeps, in order, the groups for which `removeGroup` stays false. -/
theorem filterUrlDoy_nodes (tl : TimeLib) (parms : GeoParms) (groupList : GroupOrdering)
    (hkeys : KeysAscending groupList.nodes) :
    (filterUrlDoy tl parms groupList).nodes =
      groupList.nodes.filter (fun n =>
        !((parms.url_substring.isSome || parms.filter_doy_range) &&
          removeGroupLoop tl parms n.data n.data.infovect)) := by
  unfold filterUrlDoy
  split
  · rename_i h
    have := foldl_remove_iterator
      (fun kv : sorted_node_t rasters_group_t =>
        removeGroupLoop tl parms kv.data kv.data.infovect = true) groupList hkeys
    rw [this]
    apply List.filter_congr
    intro n _
    simp [h]
  · rename_i h
    symm
    rw [List.filter_eq_self]
    intro n _
    simp only [Bool.not_eq_true] at h
    simp [h]

theorem filterClosestTime_nodes (t : Int) (gl : GroupOrdering) (hkeys : KeysAscending gl.nodes)
    (hpos : 0 < t) (hmax : t ≤ INT64_MAX)
    (hrange : ∀ n ∈ gl.nodes, 2 * t - INT64_MAX ≤ n.data.gpsTime ∧ n.data.gpsTime ≤ INT64_MAX) :
    (filterClosestTime t gl).nodes =
      gl.nodes.filter (fun g => decide (∀ h ∈ gl.nodes,
        (t - g.data.gpsTime).natAbs ≤ (t - h.data.gpsTime).natAbs)) := by
  unfold filterClosestTime
  rw [if_pos hpos]
  have hfold := foldl_remove_iterator
    (fun kv : sorted_node_t rasters_group_t =>
      abs64 (sub64 t kv.data.gpsTime) > findMinDelta t gl.Iterator) gl hkeys
  simp only at hfold ⊢
  rw [hfold]
  have hdelta : ∀ n ∈ gl.nodes,
      abs64 (sub64 t n.data.gpsTime) = ((t - n.data.gpsTime).natAbs : Int) := by
    intro n hn
    have := hrange n hn
    unfold INT64_MAX at this hmax
    apply abs64_sub64
    · unfold INT64_MIN; omega
    · unfold INT64_MAX; omega
  have hinit : abs64 (sub64 INT64_MAX t) = INT64_MAX - t := by
    rw [abs64_sub64]
    · unfold INT64_MAX at hmax ⊢; omega
    · unfold INT64_MIN; unfold INT64_MAX at hmax ⊢; omega
    · unfold INT64_MAX at hmax ⊢; omega
  have hle : ∀ n ∈ gl.nodes, ((t - n.data.gpsTime).natAbs : Int) ≤ INT64_MAX - t := by
    intro n hn
    have := hrange n hn
    omega
  have hspec := foldl_min_spec (fun kv : sorted_node_t rasters_group_t =>
    abs64 (sub64 t kv.data.gpsTime)) gl.Iterator (abs64 (sub64 INT64_MAX t))
  simp only at hspec
  have hm : findMinDelta t gl.Iterator = List.foldl (fun m (x : sorted_node_t rasters_group_t) =>
      if abs64 (sub64 t x.data.gpsTime) < m then abs64 (sub64 t x.data.gpsTime) else m)
      (abs64 (sub64 INT64_MAX t)) gl.Iterator := rfl
  rw [← hm] at hspec
  obtain ⟨_, h2, h3⟩ := hspec
  apply List.filter_congr
  intro n hn
  rw [Bool.eq_iff_iff]
  simp only [gt_iff_lt, Bool.not_eq_true', decide_eq_false_iff_not, not_lt, decide_eq_true_eq]
  rw [hdelta n hn]
  constructor
  · intro hmin h hh
    have := h2 h hh
    rw [hdelta h hh] at this
    omega
  · intro hall
    rcases h3 with h3 | ⟨x, hx, h3⟩
    · rw [h3, hinit]
      exact hle n hn
    · rw [h3, hdelta x hx]
      exact_mod_cast hall x hx

/-- C1 (amended): for a group ordering with strictly ascending keys (as merged by
`findRastersParallel`), a target time `t = closestGps` with `0 < t <= INT64_MAX`
and group times `g` with `2*t - INT64_MAX <= g <= INT64_MAX`, the groups left by
`filterRasters` are, in order, exactly the groups left by the URL/day-of-year
stage whose distance `|t - g|` is minimal among those groups; all groups tied at
the minimum are kept. -/
theorem filterRasters_keeps_closest (tl : TimeLib) (parms : GeoParms) (gps : Int)
    (groupList : GroupOrdering) (hkeys : KeysAscending groupList.nodes)
    (hpos : 0 < closestGpsOf tl parms gps) (hmax : closestGpsOf tl parms gps ≤ INT64_MAX)
    (hrange : ∀ n ∈ groupList.nodes,
      2 * closestGpsOf tl parms gps - INT64_MAX ≤ n.data.gpsTime ∧ n.data.gpsTime ≤ INT64_MAX) :
    (filterRasters tl parms gps groupList).2.nodes =
      (filterUrlDoy tl parms groupList).nodes.filter (fun g =>
        decide (∀ h ∈ (filterUrlDoy tl parms groupList).nodes,
          (closestGpsOf tl parms gps - g.data.gpsTime).natAbs ≤
            (closestGpsOf tl parms gps - h.data.gpsTime).natAbs)) := by
  have h1 := filterUrlDoy_nodes tl parms groupList hkeys
  have hk1 : KeysAscending (filterUrlDoy tl parms groupList).nodes := by
    rw [h1]; exact hkeys.filter _
  have hr1 : ∀ n ∈ (filterUrlDoy tl parms groupList).nodes,
      2 * closestGpsOf tl parms gps - INT64_MAX ≤ n.data.gpsTime ∧
        n.data.gpsTime ≤ INT64_MAX := by
    intro n hn
    rw [h1] at hn
    exact hrange n (List.mem_of_mem_filter hn)
  exact filterClosestTime_nodes (closestGpsOf tl parms gps) (filterUrlDoy tl parms groupList)
    hk1 hpos hmax hr1

/-- C1, witness: target 1000 and group times 900, 1100, 1100 keep all three groups. -/
theorem filterRasters_keeps_closest_witness :
    (filterRasters exampleTimeLib exampleParms 1000 exampleGroupList).2.nodes.map
        (fun n => n.data.gpsTime) = [900, 1100, 1100] ∧
    (filterRasters exampleTimeLib exampleParms 1000 exampleGroupList).2.nodes =
      (filterUrlDoy exampleTimeLib exampleParms exampleGroupList).nodes.filter (fun g =>
        decide (∀ h ∈ (filterUrlDoy exampleTimeLib exampleParms exampleGroupList).nodes,
          (closestGpsOf exampleTimeLib exampleParms 1000 - g.data.gpsTime).natAbs ≤
            (closestGpsOf exampleTimeLib exampleParms 1000 - h.data.gpsTime).natAbs)) :=
  ⟨by decide,
   filterRasters_keeps_closest exampleTimeLib exampleParms 1000 exampleGroupList
    (by unfold KeysAscending; decide) (by decide) (by decide) (by decide)⟩

/-- C1, counterexample: with target time `2^62` and a single group of time 0 the
group is the closest one (it is the only one), yet `filterRasters` removes it:
its distance `2^62` exceeds the initial `minDelta = INT64_MAX - 2^62`. -/
theorem filterRasters_closest_counterexample :
    0 < closestGpsOf exampleTimeLib exampleParms 4611686018427387904 ∧
    (filterUrlDoy exampleTimeLib exampleParms exampleGroupListZero).nodes.filter (fun g =>
        decide (∀ h ∈ (filterUrlDoy exampleTimeLib exampleParms exampleGroupListZero).nodes,
          (closestGpsOf exampleTimeLib exampleParms 4611686018427387904 -
              g.data.gpsTime).natAbs ≤
            (closestGpsOf exampleTimeLib exampleParms 4611686018427387904 -
              h.data.gpsTime).natAbs)) =
      [⟨0, exampleGroup "a.tif" 0⟩] ∧
    (filterRasters exampleTimeLib exampleParms 4611686018427387904
      exampleGroupListZero).2.nodes = [] := by
  decide

/-! ## Dictionary -/

theorem modifyEntry_eq_map {T : Type} (key : String) (f : T → T) (l : List (String × T))
    (h : (l.map (fun e => e.1)).Nodup) :
    modifyEntry key f l = l.map (fun e => if e.1 = key then (e.1, f e.2) else e) := by
  induction l with
  | nil => rfl
  | cons e es ih =>
    rw [List.map_cons, List.nodup_cons] at h
    unfold modifyEntry
    by_cases hk : e.1 = key
    · have hid : es.map (fun e => if e.1 = key then (e.1, f e.2) else e) = es := by
        conv_rhs => rw [← List.map_id es]
        apply List.map_congr_left
        intro x hx
        have : x.1 ≠ key := by
          intro hx2
          apply h.1
          rw [hk, ← hx2]
          exact List.mem_map_of_mem (fun e => e.1) hx
        simp [this]
      simp only [hk, beq_self_eq_true, if_true, List.map_cons, hid]
    · have hb : (e.1 == key) = false := by simpa using hk
      simp only [hb, Bool.false_eq_true, if_false, List.map_cons, hk, ih h.2]

theorem modifyEntry_keys {T : Type} (key : String) (f : T → T) (l : List (String × T)) :
    (modifyEntry key f l).map (fun e => e.1) = l.map (fun e => e.1) := by
  induction l with
  | nil => rfl
  | cons e es ih =>
    unfold modifyEntry
    split
    · simp
    · simp [ih]

theorem lookup_none_iff {T : Type} (key : String) (l : List (String × T)) :
    l.lookup key = none ↔ key ∉ l.map (fun e => e.1) := by
  induction l with
  | nil => simp
  | cons e es ih =>
    obtain ⟨k, v⟩ := e
    by_cases hk : key = k
    · subst hk
      simp [List.lookup]
    · have hb : (key == k) = false := by simpa using hk
      simp only [List.lookup, hb, ih, List.map_cons, List.mem_cons, hk, false_or]

/-- The entries of the dictionary after the removal of the keys `ks`. -/
theorem foldl_remove_entries {T : Type} (ks : List String) (d : Dictionary T) :
    (ks.foldl (fun d key => (d.remove key).2) d).entries =
      d.entries.filter (fun e => decide (e.1 ∉ ks)) := by
  induction ks generalizing d with
  | nil => simp
  | cons k ks ih =>
    rw [List.foldl_cons, ih]
    simp only [Dictionary.remove, List.filter_filter]
    apply List.filter_congr
    intro e _
    by_cases h1 : e.1 = k
    · simp [h1]
    · simp [h1]

/-! ## updateCache -/

/-- The state of the cache during the marking loops: keys pairwise distinct, an
entry is enabled exactly when its key is among the file names seen so far, and
every file name seen has an entry. -/
theorem updateCacheRaster_inv (c : Constants) (rgroup : rasters_group_t)
    (acc : Dictionary cacheitem_t × Nat) (rinfo : raster_info_t) (seen : List String)
    (h : MarkInv acc.1 seen) :
    MarkInv (updateCacheRaster c rgroup acc rinfo).1 (seen ++ [rinfo.fileName]) := by
  obtain ⟨hnd, hen, hin⟩ := h
  unfold updateCacheRaster
  simp only
  rcases hf : acc.1.find rinfo.fileName with _ | item
  · have habs : rinfo.fileName ∉ acc.1.entries.map (fun e => e.1) :=
      (lookup_none_iff _ _).mp hf
    simp only [Dictionary.add, hf, Dictionary.modify]
    have hnd2 : ((acc.1.entries ++ [(rinfo.fileName, (⟨false, ⟨rinfo.fileName,
        ((Int.tdiv rgroup.gpsTime 1000 : Int) : ℚ), c.fileDictAdd rinfo.fileName,
        rinfo.dataIsElevation, 0⟩, none, none⟩ : cacheitem_t))]).map (fun e => e.1)).Nodup := by
      rw [List.map_append, List.nodup_append]
      refine ⟨hnd, by simp, ?_⟩
      intro a ha hb
      simp only [List.map_cons, List.map_nil, List.mem_singleton] at hb
      subst hb
      exact habs ha
    refine ⟨?_, ?_, ?_⟩
    · rw [modifyEntry_keys]; exact hnd2
    · rw [modifyEntry_eq_map _ _ _ hnd2]
      intro e he
      rw [List.mem_map] at he
      obtain ⟨e0, he0, rfl⟩ := he
      rw [List.mem_append, List.mem_singleton] at he0
      rcases he0 with he0 | he0
      · have hne : e0.1 ≠ rinfo.fileName := by
          intro hx
          apply habs
          rw [← hx]
          exact List.mem_map_of_mem (fun e => e.1) he0
        simp only [hne, if_false, List.mem_append, List.mem_singleton, or_false]
        exact hen e0 he0
      · subst he0
        simp
    · intro k hk
      rw [modifyEntry_keys, List.map_append, List.mem_append]
      rw [List.mem_append, List.mem_singleton] at hk
      rcases hk with hk | hk
      · exact Or.inl (hin k hk)
      · subst hk; simp
  · have hpres : rinfo.fileName ∈ acc.1.entries.map (fun e => e.1) := by
      by_contra hc
      have := (lookup_none_iff _ _).mpr hc
      unfold Dictionary.find at hf
      rw [hf] at this
      simp at this
    simp only [Dictionary.modify]
    refine ⟨?_, ?_, ?_⟩
    · rw [modifyEntry_keys]; exact hnd
    · rw [modifyEntry_eq_map _ _ _ hnd]
      intro e he
      rw [List.mem_map] at he
      obtain ⟨e0, he0, rfl⟩ := he
      by_cases hk : e0.1 = rinfo.fileName
      · simp [hk]
      · simp only [hk, if_false, List.mem_append, List.mem_singleton, or_false]
        exact hen e0 he0
    · intro k hk
      rw [modifyEntry_keys]
      rw [List.mem_append, List.mem_singleton] at hk
      rcases hk with hk | hk
      · exact hin k hk
      · subst hk; exact hpres

theorem updateCacheRaster_count (c : Constants) (rgroup : rasters_group_t)
    (acc : Dictionary cacheitem_t × Nat) (rinfo : raster_info_t) :
    (updateCacheRaster c rgroup acc rinfo).2 = wrapU32 (acc.2 + 1) := rfl

theorem foldl_updateCacheRaster (c : Constants) (rgroup : rasters_group_t) :
    ∀ (infovect : List raster_info_t) (acc : Dictionary cacheitem_t × Nat) (seen : List String),
      MarkInv acc.1 seen →
      MarkInv (infovect.foldl (updateCacheRaster c rgroup) acc).1
          (seen ++ infovect.map (fun ri => ri.fileName))
  | [], acc, seen, h => by simpa using h
  | ri :: rest, acc, seen, h => by
    have ih := foldl_updateCacheRaster c rgroup rest (updateCacheRaster c rgroup acc ri)
      (seen ++ [ri.fileName]) (updateCacheRaster_inv c rgroup acc ri seen h)
    rw [List.foldl_cons]
    simpa using ih

theorem foldl_updateCacheRaster_count (c : Constants) (rgroup : rasters_group_t) :
    ∀ (infovect : List raster_info_t) (acc : Dictionary cacheitem_t × Nat),
      (infovect.foldl (updateCacheRaster c rgroup) acc).2 % 2 ^ 32 =
        (acc.2 + infovect.length) % 2 ^ 32
  | [], acc => by simp
  | ri :: rest, acc => by
    rw [List.foldl_cons, foldl_updateCacheRaster_count c rgroup rest, updateCacheRaster_count]
    unfold wrapU32
    simp only [List.length_cons]
    omega

theorem descriptorPaths_cons (kv : sorted_node_t rasters_group_t)
    (rest : List (sorted_node_t rasters_group_t)) :
    descriptorPaths (kv :: rest) =
      kv.data.infovect.map (fun ri => ri.fileName) ++ descriptorPaths rest := by
  simp [descriptorPaths]

theorem updateCacheMark_spec (c : Constants) :
    ∀ (it : List (sorted_node_t rasters_group_t)) (acc : Dictionary cacheitem_t × Nat)
      (seen : List String), MarkInv acc.1 seen →
      MarkInv (it.foldl (fun acc kv => kv.data.infovect.foldl (updateCacheRaster c kv.data) acc)
          acc).1 (seen ++ descriptorPaths it)
  | [], acc, seen, h => by simpa [descriptorPaths] using h
  | kv :: rest, acc, seen, h => by
    have h1 := foldl_updateCacheRaster c kv.data kv.data.infovect acc seen h
    have ih := updateCacheMark_spec c rest _ _ h1
    rw [List.foldl_cons, descriptorPaths_cons]
    simpa using ih

theorem updateCacheMark_count_mod (c : Constants) :
    ∀ (it : List (sorted_node_t rasters_group_t)) (acc : Dictionary cacheitem_t × Nat),
      (it.foldl (fun acc kv => kv.data.infovect.foldl (updateCacheRaster c kv.data) acc)
        acc).2 % 2 ^ 32 = (acc.2 + (descriptorPaths it).length) % 2 ^ 32
  | [], acc => by simp [descriptorPaths]
  | kv :: rest, acc => by
    rw [List.foldl_cons, updateCacheMark_count_mod c rest, descriptorPaths_cons]
    have := foldl_updateCacheRaster_count c kv.data kv.data.infovect acc
    simp only [List.length_append, List.length_map]
    omega

theorem disableAll_inv (cache : Dictionary cacheitem_t)
    (h : (cache.entries.map (fun e => e.1)).Nodup) : MarkInv (disableAll cache) [] := by
  unfold disableAll MarkInv
  refine ⟨?_, ?_, ?_⟩
  · simpa [List.map_map, Function.comp] using h
  · intro e he
    rw [List.mem_map] at he
    obtain ⟨e0, _, rfl⟩ := he
    simp
  · intro k hk; simp at hk

theorem evictDisabled_entries (c : Constants) (cache : Dictionary cacheitem_t)
    (h : (cache.entries.map (fun e => e.1)).Nodup) :
    (evictDisabled c cache).entries =
      if cache.length > c.MAX_CACHE_SIZE then cache.entries.filter (fun e => e.2.enabled)
      else cache.entries := by
  unfold evictDisabled
  split
  · simp only
    rw [foldl_remove_entries]
    apply List.filter_congr
    intro e he
    rw [Bool.eq_iff_iff]
    simp only [List.mem_map, List.mem_filter, Bool.not_eq_true', not_exists, not_and,
      decide_eq_true_eq, and_imp]
    constructor
    · intro h2
      by_contra hc
      simp only [Bool.not_eq_true] at hc
      exact h2 e he hc rfl
    · intro h2 e1 he1 hd hk
      have : e1 = e := by
        have hinj := List.inj_on_of_nodup_map h he1 he hk
        exact hinj
      rw [this, h2] at hd
      simp at hd
  · rfl

theorem mem_descriptorPaths (it : List (sorted_node_t rasters_group_t)) (k : String) :
    k ∈ descriptorPaths it ↔ ∃ n ∈ it, ∃ ri ∈ n.data.infovect, ri.fileName = k := by
  simp [descriptorPaths]

theorem foldl_updateCacheRaster_bound (c : Constants) (rgroup : rasters_group_t) :
    ∀ (infovect : List raster_info_t) (acc : Dictionary cacheitem_t × Nat),
      acc.2 < 2 ^ 32 → (infovect.foldl (updateCacheRaster c rgroup) acc).2 < 2 ^ 32
  | [], _, h => h
  | ri :: rest, acc, _ => by
    rw [List.foldl_cons]
    apply foldl_updateCacheRaster_bound c rgroup rest
    rw [updateCacheRaster_count]
    unfold wrapU32
    exact Nat.mod_lt _ (by norm_num)

theorem updateCacheMark_bound (c : Constants) :
    ∀ (it : List (sorted_node_t rasters_group_t)) (acc : Dictionary cacheitem_t × Nat),
      acc.2 < 2 ^ 32 →
      (it.foldl (fun acc kv => kv.data.infovect.foldl (updateCacheRaster c kv.data) acc)
        acc).2 < 2 ^ 32
  | [], _, h => h
  | kv :: rest, acc, h => by
    rw [List.foldl_cons]
    exact updateCacheMark_bound c rest _ (foldl_updateCacheRaster_bound c kv.data _ acc h)

/-- The marking loops of `updateCache`, started on the disabled cache. -/
theorem updateCacheMark_marked (c : Constants) (r : Nat) (groupList : GroupOrdering)
    (cache : Dictionary cacheitem_t) (hnd : (cache.entries.map (fun e => e.1)).Nodup) :
    MarkInv (updateCacheMark c groupList (disableAll cache, r)).1
      (descriptorPaths groupList.nodes) := by
  have := updateCacheMark_spec c groupList.nodes (disableAll cache, r) []
    (disableAll_inv cache hnd)
  simpa using this

/-- The value of `rasters2sample` after the marking loops started at zero: the
number of descriptors, counted with multiplicity. -/
theorem updateCacheMark_count (c : Constants) (groupList : GroupOrdering)
    (cache : Dictionary cacheitem_t) (hcount : (descriptorPaths groupList.nodes).length < 2 ^ 32) :
    (updateCacheMark c groupList (cache, 0)).2 = (descriptorPaths groupList.nodes).length := by
  have h1 := updateCacheMark_bound c groupList.nodes (cache, 0) (by norm_num)
  have h5 := updateCacheMark_count_mod c groupList.nodes (cache, 0)
  unfold updateCacheMark Ordering.Iterator
  simp only [Nat.zero_add] at h5
  rw [Nat.mod_eq_of_lt h1, Nat.mod_eq_of_lt hcount] at h5
  exact h5

theorem updateCache_cache (c : Constants) (r : Nat) (groupList : GroupOrdering)
    (obj : GeoIndexedRaster) :
    (updateCache c r groupList obj).2.2.cache =
      evictDisabled c (updateCacheMark c groupList (disableAll obj.cache, r)).1 := by
  unfold updateCache
  simp only
  split <;> rfl

theorem updateCache_flag (c : Constants) (r : Nat) (groupList : GroupOrdering)
    (obj : GeoIndexedRaster) :
    ((updateCache c r groupList obj).1 = false ↔
      MAX_READER_THREADS < (updateCacheMark c groupList (disableAll obj.cache, r)).2) ∧
    ((updateCache c r groupList obj).1 = false →
      (updateCache c r groupList obj).2.2.ssErrors = obj.ssErrors ||| c.SS_THREADS_LIMIT_ERROR) ∧
    ((updateCache c r groupList obj).1 = true →
      (updateCache c r groupList obj).2.2.ssErrors = obj.ssErrors) := by
  unfold updateCache
  simp only
  split
  · rename_i h
    simp [h]
  · rename_i h
    simp [h]

/-- The entries of the cache when `updateCache` returns: the marked entries,
without the disabled ones when the cache is too big. -/
theorem updateCache_entries (c : Constants) (r : Nat) (groupList : GroupOrdering)
    (obj : GeoIndexedRaster) (hnd : (obj.cache.entries.map (fun e => e.1)).Nodup) :
    (updateCache c r groupList obj).2.2.cache.entries =
      if (updateCacheMark c groupList (disableAll obj.cache, r)).1.length > c.MAX_CACHE_SIZE then
        (updateCacheMark c groupList (disableAll obj.cache, r)).1.entries.filter
          (fun e => e.2.enabled)
      else (updateCacheMark c groupList (disableAll obj.cache, r)).1.entries := by
  rw [updateCache_cache]
  exact evictDisabled_entries c _ (updateCacheMark_marked c r groupList obj.cache hnd).1

theorem updateCache_enabled_entries (c : Constants) (r : Nat) (groupList : GroupOrdering)
    (obj : GeoIndexedRaster) (hnd : (obj.cache.entries.map (fun e => e.1)).Nodup) :
    (updateCache c r groupList obj).2.2.cache.entries.filter (fun e => e.2.enabled) =
      (updateCacheMark c groupList (disableAll obj.cache, r)).1.entries.filter
        (fun e => e.2.enabled) := by
  rw [updateCache_entries c r groupList obj hnd]
  split
  · rw [List.filter_filter]
    apply List.filter_congr
    intro e _
    simp
  · rfl

/-- The enabled entries of a marked cache are as many as the distinct file names
seen. -/
theorem MarkInv.enabled_keys_perm {cache : Dictionary cacheitem_t} {seen : List String}
    (h : MarkInv cache seen) :
    ((cache.entries.filter (fun e => e.2.enabled)).map (fun e => e.1)).Nodup ∧
      ∀ k, k ∈ (cache.entries.filter (fun e => e.2.enabled)).map (fun e => e.1) ↔ k ∈ seen := by
  obtain ⟨hnd, hen, hin⟩ := h
  refine ⟨List.Nodup.sublist (List.Sublist.map _ (List.filter_sublist _)) hnd, ?_⟩
  intro k
  simp only [List.mem_map, List.mem_filter]
  constructor
  · rintro ⟨e, ⟨he, hE⟩, rfl⟩
    exact (hen e he).mp hE
  · intro hk
    have := hin k hk
    rw [List.mem_map] at this
    obtain ⟨e, he, rfl⟩ := this
    exact ⟨e, ⟨he, (hen e he).mpr hk⟩, rfl⟩

/-- The keys of the cache stay pairwise distinct through `updateCache`. -/
theorem updateCache_keys_nodup (c : Constants) (r : Nat) (groupList : GroupOrdering)
    (obj : GeoIndexedRaster) (hnd : (obj.cache.entries.map (fun e => e.1)).Nodup) :
    ((updateCache c r groupList obj).2.2.cache.entries.map (fun e => e.1)).Nodup := by
  have hm := (updateCacheMark_marked c r groupList obj.cache hnd).1
  rw [updateCache_entries c r groupList obj hnd]
  split
  · exact List.Nodup.sublist (List.Sublist.map _ (List.filter_sublist _)) hm
  · exact hm

/-- C2: after `updateCache`, for a cache with pairwise distinct keys, an entry is
enabled if and only if its file path is the path of a descriptor of a surviving
group, and every path of such a descriptor has an enabled entry. -/
theorem updateCache_enabled_iff_referenced (c : Constants) (rasters2sample : Nat)
    (groupList : GroupOrdering) (obj : GeoIndexedRaster)
    (hnd : (obj.cache.entries.map (fun e => e.1)).Nodup) :
    (∀ e ∈ (updateCache c rasters2sample groupList obj).2.2.cache.entries,
      e.2.enabled = true ↔
        ∃ n ∈ groupList.nodes, ∃ ri ∈ n.data.infovect, ri.fileName = e.1) ∧
    (∀ n ∈ groupList.nodes, ∀ ri ∈ n.data.infovect,
      ∃ e ∈ (updateCache c rasters2sample groupList obj).2.2.cache.entries,
        e.1 = ri.fileName ∧ e.2.enabled = true) := by
  have hm := updateCacheMark_marked c rasters2sample groupList obj.cache hnd
  have hent := updateCache_entries c rasters2sample groupList obj hnd
  obtain ⟨_, hen, hin⟩ := hm
  have hsub : ∀ e ∈ (updateCache c rasters2sample groupList obj).2.2.cache.entries,
      e ∈ (updateCacheMark c groupList (disableAll obj.cache, rasters2sample)).1.entries := by
    intro e he
    rw [hent] at he
    split at he
    · exact List.mem_of_mem_filter he
    · exact he
  constructor
  · intro e he
    rw [hen e (hsub e he), mem_descriptorPaths]
  · intro n hn ri hri
    have hk : ri.fileName ∈ descriptorPaths groupList.nodes :=
      (mem_descriptorPaths _ _).mpr ⟨n, hn, ri, hri, rfl⟩
    have := hin _ hk
    rw [List.mem_map] at this
    obtain ⟨e, he, hek⟩ := this
    have hE : e.2.enabled = true := (hen e he).mpr (hek ▸ hk)
    refine ⟨e, ?_, hek, hE⟩
    rw [hent]
    split
    · exact List.mem_filter.mpr ⟨he, hE⟩
    · exact he

/-- C2, witness: a cache holding a stale entry and a request for three rasters. -/
theorem updateCache_enabled_iff_referenced_witness :
    (exampleStaleObject.cache.entries.map (fun e => e.1)).Nodup ∧
    (∀ n ∈ exampleGroupList.nodes, ∀ ri ∈ n.data.infovect,
      ∃ e ∈ (updateCache exampleConstants 0 exampleGroupList exampleStaleObject).2.2.cache.entries,
        e.1 = ri.fileName ∧ e.2.enabled = true) :=
  ⟨by decide,
   (updateCache_enabled_iff_referenced exampleConstants 0 exampleGroupList exampleStaleObject
    (by decide)).2⟩

/-- When `updateCache` returns false inside `sample`, the single-point `getSamples`
returns the output list as it was given and the error word that `updateCache`
left. -/
theorem getSamples_of_updateCache_false (c : Constants) (tl : TimeLib) (parms : GeoParms)
    (env : Environment) (gps : Int) (slist : List RasterSample) (obj0 obj : GeoIndexedRaster)
    (gl1 groupList : GroupOrdering)
    (hfind : findRastersParallel c env Ordering.new { obj0 with ssErrors := SS_NO_ERRORS } =
      (true, gl1, obj))
    (hfilter : filterRasters tl parms gps gl1 = (true, groupList))
    (hupdate : (updateCache c 0 groupList obj).1 = false) :
    (getSamples c tl parms env gps slist obj0).2.1 = slist ∧
    (getSamples c tl parms env gps slist obj0).1 =
      (updateCache c 0 groupList obj).2.2.ssErrors := by
  have hs : sample c tl parms env gps Ordering.new { obj0 with ssErrors := SS_NO_ERRORS } =
      (false, groupList, (updateCache c 0 groupList obj).2.2) := by
    unfold sample
    rw [hfind]
    simp only [hfilter]
    rcases hu : updateCache c 0 groupList obj with ⟨ok, r2s, obj2⟩
    rw [hu] at hupdate
    simp only at hupdate
    subst hupdate
    rfl
  unfold getSamples
  simp only [hs]
  exact ⟨trivial, rfl⟩

/-- C3 (amended): `updateCache`, called as in `sample` with `rasters2sample = 0`,
returns false and sets `SS_THREADS_LIMIT_ERROR` if and only if the number of
descriptors of the surviving groups, each descriptor counted, exceeds
`MAX_READER_THREADS`; otherwise it returns true and leaves the error word.  The
number of enabled cache entries never exceeds that number of descriptors, and
equals it when the file paths of the descriptors are pairwise distinct.  When
`updateCache` returns false in `sample`, the single-point `getSamples` returns
its output list as given, with the error word holding `SS_THREADS_LIMIT_ERROR`. -/
theorem updateCache_threads_limit (c : Constants) (groupList : GroupOrdering)
    (obj : GeoIndexedRaster) (hnd : (obj.cache.entries.map (fun e => e.1)).Nodup)
    (hcount : (descriptorPaths groupList.nodes).length < 2 ^ 32) :
    ((updateCache c 0 groupList obj).1 = false ↔
      MAX_READER_THREADS < (descriptorPaths groupList.nodes).length) ∧
    ((updateCache c 0 groupList obj).1 = false →
      (updateCache c 0 groupList obj).2.2.ssErrors =
        obj.ssErrors ||| c.SS_THREADS_LIMIT_ERROR) ∧
    ((updateCache c 0 groupList obj).1 = true →
      (updateCache c 0 groupList obj).2.2.ssErrors = obj.ssErrors) ∧
    ((updateCache c 0 groupList obj).2.2.cache.entries.filter (fun e => e.2.enabled)).length ≤
      (descriptorPaths groupList.nodes).length ∧
    ((descriptorPaths groupList.nodes).Nodup →
      ((updateCache c 0 groupList obj).2.2.cache.entries.filter (fun e => e.2.enabled)).length =
        (descriptorPaths groupList.nodes).length) ∧
    (∀ (tl : TimeLib) (parms : GeoParms) (env : Environment) (gps : Int)
        (slist : List RasterSample) (obj0 : GeoIndexedRaster) (gl1 : GroupOrdering),
      findRastersParallel c env Ordering.new { obj0 with ssErrors := SS_NO_ERRORS } =
        (true, gl1, obj) →
      filterRasters tl parms gps gl1 = (true, groupList) →
      (updateCache c 0 groupList obj).1 = false →
      (getSamples c tl parms env gps slist obj0).2.1 = slist ∧
      (getSamples c tl parms env gps slist obj0).1 =
        obj.ssErrors ||| c.SS_THREADS_LIMIT_ERROR) := by
  have hflag := updateCache_flag c 0 groupList obj
  rw [updateCacheMark_count c groupList _ hcount] at hflag
  have hm := (updateCacheMark_marked c 0 groupList obj.cache hnd).enabled_keys_perm
  rw [← updateCache_enabled_entries c 0 groupList obj hnd] at hm
  refine ⟨hflag.1, hflag.2.1, hflag.2.2, ?_, ?_, ?_⟩
  rotate_left 2
  · intro tl parms env gps slist obj0 gl1 hfind hfilter hupdate
    obtain ⟨h1, h2⟩ := getSamples_of_updateCache_false c tl parms env gps slist obj0 obj gl1
      groupList hfind hfilter hupdate
    exact ⟨h1, h2.trans (hflag.2.1 hupdate)⟩
  · have hsub : ((updateCache c 0 groupList obj).2.2.cache.entries.filter
        (fun e => e.2.enabled)).map (fun e => e.1) ⊆ descriptorPaths groupList.nodes :=
      fun k hk => (hm.2 k).mp hk
    have := (List.subperm_of_subset hm.1 hsub).length_le
    simpa using this
  · intro hnd2
    have hperm : List.Perm (((updateCache c 0 groupList obj).2.2.cache.entries.filter
        (fun e => e.2.enabled)).map (fun e => e.1)) (descriptorPaths groupList.nodes) :=
      (List.perm_ext_iff_of_nodup hm.1 hnd2).mpr hm.2
    simpa using hperm.length_eq

/-- C3, witness: three groups with one raster each stay below the limit. -/
theorem updateCache_threads_limit_witness :
    (exampleStaleObject.cache.entries.map (fun e => e.1)).Nodup ∧
    (descriptorPaths exampleGroupList.nodes).length < 2 ^ 32 ∧
    ((updateCache exampleConstants 0 exampleGroupList exampleStaleObject).1 = false ↔
      MAX_READER_THREADS < (descriptorPaths exampleGroupList.nodes).length) :=
  ⟨by decide, by decide,
   (updateCache_threads_limit exampleConstants exampleGroupList exampleStaleObject
    (by decide) (by decide)).1⟩

set_option maxRecDepth 100000 in
/-- C3, counterexample: 201 groups whose VALUE descriptors name the same file
enable a single cache entry, yet `updateCache` returns false and sets
`SS_THREADS_LIMIT_ERROR`. -/
theorem updateCache_threads_counterexample :
    ((updateCache exampleConstants 0 exampleGroupListRepeated exampleEmptyObject).2.2.cache.entries.filter
        (fun e => e.2.enabled)).length = 1 ∧
    (updateCache exampleConstants 0 exampleGroupListRepeated exampleEmptyObject).1 = false ∧
    (updateCache exampleConstants 0 exampleGroupListRepeated exampleEmptyObject).2.2.ssErrors =
      exampleConstants.SS_THREADS_LIMIT_ERROR := by
  decide

/-- C9: when the marked cache holds more than `MAX_CACHE_SIZE` entries,
`updateCache` leaves exactly the enabled entries, in their order; otherwise it
removes no entry. -/
theorem updateCache_evicts_disabled (c : Constants) (rasters2sample : Nat)
    (groupList : GroupOrdering) (obj : GeoIndexedRaster)
    (hnd : (obj.cache.entries.map (fun e => e.1)).Nodup) :
    ((updateCacheMark c groupList (disableAll obj.cache, rasters2sample)).1.length >
        c.MAX_CACHE_SIZE →
      (updateCache c rasters2sample groupList obj).2.2.cache.entries =
        (updateCacheMark c groupList (disableAll obj.cache, rasters2sample)).1.entries.filter
          (fun e => e.2.enabled)) ∧
    ((updateCacheMark c groupList (disableAll obj.cache, rasters2sample)).1.length ≤
        c.MAX_CACHE_SIZE →
      (updateCache c rasters2sample groupList obj).2.2.cache =
        (updateCacheMark c groupList (disableAll obj.cache, rasters2sample)).1) := by
  have hent := updateCache_entries c rasters2sample groupList obj hnd
  constructor
  · intro h
    rw [hent, if_pos h]
  · intro h
    rw [updateCache_cache]
    unfold evictDisabled
    rw [if_neg (Nat.not_lt.mpr h)]

/-- C9, witness: four marked entries with `MAX_CACHE_SIZE = 2`; the stale entry
is evicted, the three enabled ones stay. -/
theorem updateCache_evicts_disabled_witness :
    (exampleStaleObject.cache.entries.map (fun e => e.1)).Nodup ∧
    (updateCacheMark exampleConstants exampleGroupList
      (disableAll exampleStaleObject.cache, 0)).1.length > exampleConstants.MAX_CACHE_SIZE ∧
    (updateCache exampleConstants 0 exampleGroupList exampleStaleObject).2.2.cache.entries =
      (updateCacheMark exampleConstants exampleGroupList
        (disableAll exampleStaleObject.cache, 0)).1.entries.filter (fun e => e.2.enabled) ∧
    (updateCache exampleConstants 0 exampleGroupList exampleStaleObject).2.2.cache.entries.map
      (fun e => e.1) = ["a.tif", "b.tif", "c.tif"] :=
  ⟨by decide, by decide,
   (updateCache_evicts_disabled exampleConstants 0 exampleGroupList exampleStaleObject
    (by decide)).1 (by decide), by decide⟩

/-! ## Batch sampling: unique rasters -/

theorem mapAccumList_nil {σ α : Type} (f : σ → α → σ × α) (s : σ) :
    mapAccumList f s [] = (s, []) := rfl

theorem mapAccumList_cons {σ α : Type} (f : σ → α → σ × α) (s : σ) (a : α) (rest : List α) :
    mapAccumList f s (a :: rest) =
      ((mapAccumList f (f s a).1 rest).1, (f s a).2 :: (mapAccumList f (f s a).1 rest).2) := rfl

theorem mapAccumList_append {σ α : Type} (f : σ → α → σ × α) :
    ∀ (l1 l2 : List α) (s : σ),
      mapAccumList f s (l1 ++ l2) =
        ((mapAccumList f (mapAccumList f s l1).1 l2).1,
          (mapAccumList f s l1).2 ++ (mapAccumList f (mapAccumList f s l1).1 l2).2)
  | [], l2, s => by simp [mapAccumList_nil]
  | a :: l1, l2, s => by
    rw [List.cons_append, mapAccumList_cons, mapAccumList_append f l1 l2, mapAccumList_cons]
    simp

/-- The pass over an ordering is the pass over its nodes from first to last. -/
theorem Ordering.mapAccumData_nodes {σ T : Type} (f : σ → T → σ × T) (s : σ) (o : Ordering T) :
    (o.mapAccumData f s).1 =
        (mapAccumList (fun s n => ((f s n.data).1, (⟨n.key, (f s n.data).2⟩ : sorted_node_t T)))
          s o.nodes).1 ∧
      (o.mapAccumData f s).2.nodes =
        (mapAccumList (fun s n => ((f s n.data).1, (⟨n.key, (f s n.data).2⟩ : sorted_node_t T)))
          s o.nodes).2 := by
  unfold Ordering.mapAccumData Ordering.nodes
  rcases h : o.links with l | ⟨ps, c, ns⟩
  · simp
  · simp only [Links.nodes_atCurr, mapAccumList_append, mapAccumList_cons,
      List.reverse_reverse]
    simp

theorem findUniqueRaster_some (fileName : String) :
    ∀ (l : List unique_raster_t) (i j : Nat), findUniqueRaster fileName l i = some j →
      i ≤ j ∧ ∃ ur, l[j - i]? = some ur ∧ ur.rinfo.fileName = fileName
  | [], _, _, h => by simp [findUniqueRaster] at h
  | ur :: rest, i, j, h => by
    unfold findUniqueRaster at h
    split at h
    · rename_i hf
      simp only [Option.some.injEq] at h
      subst h
      exact ⟨Nat.le_refl _, ur, by simp, hf⟩
    · obtain ⟨h1, u, h2, h3⟩ := findUniqueRaster_some fileName rest (i + 1) j h
      refine ⟨by omega, u, ?_, h3⟩
      have : j - i = (j - (i + 1)) + 1 := by omega
      rw [this, List.getElem?_cons_succ]
      exact h2

theorem findUniqueRaster_none (fileName : String) :
    ∀ (l : List unique_raster_t) (i : Nat), findUniqueRaster fileName l i = none →
      fileName ∉ l.map (fun ur => ur.rinfo.fileName)
  | [], _, _ => by simp
  | ur :: rest, i, h => by
    unfold findUniqueRaster at h
    split at h
    · simp at h
    · rename_i hf
      have := findUniqueRaster_none fileName rest (i + 1) h
      simp only [List.map_cons, List.mem_cons, not_or]
      exact ⟨fun e => hf e.symm, this⟩

theorem Resolved.mono {s s' : List unique_raster_t} {ri : raster_info_t} (hp : s <+: s')
    (h : Resolved s ri) : Resolved s' ri := by
  obtain ⟨i, ur, h1, h2, h3⟩ := h
  refine ⟨i, ur, h1, ?_, h3⟩
  obtain ⟨t, rfl⟩ := hp
  have hlt : i < s.length := by
    by_contra hc
    rw [List.getElem?_eq_none (Nat.le_of_not_lt hc)] at h2
    simp at h2
  rw [List.getElem?_append_left hlt]
  exact h2

/-- One descriptor of the unique-raster pass. -/
theorem uniqueRasterStep_spec (c : Constants) (gpsTime : Int) (s : List unique_raster_t)
    (rinfo : raster_info_t) (hs : UniquePaths s) :
    UniquePaths (uniqueRasterStep c gpsTime s rinfo).1 ∧
      s <+: (uniqueRasterStep c gpsTime s rinfo).1 ∧
      (uniqueRasterStep c gpsTime s rinfo).2.fileName = rinfo.fileName ∧
      Resolved (uniqueRasterStep c gpsTime s rinfo).1 (uniqueRasterStep c gpsTime s rinfo).2 ∧
      (∀ x, x ∈ (uniqueRasterStep c gpsTime s rinfo).1.map (fun ur => ur.rinfo.fileName) ↔
        x ∈ s.map (fun ur => ur.rinfo.fileName) ∨ x = rinfo.fileName) := by
  unfold uniqueRasterStep
  rcases h : findUniqueRaster rinfo.fileName s 0 with _ | i
  · have habs := findUniqueRaster_none _ _ _ h
    refine ⟨?_, ?_, ?_, ?_, ?_⟩
    · show UniquePaths (s ++ [_])
      unfold UniquePaths
      rw [List.map_append, List.nodup_append]
      refine ⟨hs, by simp, ?_⟩
      intro a ha hb
      simp only [List.map_cons, List.map_nil, List.mem_singleton] at hb
      subst hb
      exact habs ha
    · exact List.prefix_append _ _
    · rfl
    · exact ⟨s.length, ⟨rinfo, gpsTime, c.fileDictAdd rinfo.fileName, []⟩, rfl,
        by simp, rfl⟩
    · intro x
      show x ∈ (s ++ [_]).map _ ↔ _
      simp
  · obtain ⟨_, ur, h2, h3⟩ := findUniqueRaster_some _ _ _ _ h
    simp only [Nat.sub_zero] at h2
    refine ⟨hs, List.prefix_refl _, rfl, ⟨i, ur, rfl, h2, h3⟩, ?_⟩
    intro x
    constructor
    · exact Or.inl
    · rintro (hx | hx)
      · exact hx
      · subst hx
        rw [← h3]
        exact List.mem_map_of_mem _ (List.mem_iff_getElem?.mpr ⟨i, h2⟩)

/-- A pass that keeps the paths of its elements, extends the vector of unique
rasters and resolves every element, does so for the whole list. -/
theorem mapAccumList_unique {α : Type} (f : List unique_raster_t → α → List unique_raster_t × α)
    (paths : α → List String) (Post : List unique_raster_t → α → Prop)
    (hmono : ∀ s s' b, s <+: s' → Post s b → Post s' b)
    (hstep : ∀ s a, UniquePaths s →
      UniquePaths (f s a).1 ∧ s <+: (f s a).1 ∧ paths (f s a).2 = paths a ∧
        Post (f s a).1 (f s a).2 ∧
        (∀ x, x ∈ (f s a).1.map (fun ur => ur.rinfo.fileName) ↔
          x ∈ s.map (fun ur => ur.rinfo.fileName) ∨ x ∈ paths a)) :
    ∀ (l : List α) (s : List unique_raster_t), UniquePaths s →
      UniquePaths (mapAccumList f s l).1 ∧ s <+: (mapAccumList f s l).1 ∧
        (mapAccumList f s l).2.map paths = l.map paths ∧
        (∀ b ∈ (mapAccumList f s l).2, Post (mapAccumList f s l).1 b) ∧
        (∀ x, x ∈ (mapAccumList f s l).1.map (fun ur => ur.rinfo.fileName) ↔
          x ∈ s.map (fun ur => ur.rinfo.fileName) ∨ ∃ a ∈ l, x ∈ paths a)
  | [], s, hs => by simp [mapAccumList_nil, hs]
  | a :: rest, s, hs => by
    obtain ⟨h1, h2, h3, h4, h5⟩ := hstep s a hs
    obtain ⟨i1, i2, i3, i4, i5⟩ := mapAccumList_unique f paths Post hmono hstep rest (f s a).1 h1
    rw [mapAccumList_cons]
    refine ⟨i1, h2.trans i2, ?_, ?_, ?_⟩
    · simp [h3, i3]
    · intro b hb
      rw [List.mem_cons] at hb
      rcases hb with hb | hb
      · subst hb
        exact hmono _ _ _ i2 h4
      · exact i4 b hb
    · intro x
      rw [i5 x, h5 x]
      simp only [List.mem_cons, exists_eq_or_imp]
      tauto

theorem map_of_map_singleton {α β : Type} (g : α → β) :
    ∀ (l l' : List α), l.map (fun x => [g x]) = l'.map (fun x => [g x]) → l.map g = l'.map g
  | [], [], _ => rfl
  | [], _ :: _, h => by simp at h
  | _ :: _, [], h => by simp at h
  | a :: l, b :: l', h => by
    simp only [List.map_cons, List.cons.injEq] at h ⊢
    exact ⟨h.1.1, map_of_map_singleton g l l' h.2⟩

/-- The unique-raster pass over the descriptors of one group. -/
theorem uniqueRastersGroup_spec (c : Constants) (s : List unique_raster_t)
    (rgroup : rasters_group_t) (hs : UniquePaths s) :
    UniquePaths (uniqueRastersGroup c s rgroup).1 ∧ s <+: (uniqueRastersGroup c s rgroup).1 ∧
      (uniqueRastersGroup c s rgroup).2.infovect.map (fun ri => ri.fileName) =
        rgroup.infovect.map (fun ri => ri.fileName) ∧
      (∀ ri ∈ (uniqueRastersGroup c s rgroup).2.infovect,
        Resolved (uniqueRastersGroup c s rgroup).1 ri) ∧
      (∀ x, x ∈ (uniqueRastersGroup c s rgroup).1.map (fun ur => ur.rinfo.fileName) ↔
        x ∈ s.map (fun ur => ur.rinfo.fileName) ∨
          x ∈ rgroup.infovect.map (fun ri => ri.fileName)) := by
  have h := mapAccumList_unique (uniqueRasterStep c rgroup.gpsTime)
    (fun ri => [ri.fileName]) Resolved (fun _ _ _ hp hr => hr.mono hp)
    (by
      intro s a hs
      obtain ⟨h1, h2, h3, h4, h5⟩ := uniqueRasterStep_spec c rgroup.gpsTime s a hs
      refine ⟨h1, h2, by show [_] = [_]; rw [h3], h4, ?_⟩
      intro x
      rw [h5 x, List.mem_singleton])
    rgroup.infovect s hs
  obtain ⟨h1, h2, h3, h4, h5⟩ := h
  refine ⟨h1, h2, map_of_map_singleton _ _ _ h3, h4, ?_⟩
  intro x
  show x ∈ (mapAccumList (uniqueRasterStep c rgroup.gpsTime) s rgroup.infovect).1.map _ ↔ _
  rw [h5 x]
  simp only [List.mem_singleton, List.mem_map]
  constructor
  · rintro (h | ⟨a, ha, rfl⟩)
    · exact Or.inl h
    · exact Or.inr ⟨a, ha, rfl⟩
  · rintro (h | ⟨a, ha, rfl⟩)
    · exact Or.inl h
    · exact Or.inr ⟨a, ha, rfl⟩

/-- The unique-raster pass over the groups of one point. -/
theorem uniqueRastersPoint_spec (c : Constants) (s : List unique_raster_t)
    (pg : point_groups_t) (hs : UniquePaths s) :
    UniquePaths (uniqueRastersPoint c s pg).1 ∧ s <+: (uniqueRastersPoint c s pg).1 ∧
      descriptorPaths (uniqueRastersPoint c s pg).2.groupList.nodes =
        descriptorPaths pg.groupList.nodes ∧
      (∀ n ∈ (uniqueRastersPoint c s pg).2.groupList.nodes, ∀ ri ∈ n.data.infovect,
        Resolved (uniqueRastersPoint c s pg).1 ri) ∧
      (∀ x, x ∈ (uniqueRastersPoint c s pg).1.map (fun ur => ur.rinfo.fileName) ↔
        x ∈ s.map (fun ur => ur.rinfo.fileName) ∨ x ∈ descriptorPaths pg.groupList.nodes) := by
  have h := mapAccumList_unique
    (fun s (n : sorted_node_t rasters_group_t) =>
      ((uniqueRastersGroup c s n.data).1,
        (⟨n.key, (uniqueRastersGroup c s n.data).2⟩ : sorted_node_t rasters_group_t)))
    (fun n => n.data.infovect.map (fun ri => ri.fileName))
    (fun s n => ∀ ri ∈ n.data.infovect, Resolved s ri)
    (fun _ _ _ hp hr ri hri => (hr ri hri).mono hp)
    (fun s n hs => uniqueRastersGroup_spec c s n.data hs)
    pg.groupList.nodes s hs
  obtain ⟨hn1, hn2⟩ := Ordering.mapAccumData_nodes (uniqueRastersGroup c) s pg.groupList
  unfold uniqueRastersPoint
  simp only
  rw [hn1, hn2]
  obtain ⟨h1, h2, h3, h4, h5⟩ := h
  refine ⟨h1, h2, ?_, h4, ?_⟩
  · unfold descriptorPaths
    rw [List.flatMap_def, List.flatMap_def, h3]
  · intro x
    rw [h5 x, mem_descriptorPaths]
    simp only [List.mem_map]

theorem nodup_getElem?_inj (l : List String) (h : l.Nodup) (i j : Nat) (x : String)
    (hi : l[i]? = some x) (hj : l[j]? = some x) : i = j := by
  rw [List.nodup_iff_getElem?_ne_getElem?] at h
  rcases Nat.lt_trichotomy i j with hij | hij | hij
  · exfalso
    have hjl : j < l.length := by
      by_contra hc
      rw [List.getElem?_eq_none (Nat.le_of_not_lt hc)] at hj
      simp at hj
    exact h i j hij hjl (hi.trans hj.symm)
  · exact hij
  · exfalso
    have hil : i < l.length := by
      by_contra hc
      rw [List.getElem?_eq_none (Nat.le_of_not_lt hc)] at hi
      simp at hi
    exact h j i hij hil (hj.trans hi.symm)

/-- Descriptors resolved against a vector without repeated paths share their
unique raster when they share their path. -/
theorem Resolved.uraster_eq {s : List unique_raster_t} (hs : UniquePaths s)
    {ri ri' : raster_info_t} (h : Resolved s ri) (h' : Resolved s ri')
    (hf : ri.fileName = ri'.fileName) : ri.uraster = ri'.uraster := by
  obtain ⟨i, ur, h1, h2, h3⟩ := h
  obtain ⟨j, ur', h1', h2', h3'⟩ := h'
  have e1 : (s.map (fun ur => ur.rinfo.fileName))[i]? = some ri.fileName := by
    rw [List.getElem?_map, h2]; simp [h3]
  have e2 : (s.map (fun ur => ur.rinfo.fileName))[j]? = some ri.fileName := by
    rw [List.getElem?_map, h2']; simp [h3', hf]
  rw [h1, h1', nodup_getElem?_inj _ hs i j _ e1 e2]

/-- C4: after the unique-raster pass of the batch `getSamples`, no two unique
rasters share a file path, the file paths of the unique rasters are exactly the
file paths of the descriptors of all points' groups, the pass leaves the file
paths of the descriptors of every point as they were, the `uraster` reference
of every descriptor designates the unique raster with the descriptor's file
path, and descriptors with equal paths have the same `uraster`. -/
theorem findUniqueRasters_one_per_path (c : Constants) (pointGroups : List point_groups_t) :
    ((findUniqueRasters c pointGroups).1.map (fun ur => ur.rinfo.fileName)).Nodup ∧
    (∀ x, x ∈ (findUniqueRasters c pointGroups).1.map (fun ur => ur.rinfo.fileName) ↔
      ∃ pg ∈ pointGroups, ∃ n ∈ pg.groupList.nodes, ∃ ri ∈ n.data.infovect, ri.fileName = x) ∧
    (findUniqueRasters c pointGroups).2.map (fun pg => descriptorPaths pg.groupList.nodes) =
      pointGroups.map (fun pg => descriptorPaths pg.groupList.nodes) ∧
    (∀ pg ∈ (findUniqueRasters c pointGroups).2, ∀ n ∈ pg.groupList.nodes,
      ∀ ri ∈ n.data.infovect, ∃ i ur, ri.uraster = some i ∧
        (findUniqueRasters c pointGroups).1[i]? = some ur ∧
        ur.rinfo.fileName = ri.fileName) ∧
    (∀ pg ∈ (findUniqueRasters c pointGroups).2, ∀ n ∈ pg.groupList.nodes,
      ∀ ri ∈ n.data.infovect,
      ∀ pg' ∈ (findUniqueRasters c pointGroups).2, ∀ n' ∈ pg'.groupList.nodes,
      ∀ ri' ∈ n'.data.infovect, ri.fileName = ri'.fileName → ri.uraster = ri'.uraster) := by
  have h := mapAccumList_unique (uniqueRastersPoint c)
    (fun pg => descriptorPaths pg.groupList.nodes)
    (fun s pg => ∀ n ∈ pg.groupList.nodes, ∀ ri ∈ n.data.infovect, Resolved s ri)
    (fun _ _ _ hp hr n hn ri hri => (hr n hn ri hri).mono hp)
    (fun s pg hs => uniqueRastersPoint_spec c s pg hs)
    pointGroups [] (by simp [UniquePaths])
  obtain ⟨h1, _, h3, h4, h5⟩ := h
  refine ⟨h1, ?_, h3, h4, ?_⟩
  · intro x
    have := h5 x
    simp only [List.map_nil, List.not_mem_nil, false_or, mem_descriptorPaths] at this
    exact this
  · intro pg hpg n hn ri hri pg' hpg' n' hn' ri' hri' hf
    exact Resolved.uraster_eq h1 (h4 pg hpg n hn ri hri) (h4 pg' hpg' n' hn' ri' hri') hf

/-! ## Batch sampling: points of a unique raster -/

theorem addPointForGroup_eq (rasterName : String) (pg : point_groups_t)
    (pointSamples : List point_sample_t) :
    ∀ (infovect : List raster_info_t),
      addPointForGroup rasterName pg pointSamples infovect =
        pointSamples ++
          (if infovect.any (fun ri => decide (ri.fileName = rasterName)) then
            [⟨pg.pointInfo, none, SS_NO_ERRORS⟩] else [])
  | [] => by simp [addPointForGroup]
  | ri :: rest => by
    unfold addPointForGroup
    by_cases h : ri.fileName = rasterName
    · simp [h]
    · rw [if_neg h, addPointForGroup_eq rasterName pg pointSamples rest]
      simp [h]

theorem foldl_findPointsForGroup (pg : point_groups_t) :
    ∀ (it : List (sorted_node_t rasters_group_t)) (ur : unique_raster_t),
      (it.foldl (findPointsForGroup pg) ur).rinfo = ur.rinfo ∧
      (it.foldl (findPointsForGroup pg) ur).pointSamples =
        ur.pointSamples ++
          (it.filter (fun n => n.data.infovect.any
            (fun ri => decide (ri.fileName = ur.rinfo.fileName)))).map
            (fun _ => (⟨pg.pointInfo, none, SS_NO_ERRORS⟩ : point_sample_t))
  | [], ur => by simp
  | kv :: rest, ur => by
    rw [List.foldl_cons]
    obtain ⟨h1, h2⟩ := foldl_findPointsForGroup pg rest (findPointsForGroup pg ur kv)
    have hr : (findPointsForGroup pg ur kv).rinfo = ur.rinfo := rfl
    have hp : (findPointsForGroup pg ur kv).pointSamples =
        addPointForGroup ur.rinfo.fileName pg ur.pointSamples kv.data.infovect := rfl
    rw [hr] at h1 h2
    refine ⟨h1, ?_⟩
    rw [h2, hp, addPointForGroup_eq]
    simp only [List.filter_cons]
    split <;> simp

/-- The point samples of a unique raster after the pass: one entry for every
group of every point that holds a descriptor with the raster's path. -/
theorem findPointsForRaster_pointSamples :
    ∀ (pointGroups : List point_groups_t) (ur : unique_raster_t),
      (findPointsForRaster pointGroups ur).rinfo = ur.rinfo ∧
      (findPointsForRaster pointGroups ur).pointSamples =
        ur.pointSamples ++ pointGroups.flatMap (fun pg =>
          (pg.groupList.nodes.filter (fun n => n.data.infovect.any
            (fun ri => decide (ri.fileName = ur.rinfo.fileName)))).map
            (fun _ => (⟨pg.pointInfo, none, SS_NO_ERRORS⟩ : point_sample_t)))
  | [], ur => by simp [findPointsForRaster]
  | pg :: rest, ur => by
    obtain ⟨h1, h2⟩ := foldl_findPointsForGroup pg pg.groupList.Iterator ur
    obtain ⟨i1, i2⟩ := findPointsForRaster_pointSamples rest
      ((pg.groupList.Iterator).foldl (findPointsForGroup pg) ur)
    have hstep : findPointsForRaster (pg :: rest) ur =
        findPointsForRaster rest ((pg.groupList.Iterator).foldl (findPointsForGroup pg) ur) := rfl
    rw [hstep]
    refine ⟨i1.trans h1, ?_⟩
    rw [i2, h2, h1, List.flatMap_cons, List.append_assoc]
    rfl

theorem filter_length_of_le_one {α : Type} (p : α → Bool) (l : List α)
    (h : (l.filter p).length ≤ 1) : (l.filter p).length = if l.any p then 1 else 0 := by
  by_cases hany : l.any p = true
  · rw [if_pos hany]
    rw [List.any_eq_true] at hany
    obtain ⟨x, hx, hpx⟩ := hany
    have := List.length_pos_of_mem (List.mem_filter.mpr ⟨hx, hpx⟩)
    omega
  · rw [if_neg hany]
    rw [List.any_eq_true] at hany
    have : l.filter p = [] := by
      rw [List.filter_eq_nil_iff]
      intro x hx hpx
      exact hany ⟨x, hx, hpx⟩
    rw [this]; rfl

theorem sum_indicator_eq_length_filter {α : Type} (q : α → Bool) :
    ∀ (l : List α), (l.map (fun a => if q a then 1 else 0)).sum = (l.filter q).length
  | [] => rfl
  | a :: l => by
    rw [List.map_cons, List.sum_cons, sum_indicator_eq_length_filter q l, List.filter_cons]
    by_cases h : q a = true
    · simp [h]; omega
    · simp [h]

/-- C5 (amended): after the pass "points for unique rasters", the point samples
of a unique raster are as many as there are pairs of a point and one of its
groups holding a descriptor with the raster's file path (a group counts once);
when no point has two such groups, they are as many as the points that
reference the raster. -/
theorem findPointsForRaster_count (pointGroups : List point_groups_t) (ur : unique_raster_t) :
    (findPointsForRaster pointGroups ur).pointSamples.length =
      ur.pointSamples.length +
        (pointGroups.map (fun pg =>
          (pg.groupList.nodes.filter (fun n => n.data.infovect.any
            (fun ri => decide (ri.fileName = ur.rinfo.fileName)))).length)).sum ∧
    ((∀ pg ∈ pointGroups,
        (pg.groupList.nodes.filter (fun n => n.data.infovect.any
          (fun ri => decide (ri.fileName = ur.rinfo.fileName)))).length ≤ 1) →
      (findPointsForRaster pointGroups ur).pointSamples.length =
        ur.pointSamples.length +
          (pointGroups.filter (fun pg => pg.groupList.nodes.any (fun n =>
            n.data.infovect.any (fun ri => decide (ri.fileName = ur.rinfo.fileName))))).length) := by
  have h := (findPointsForRaster_pointSamples pointGroups ur).2
  have hlen : (findPointsForRaster pointGroups ur).pointSamples.length =
      ur.pointSamples.length +
        (pointGroups.map (fun pg =>
          (pg.groupList.nodes.filter (fun n => n.data.infovect.any
            (fun ri => decide (ri.fileName = ur.rinfo.fileName)))).length)).sum := by
    rw [h, List.length_append, List.length_flatMap]
    congr 2
    apply List.map_congr_left
    intro pg _
    simp
  refine ⟨hlen, ?_⟩
  intro hone
  rw [hlen, ← sum_indicator_eq_length_filter]
  congr 2
  apply List.map_congr_left
  intro pg hpg
  exact filter_length_of_le_one _ _ (hone pg hpg)

/-- C5, witness: two points with one group each. -/
theorem findPointsForRaster_count_witness :
    (∀ pg ∈ examplePointGroupsSingle,
        (pg.groupList.nodes.filter (fun n => n.data.infovect.any
          (fun ri => decide (ri.fileName = exampleUniqueRaster.rinfo.fileName)))).length ≤ 1) ∧
    (findPointsForRaster examplePointGroupsSingle exampleUniqueRaster).pointSamples.length =
      exampleUniqueRaster.pointSamples.length +
        (examplePointGroupsSingle.filter (fun pg => pg.groupList.nodes.any (fun n =>
          n.data.infovect.any
            (fun ri => decide (ri.fileName = exampleUniqueRaster.rinfo.fileName))))).length :=
  ⟨by decide,
   (findPointsForRaster_count examplePointGroupsSingle exampleUniqueRaster).2 (by decide)⟩

/-- C5, counterexample: point 0 has two groups that both hold `a.tif`; point 0 is
the only point referencing `a.tif`, yet the unique raster of `a.tif` receives two
point samples, both for point 0. -/
theorem findPointsForRaster_counterexample :
    (examplePointGroups.filter (fun pg => pg.groupList.nodes.any (fun n =>
      n.data.infovect.any (fun ri => decide (ri.fileName = "a.tif"))))).map
        (fun pg => pg.pointInfo.index) = [0] ∧
    (findPointsForUniqueRasters (findUniqueRasters exampleConstants examplePointGroups).2
      (findUniqueRasters exampleConstants examplePointGroups).1).map
        (fun ur => (ur.rinfo.fileName, ur.pointSamples.map (fun ps => ps.pointInfo.index))) =
      [("a.tif", [0, 0]), ("b.tif", [0, 1])] := by
  decide

/-! ## Batch sampling: harvest of one group -/

theorem batchPointSample_some (flags pointIndx errors : Nat) (slist : List RasterSample) :
    ∀ (pointSamples : List point_sample_t) (r : Nat × List RasterSample),
      batchPointSample flags pointIndx errors slist pointSamples = some r →
      ∃ (ps : point_sample_t) (s : RasterSample),
        ps ∈ pointSamples ∧ ps.pointInfo.index = pointIndx ∧ ps.sample = some s ∧
        r = (errors ||| ps.ssErrors, slist ++ [{ s with flags := flags }])
  | [], r, h => by simp [batchPointSample] at h
  | ps :: rest, r, h => by
    unfold batchPointSample at h
    split at h
    · rename_i hidx
      rcases hs : ps.sample with _ | s
      · rw [hs] at h; simp at h
      · rw [hs] at h
        simp only [Option.some.injEq] at h
        exact ⟨ps, s, List.mem_cons_self _ _, hidx, hs, h.symm⟩
    · obtain ⟨p, s, h1, h2, h3, h4⟩ := batchPointSample_some flags pointIndx errors slist rest r h
      exact ⟨p, s, List.mem_cons_of_mem _ h1, h2, h3, h4⟩

/-- Whenever `getBatchGroupSamples` adds no sample, the error word it returns is
`SS_NO_ERRORS`: the error bits of a point are returned only together with its
sample. -/
theorem getBatchGroupSamplesLoop_errors (uiniqueRasters : List unique_raster_t)
    (flags pointIndx : Nat) (slist : List RasterSample) :
    ∀ (infovect : List raster_info_t),
      getBatchGroupSamplesLoop uiniqueRasters flags pointIndx SS_NO_ERRORS slist infovect =
          (SS_NO_ERRORS, slist) ∨
        ∃ (ps : point_sample_t) (s : RasterSample),
          ps.pointInfo.index = pointIndx ∧ ps.sample = some s ∧
          getBatchGroupSamplesLoop uiniqueRasters flags pointIndx SS_NO_ERRORS slist infovect =
            (SS_NO_ERRORS ||| ps.ssErrors, slist ++ [{ s with flags := flags }])
  | [] => Or.inl rfl
  | rinfo :: rest => by
    have ih := getBatchGroupSamplesLoop_errors uiniqueRasters flags pointIndx slist rest
    unfold getBatchGroupSamplesLoop
    by_cases htag : rinfo.tag ≠ VALUE_TAG
    · rw [if_pos htag]
      exact ih
    · rw [if_neg htag]
      rcases hu : rinfo.uraster.bind (fun i => uiniqueRasters[i]?) with _ | ur
      · exact ih
      · simp only
        rcases hr : batchPointSample flags pointIndx SS_NO_ERRORS slist ur.pointSamples with _ | r
        · exact ih
        · obtain ⟨ps, s, _, h2, h3, h4⟩ := batchPointSample_some _ _ _ _ _ _ hr
          exact Or.inr ⟨ps, s, h2, h3, h4⟩

/-- C6, evaluation at the failing input: the read of `a.tif` for point 0 fails
with error bit 4, the batch reader stores a null sample and the error word 4 for
the point; `getBatchGroupSamples` then adds no sample and returns `SS_NO_ERRORS`,
so the request error word stays 0.  On the single-point path `getGroupSamples`
puts the same error bit into the request error word. -/
theorem getBatchGroupSamples_drops_read_error :
    (batchReaderSample (fun _ => (none, 4)) exampleUniqueRasterOnePoint).pointSamples =
      [⟨⟨⟨0, 0, 0⟩, 0⟩, none, 4⟩] ∧
    getBatchGroupSamples [batchReaderSample (fun _ => (none, 4)) exampleUniqueRasterOnePoint]
      exampleResolvedGroup [] 0 0 = (SS_NO_ERRORS, []) ∧
    populateSamples exampleParms
      [batchReaderSample (fun _ => (none, 4)) exampleUniqueRasterOnePoint] 0
      [⟨⟨⟨0, 0, 0⟩, 0⟩, combineFinderResults Ordering.new [exampleResolvedGroup]⟩]
      (SS_NO_ERRORS, []) = (SS_NO_ERRORS, [[]]) ∧
    (getGroupSamples exampleFailedReadObject exampleResolvedGroup [] 0).1.ssErrors = 4 ∧
    (getGroupSamples exampleFailedReadObject exampleResolvedGroup [] 0).2 = [] := by
  decide

/-! ## setFindersRange -/

/-- The ranges written by the loop of `setFindersRange`, as long as no end index
leaves the range of `uint32_t`. -/
theorem setFindersRangeLoop_spec (fpt : Nat) :
    ∀ (n start rem : Nat), start + n * fpt + min n rem < 2 ^ 32 →
      (setFindersRangeLoop fpt n start rem).length = n ∧
      ∀ i, i < n → (setFindersRangeLoop fpt n start rem)[i]? =
        some ⟨start + i * fpt + min i rem, start + (i + 1) * fpt + min (i + 1) rem⟩
  | 0, _, _, _ => by simp [setFindersRangeLoop]
  | n + 1, start, rem, h => by
    have hmul : (n + 1) * fpt = n * fpt + fpt := Nat.succ_mul n fpt
    have hend : wrapU32 (start + fpt + (if rem > 0 then 1 else 0)) =
        start + fpt + min 1 rem := by
      unfold wrapU32
      have : (if rem > 0 then 1 else 0) = min 1 rem := by split <;> omega
      rw [this, Nat.mod_eq_of_lt]
      omega
    have hrem : (if rem > 0 then rem - 1 else rem) = rem - 1 := by split <;> omega
    unfold setFindersRangeLoop
    simp only
    rw [hend, hrem]
    obtain ⟨ih1, ih2⟩ := setFindersRangeLoop_spec fpt n (start + fpt + min 1 rem) (rem - 1)
      (by omega)
    refine ⟨by simp [ih1], ?_⟩
    intro i hi
    cases i with
    | zero => simp
    | succ k =>
      rw [List.getElem?_cons_succ, ih2 k (by omega)]
      have h1 : (k + 1) * fpt = k * fpt + fpt := Nat.succ_mul k fpt
      have h2 : (k + 1 + 1) * fpt = k * fpt + fpt + fpt := by rw [Nat.succ_mul, h1]
      simp only [Option.some.injEq, finder_range_t.mk.injEq]
      constructor <;> omega

theorem setFindersRange_numFinders (c : Constants) (features : Nat)
    (hmin : 1 ≤ c.MIN_FEATURES_PER_FINDER_THREAD) (hmin32 : c.MIN_FEATURES_PER_FINDER_THREAD < 2 ^ 32)
    (hmax : 2 ≤ c.MAX_FINDER_THREADS) (hmax32 : c.MAX_FINDER_THREADS < 2 ^ 32) :
    (features ≤ c.MIN_FEATURES_PER_FINDER_THREAD → (setFindersRange c features).1 = 1) ∧
    (c.MIN_FEATURES_PER_FINDER_THREAD < features →
      2 ≤ (setFindersRange c features).1 ∧
      (setFindersRange c features).1 ≤ c.MAX_FINDER_THREADS ∧
      (setFindersRange c features).1 ≤ features) := by
  have hw1 : wrapU32 c.MIN_FEATURES_PER_FINDER_THREAD = c.MIN_FEATURES_PER_FINDER_THREAD :=
    Nat.mod_eq_of_lt hmin32
  have hw2 : wrapU32 c.MAX_FINDER_THREADS = c.MAX_FINDER_THREADS := Nat.mod_eq_of_lt hmax32
  unfold setFindersRange
  simp only [hw1, hw2]
  constructor
  · intro h
    rw [if_pos h]
  · intro h
    rw [if_neg (Nat.not_le.mpr h)]
    simp only
    have hq : 1 ≤ features / c.MIN_FEATURES_PER_FINDER_THREAD :=
      (Nat.one_le_div_iff (by omega)).mpr (by omega)
    have hq2 : features / c.MIN_FEATURES_PER_FINDER_THREAD ≤ features := Nat.div_le_self _ _
    split <;> omega

/-- The ranges of `setFindersRange` in closed form. -/
theorem setFindersRange_closed_form (c : Constants) (features : Nat)
    (hmin : 1 ≤ c.MIN_FEATURES_PER_FINDER_THREAD) (hmin32 : c.MIN_FEATURES_PER_FINDER_THREAD < 2 ^ 32)
    (hmax : 2 ≤ c.MAX_FINDER_THREADS) (hmax32 : c.MAX_FINDER_THREADS < 2 ^ 32)
    (hfeat : features < 2 ^ 32) :
    (setFindersRange c features).2.length = (setFindersRange c features).1 ∧
    ∀ i, i < (setFindersRange c features).1 → (setFindersRange c features).2[i]? =
      some ⟨i * (features / (setFindersRange c features).1) +
              min i (features % (setFindersRange c features).1),
            (i + 1) * (features / (setFindersRange c features).1) +
              min (i + 1) (features % (setFindersRange c features).1)⟩ := by
  have hnum := setFindersRange_numFinders c features hmin hmin32 hmax hmax32
  have hw1 : wrapU32 c.MIN_FEATURES_PER_FINDER_THREAD = c.MIN_FEATURES_PER_FINDER_THREAD :=
    Nat.mod_eq_of_lt hmin32
  by_cases h : features ≤ c.MIN_FEATURES_PER_FINDER_THREAD
  · have h1 : setFindersRange c features = (1, [⟨0, features⟩]) := by
      unfold setFindersRange
      simp only [hw1]
      rw [if_pos h]
    rw [h1]
    refine ⟨rfl, ?_⟩
    intro i hi
    have : i = 0 := by omega
    subst this
    simp [Nat.mod_one]
  · have hn := hnum.2 (Nat.lt_of_not_le h)
    have h2 : (setFindersRange c features).2 =
        setFindersRangeLoop (features / (setFindersRange c features).1)
          (setFindersRange c features).1 0 (features % (setFindersRange c features).1) := by
      unfold setFindersRange
      simp only [hw1]
      rw [if_neg h]
    generalize (setFindersRange c features).1 = n at hn h2 ⊢
    rw [h2]
    have hmod : features % n < n := Nat.mod_lt _ (by omega)
    have hdm : n * (features / n) + features % n = features := Nat.div_add_mod features n
    have hspec := setFindersRangeLoop_spec (features / n) n 0 (features % n) (by omega)
    refine ⟨hspec.1, ?_⟩
    intro i hi
    rw [hspec.2 i hi]
    simp

/-- C10: for every feature count that the `uint32_t` variable `features` can hold,
with `MIN_FEATURES_PER_FINDER_THREAD >= 1` and `MAX_FINDER_THREADS >= 2` (both
within `uint32_t`), `setFindersRange` writes `n = numFinders` ranges with
`1 <= n <= MAX_FINDER_THREADS`; `n = 1` when there are at most
`MIN_FEATURES_PER_FINDER_THREAD` features and `n >= 2` otherwise; range `i`
starts at `i * (N / n) + min i (N % n)` and holds `N / n` features, one more for
`i < N % n`; the first range starts at 0, every range starts where the one
before ends, and the last range ends at `N`. -/
theorem setFindersRange_partition (c : Constants) (features : Nat)
    (hmin : 1 ≤ c.MIN_FEATURES_PER_FINDER_THREAD) (hmin32 : c.MIN_FEATURES_PER_FINDER_THREAD < 2 ^ 32)
    (hmax : 2 ≤ c.MAX_FINDER_THREADS) (hmax32 : c.MAX_FINDER_THREADS < 2 ^ 32)
    (hfeat : features < 2 ^ 32) :
    1 ≤ (setFindersRange c features).1 ∧
    (setFindersRange c features).1 ≤ c.MAX_FINDER_THREADS ∧
    (setFindersRange c features).2.length = (setFindersRange c features).1 ∧
    (features ≤ c.MIN_FEATURES_PER_FINDER_THREAD → (setFindersRange c features).1 = 1) ∧
    (c.MIN_FEATURES_PER_FINDER_THREAD < features → 2 ≤ (setFindersRange c features).1) ∧
    (∀ i, i < (setFindersRange c features).1 →
      ∃ rg, (setFindersRange c features).2[i]? = some rg ∧
        rg.start_indx = i * (features / (setFindersRange c features).1) +
          min i (features % (setFindersRange c features).1) ∧
        rg.end_indx = rg.start_indx + features / (setFindersRange c features).1 +
          (if i < features % (setFindersRange c features).1 then 1 else 0)) ∧
    (∃ rg, (setFindersRange c features).2[0]? = some rg ∧ rg.start_indx = 0) ∧
    (∀ i a b, (setFindersRange c features).2[i]? = some a →
      (setFindersRange c features).2[i + 1]? = some b → b.start_indx = a.end_indx) ∧
    (∃ rg, (setFindersRange c features).2[(setFindersRange c features).1 - 1]? = some rg ∧
      rg.end_indx = features) := by
  have hnum := setFindersRange_numFinders c features hmin hmin32 hmax hmax32
  obtain ⟨hlen, hcf⟩ := setFindersRange_closed_form c features hmin hmin32 hmax hmax32 hfeat
  have hn1 : 1 ≤ (setFindersRange c features).1 := by
    by_cases h : features ≤ c.MIN_FEATURES_PER_FINDER_THREAD
    · rw [hnum.1 h]
    · have := (hnum.2 (Nat.lt_of_not_le h)).1
      omega
  have hn2 : (setFindersRange c features).1 ≤ c.MAX_FINDER_THREADS := by
    by_cases h : features ≤ c.MIN_FEATURES_PER_FINDER_THREAD
    · rw [hnum.1 h]; omega
    · exact (hnum.2 (Nat.lt_of_not_le h)).2.1
  generalize (setFindersRange c features).1 = n at *
  generalize (setFindersRange c features).2 = ranges at *
  have hmod : features % n < n := Nat.mod_lt _ (by omega)
  have hdm : n * (features / n) + features % n = features := Nat.div_add_mod features n
  refine ⟨hn1, hn2, hlen, hnum.1, fun h => (hnum.2 h).1, ?_, ?_, ?_, ?_⟩
  · intro i hi
    refine ⟨_, hcf i hi, rfl, ?_⟩
    have h1 : (i + 1) * (features / n) = i * (features / n) + features / n := Nat.succ_mul _ _
    simp only
    split <;> omega
  · exact ⟨_, hcf 0 (by omega), by simp⟩
  · intro i a b ha hb
    have hi1 : i + 1 < n := by
      by_contra hc
      rw [List.getElem?_eq_none (by omega)] at hb
      simp at hb
    rw [hcf i (by omega)] at ha
    rw [hcf (i + 1) hi1] at hb
    simp only [Option.some.injEq] at ha hb
    subst ha
    subst hb
    rfl
  · refine ⟨_, hcf (n - 1) (by omega), ?_⟩
    have h1 : n - 1 + 1 = n := by omega
    simp only [h1]
    rw [Nat.min_eq_right (Nat.le_of_lt hmod)]
    exact hdm

/-- C10, witness: 10007 features with at most 8 finders and at least 1000
features per finder give 8 ranges, the first 7 with 1251 features, the last with
1250. -/
theorem setFindersRange_partition_witness :
    setFindersRange exampleConstants 10007 =
      (8, [⟨0, 1251⟩, ⟨1251, 2502⟩, ⟨2502, 3753⟩, ⟨3753, 5004⟩, ⟨5004, 6255⟩, ⟨6255, 7506⟩,
        ⟨7506, 8757⟩, ⟨8757, 10007⟩]) ∧
    (∃ rg, (setFindersRange exampleConstants 10007).2[
        (setFindersRange exampleConstants 10007).1 - 1]? = some rg ∧ rg.end_indx = 10007) :=
  ⟨by decide,
   (setFindersRange_partition exampleConstants 10007 (by decide) (by decide) (by decide)
    (by decide) (by decide)).2.2.2.2.2.2.2.2⟩

/-! ## Single-point sampling: harvest of one group -/

theorem lookup_modifyEntry {T : Type} (key : String) (f : T → T) (k : String) :
    ∀ (l : List (String × T)),
      (modifyEntry key f l).lookup k =
        if k = key then (l.lookup k).map f else l.lookup k
  | [] => by simp [modifyEntry]
  | e :: es => by
    obtain ⟨ek, ev⟩ := e
    unfold modifyEntry
    by_cases h1 : ek = key
    · subst h1
      by_cases h2 : k = ek
      · subst h2
        simp [List.lookup]
      · have hb : (k == ek) = false := by simpa using h2
        simp [List.lookup, hb, h2]
    · have hb1 : (ek == key) = false := by simpa using h1
      simp only [hb1, Bool.false_eq_true, if_false]
      by_cases h2 : k = ek
      · subst h2
        simp [List.lookup, h1]
      · have hb : (k == ek) = false := by simpa using h2
        simp only [List.lookup, hb]
        exact lookup_modifyEntry key f k es

theorem Dictionary.find_modify {T : Type} (d : Dictionary T) (key : String) (f : T → T)
    (k : String) :
    (d.modify key f).find k = if k = key then (d.find k).map f else d.find k :=
  lookup_modifyEntry key f k d.entries

/-- The flags of a group whose FLAGS descriptors all name the file `fileName`,
found in the cache with sample `F`. -/
theorem getGroupFlagsLoop_eq (cache : Dictionary cacheitem_t) (fileName : String)
    (itemF : cacheitem_t) (F : RasterSample) (hcf : cache.find fileName = some itemF)
    (hsf : itemF.sample = some F) :
    ∀ (infovect : List raster_info_t),
      (∃ f ∈ infovect, f.tag = FLAGS_TAG) →
      (∀ r ∈ infovect, r.tag = FLAGS_TAG → r.fileName = fileName) →
      getGroupFlagsLoop cache infovect = doubleToU32 F.value
  | [], h, _ => by simp at h
  | rinfo :: rest, h, hu => by
    unfold getGroupFlagsLoop
    by_cases htag : rinfo.tag ≠ FLAGS_TAG
    · rw [if_pos htag]
      apply getGroupFlagsLoop_eq cache fileName itemF F hcf hsf rest
      · obtain ⟨f, hf, hft⟩ := h
        rw [List.mem_cons] at hf
        rcases hf with hf | hf
        · subst hf; exact absurd hft htag
        · exact ⟨f, hf, hft⟩
      · exact fun r hr => hu r (List.mem_cons_of_mem _ hr)
    · rw [if_neg htag]
      have hname := hu rinfo (List.mem_cons_self _ _) (not_not.mp htag)
      rw [hname, hcf]
      simp only [hsf]

/-- The harvest of a group whose VALUE descriptors all name the file `fileName`,
found in the cache with sample `S`. -/
theorem getGroupSamplesLoop_eq (flags : Nat) (obj : GeoIndexedRaster) (slist : List RasterSample)
    (fileName : String) (itemV : cacheitem_t) (S : RasterSample)
    (hcv : obj.cache.find fileName = some itemV) (hsv : itemV.sample = some S) :
    ∀ (infovect : List raster_info_t),
      (∃ v ∈ infovect, v.tag = VALUE_TAG) →
      (∀ r ∈ infovect, r.tag = VALUE_TAG → r.fileName = fileName) →
      getGroupSamplesLoop flags obj slist infovect =
        ({ obj with
            cache := (obj.cache.modify fileName (fun it => { it with sample := none })).modify
              fileName (fun it => { it with raster := it.raster.getSSerror.2 })
            ssErrors := obj.ssErrors ||| itemV.raster.getSSerror.1 },
          slist ++ [{ S with flags := flags }])
  | [], h, _ => by simp at h
  | rinfo :: rest, h, hu => by
    unfold getGroupSamplesLoop
    by_cases htag : rinfo.tag ≠ VALUE_TAG
    · rw [if_pos htag]
      apply getGroupSamplesLoop_eq flags obj slist fileName itemV S hcv hsv rest
      · obtain ⟨f, hf, hft⟩ := h
        rw [List.mem_cons] at hf
        rcases hf with hf | hf
        · subst hf; exact absurd hft htag
        · exact ⟨f, hf, hft⟩
      · exact fun r hr => hu r (List.mem_cons_of_mem _ hr)
    · rw [if_neg htag]
      have hname := hu rinfo (List.mem_cons_self _ _) (not_not.mp htag)
      simp only [hname, hcv, hsv]

/-- C7: for a group whose VALUE descriptor and FLAGS descriptor are both in the
cache with samples `S` and `F`, and with `flags_file` set, the step of the
single-point `getSamples` for the group appends `S` with its flags set to
`F.value` converted to `uint32_t`, and afterwards the sample slot of the VALUE
entry is null; the error word of the VALUE handle is put into `ssErrors`. -/
theorem getSamplesGroup_value_with_flags (parms : GeoParms) (obj : GeoIndexedRaster)
    (slist : List RasterSample) (rgroup : rasters_group_t) (v f : raster_info_t)
    (itemV itemF : cacheitem_t) (S F : RasterSample)
    (hflags : parms.flags_file = true)
    (hv : v ∈ rgroup.infovect) (hvt : v.tag = VALUE_TAG)
    (hvu : ∀ r ∈ rgroup.infovect, r.tag = VALUE_TAG → r.fileName = v.fileName)
    (hf : f ∈ rgroup.infovect) (hft : f.tag = FLAGS_TAG)
    (hfu : ∀ r ∈ rgroup.infovect, r.tag = FLAGS_TAG → r.fileName = f.fileName)
    (hcv : obj.cache.find v.fileName = some itemV) (hsv : itemV.sample = some S)
    (hcf : obj.cache.find f.fileName = some itemF) (hsf : itemF.sample = some F) :
    (getSamplesGroup parms (obj, slist) rgroup).2 =
      slist ++ [{ S with flags := doubleToU32 F.value }] ∧
    (∃ item, (getSamplesGroup parms (obj, slist) rgroup).1.cache.find v.fileName = some item ∧
      item.sample = none) ∧
    (getSamplesGroup parms (obj, slist) rgroup).1.ssErrors =
      obj.ssErrors ||| itemV.raster.ssError := by
  unfold getSamplesGroup getGroupFlags getGroupSamples
  simp only [hflags, if_true]
  rw [getGroupFlagsLoop_eq obj.cache f.fileName itemF F hcf hsf rgroup.infovect ⟨f, hf, hft⟩ hfu,
    getGroupSamplesLoop_eq _ obj slist v.fileName itemV S hcv hsv rgroup.infovect ⟨v, hv, hvt⟩ hvu]
  refine ⟨rfl, ?_, rfl⟩
  simp only [Dictionary.find_modify, if_true, hcv, Option.map_some']
  exact ⟨_, rfl, rfl⟩

/-- C7, witness: one group `{VALUE = /t/dem.tif, FLAGS = /t/dem_bitmask.tif}`, the
value raster returns 123, the flags raster returns 7: the request returns the
sample with value 123 and flags 7. -/
theorem getSamplesGroup_value_with_flags_witness :
    (getSamples exampleConstants exampleTimeLib exampleParms exampleFlagsEnvironment 0 []
      exampleEmptyObject).2.1 = [⟨123, 1, 0, 7, 0⟩] ∧
    (getSamplesGroup exampleParms (exampleSampledObject, []) exampleFlagsGroup).2 =
      [] ++ [{ (⟨123, 1, 0, 0, 0⟩ : RasterSample) with
        flags := doubleToU32 (⟨7, 1, 0, 0, 0⟩ : RasterSample).value }] :=
  ⟨by decide,
   (getSamplesGroup_value_with_flags exampleParms exampleSampledObject [] exampleFlagsGroup
    ⟨true, VALUE_TAG, "/t/dem.tif", none⟩ ⟨false, FLAGS_TAG, "/t/dem_bitmask.tif", none⟩
    ⟨false, ⟨"/t/dem.tif", 1, 0, true, 0⟩, some ⟨123, 1, 0, 0, 0⟩, none⟩
    ⟨false, ⟨"/t/dem_bitmask.tif", 1, 0, false, 0⟩, some ⟨7, 1, 0, 0, 0⟩, none⟩
    ⟨123, 1, 0, 0, 0⟩ ⟨7, 1, 0, 0, 0⟩
    (by decide) (by decide) (by decide) (by decide) (by decide) (by decide) (by decide)
    (by decide) (by decide) (by decide) (by decide)).1⟩

/-! ## Single-point sampling: order of the output -/

theorem CacheLe.refl (cache : Dictionary cacheitem_t) : CacheLe cache cache :=
  fun _ item' h => ⟨item', h, Or.inr rfl⟩

theorem CacheLe.trans {a b d : Dictionary cacheitem_t} (h1 : CacheLe a b) (h2 : CacheLe b d) :
    CacheLe a d := by
  intro key item' h
  obtain ⟨itemb, hb, hsb⟩ := h2 key item' h
  obtain ⟨itema, ha, hsa⟩ := h1 key itemb hb
  refine ⟨itema, ha, ?_⟩
  rcases hsb with hsb | hsb
  · exact Or.inl hsb
  · rw [hsb]; exact hsa

theorem CacheLe.modify (cache : Dictionary cacheitem_t) (key : String)
    (f : cacheitem_t → cacheitem_t)
    (hf : ∀ it, (f it).sample = none ∨ (f it).sample = it.sample) :
    CacheLe cache (cache.modify key f) := by
  intro k item' h
  rw [Dictionary.find_modify] at h
  split at h
  · rcases hk : cache.find k with _ | item
    · rw [hk] at h; simp at h
    · rw [hk] at h
      simp only [Option.map_some', Option.some.injEq] at h
      subst h
      exact ⟨item, rfl, hf item⟩
  · exact ⟨item', h, Or.inr rfl⟩

/-- The harvest of one group appends nothing or the sample held in the cache for
a VALUE descriptor of the group, and only empties sample slots. -/
theorem getGroupSamplesLoop_step (flags : Nat) (obj : GeoIndexedRaster)
    (slist : List RasterSample) :
    ∀ (infovect : List raster_info_t),
      CacheLe obj.cache (getGroupSamplesLoop flags obj slist infovect).1.cache ∧
      ((getGroupSamplesLoop flags obj slist infovect).2 = slist ∨
        ∃ ri ∈ infovect, ri.tag = VALUE_TAG ∧ ∃ (item : cacheitem_t) (s : RasterSample),
          obj.cache.find ri.fileName = some item ∧ item.sample = some s ∧
          (getGroupSamplesLoop flags obj slist infovect).2 = slist ++ [{ s with flags := flags }])
  | [] => ⟨CacheLe.refl _, Or.inl rfl⟩
  | rinfo :: rest => by
    have ih := getGroupSamplesLoop_step flags obj slist rest
    unfold getGroupSamplesLoop
    by_cases htag : rinfo.tag ≠ VALUE_TAG
    · rw [if_pos htag]
      refine ⟨ih.1, ?_⟩
      rcases ih.2 with h | ⟨ri, hri, h⟩
      · exact Or.inl h
      · exact Or.inr ⟨ri, List.mem_cons_of_mem _ hri, h⟩
    · rw [if_neg htag]
      rcases hc : obj.cache.find rinfo.fileName with _ | item
      · simp only [hc]
        refine ⟨ih.1, ?_⟩
        rcases ih.2 with h | ⟨ri, hri, h⟩
        · exact Or.inl h
        · exact Or.inr ⟨ri, List.mem_cons_of_mem _ hri, h⟩
      · rcases hs : item.sample with _ | s
        · simp only [hc, hs]
          exact ⟨CacheLe.modify _ _ _ (fun it => Or.inr rfl), Or.inl trivial⟩
        · simp only [hc, hs]
          refine ⟨(CacheLe.modify _ _ _ (fun it => Or.inl rfl)).trans
            (CacheLe.modify _ _ _ (fun it => Or.inr rfl)), Or.inr ?_⟩
          exact ⟨rinfo, List.mem_cons_self _ _, not_not.mp htag, item, s, hc, hs, rfl⟩

/-- The step of the single-point `getSamples` for one group, relative to the
cache `cache0` at the start of the harvest. -/
theorem getSamplesGroup_step (parms : GeoParms) (cache0 : Dictionary cacheitem_t)
    (acc : GeoIndexedRaster × List RasterSample) (rgroup : rasters_group_t)
    (h0 : CacheLe cache0 acc.1.cache) :
    CacheLe cache0 (getSamplesGroup parms acc rgroup).1.cache ∧
    ∃ out, (getSamplesGroup parms acc rgroup).2 = acc.2 ++ out ∧
      (out = [] ∨ ∃ e, out = [e] ∧ IsValueSampleOf cache0 rgroup e) := by
  unfold getSamplesGroup getGroupSamples
  simp only
  obtain ⟨h1, h2⟩ := getGroupSamplesLoop_step
    (if parms.flags_file = true then getGroupFlags acc.1 rgroup else 0) acc.1 acc.2
    rgroup.infovect
  refine ⟨h0.trans h1, ?_⟩
  rcases h2 with h2 | ⟨ri, hri, htag, item, s, hc, hs, h2⟩
  · exact ⟨[], by rw [h2]; simp, Or.inl rfl⟩
  · refine ⟨[{ s with flags := if parms.flags_file = true then getGroupFlags acc.1 rgroup else 0 }],
      h2, Or.inr ⟨_, rfl, ri, hri, htag, ?_⟩⟩
    obtain ⟨item0, hc0, hs0⟩ := h0 _ _ hc
    rw [hs] at hs0
    rcases hs0 with hs0 | hs0
    · simp at hs0
    · exact ⟨item0, s, _, hc0, hs0.symm, rfl⟩

/-- The harvest loop appends, group by group in iteration order, nothing or one
sample of a VALUE raster of the group. -/
theorem foldl_getSamplesGroup (parms : GeoParms) (cache0 : Dictionary cacheitem_t) :
    ∀ (groups : List rasters_group_t) (acc : GeoIndexedRaster × List RasterSample),
      CacheLe cache0 acc.1.cache →
      ∃ outs : List (List RasterSample),
        (groups.foldl (getSamplesGroup parms) acc).2 = acc.2 ++ outs.flatten ∧
        List.Forall₂ (fun g out => out = [] ∨ ∃ e, out = [e] ∧ IsValueSampleOf cache0 g e)
          groups outs
  | [], acc, _ => ⟨[], by simp, List.Forall₂.nil⟩
  | g :: rest, acc, h0 => by
    obtain ⟨h1, out, h2, h3⟩ := getSamplesGroup_step parms cache0 acc g h0
    obtain ⟨outs, i1, i2⟩ := foldl_getSamplesGroup parms cache0 rest
      (getSamplesGroup parms acc g) h1
    refine ⟨out :: outs, ?_, List.Forall₂.cons h3 i2⟩
    rw [List.foldl_cons, i1, h2]
    simp

/-- The samples of a harvest, with the position of the group of each: the
positions increase strictly. -/
theorem emitted_positions (cache0 : Dictionary cacheitem_t) :
    ∀ (groups : List rasters_group_t) (outs : List (List RasterSample)),
      List.Forall₂ (fun g out => out = [] ∨ ∃ e, out = [e] ∧ IsValueSampleOf cache0 g e)
        groups outs →
      ∃ idx : List Nat, idx.Pairwise (fun a b => a < b) ∧
        List.Forall₂ (fun j e => ∃ g, groups[j]? = some g ∧ IsValueSampleOf cache0 g e)
          idx outs.flatten
  | [], _, h => by
    cases h
    exact ⟨[], List.Pairwise.nil, by simp⟩
  | g :: rest, _, h => by
    cases h with
    | cons hhead htail =>
      rename_i out outs
      obtain ⟨idx, hp, hf⟩ := emitted_positions cache0 rest outs htail
      have hshift : List.Forall₂
          (fun j e => ∃ g', (g :: rest)[j]? = some g' ∧ IsValueSampleOf cache0 g' e)
          (idx.map (fun j => j + 1)) outs.flatten := by
        rw [List.forall₂_map_left_iff]
        exact hf.imp (fun _ _ h => by simp only [List.getElem?_cons_succ]; exact h)
      have hp2 : (idx.map (fun j => j + 1)).Pairwise (fun a b => a < b) := by
        rw [List.pairwise_map]
        exact hp.imp (fun h => by omega)
      rcases hhead with hh | ⟨e, hh, he⟩
      · subst hh
        exact ⟨idx.map (fun j => j + 1), hp2, by simpa using hshift⟩
      · subst hh
        refine ⟨0 :: idx.map (fun j => j + 1), ?_, ?_⟩
        · rw [List.pairwise_cons]
          refine ⟨?_, hp2⟩
          intro a ha
          rw [List.mem_map] at ha
          obtain ⟨j, _, rfl⟩ := ha
          omega
        · simp only [List.flatten_cons, List.singleton_append]
          exact List.Forall₂.cons ⟨g, by simp, he⟩ hshift

/-- C8: the output list of the single-point `getSamples` is the given list
followed by the emitted samples; every emitted sample is (up to its flags) the
sample that the cache held, when the readers had finished, for a VALUE
descriptor of one of the surviving groups, and the positions of these groups in
iteration order increase strictly from each emitted sample to the next, so that
the output follows the iteration order and no group contributes two samples. -/
theorem getSamples_group_order (c : Constants) (tl : TimeLib) (parms : GeoParms)
    (env : Environment) (gps : Int) (slist : List RasterSample) (obj : GeoIndexedRaster) :
    ∃ (idx : List Nat) (emitted : List RasterSample),
      (getSamples c tl parms env gps slist obj).2.1 = slist ++ emitted ∧
      idx.Pairwise (fun a b => a < b) ∧
      List.Forall₂
        (fun j e => ∃ g,
          ((sample c tl parms env gps Ordering.new
              { obj with ssErrors := SS_NO_ERRORS }).2.1.nodes.map (fun kv => kv.data))[j]? =
            some g ∧
          IsValueSampleOf
            (sample c tl parms env gps Ordering.new
              { obj with ssErrors := SS_NO_ERRORS }).2.2.cache g e)
        idx emitted := by
  unfold getSamples
  simp only
  rcases hs : sample c tl parms env gps Ordering.new { obj with ssErrors := SS_NO_ERRORS } with
    ⟨ok, groupList, obj1⟩
  cases ok with
  | false =>
    exact ⟨[], [], by simp, List.Pairwise.nil, List.Forall₂.nil⟩
  | true =>
    obtain ⟨outs, h1, h2⟩ := foldl_getSamplesGroup parms obj1.cache
      ((groupList.Iterator).map (fun kv => kv.data)) (obj1, slist) (CacheLe.refl _)
    obtain ⟨idx, h3, h4⟩ := emitted_positions obj1.cache _ outs h2
    exact ⟨idx, outs.flatten, h1, h3, h4⟩

/-! ## filterRasters: URL-substring stage -/

/-- Every file name contains the empty substring. -/
theorem strContains_empty (fileName : String) : strContains fileName "" = true := by
  unfold strContains
  simp

/-- With the day-of-year filter off, `removeGroup` is set exactly when some
descriptor of the group has a file name without the substring. -/
theorem removeGroupLoop_url (tl : TimeLib) (parms : GeoParms) (rgroup : rasters_group_t)
    (s : String) (hurl : parms.url_substring = some s) (hdoy : parms.filter_doy_range = false) :
    ∀ infovect : List raster_info_t,
      removeGroupLoop tl parms rgroup infovect =
        !infovect.all (fun ri => strContains ri.fileName s)
  | [] => rfl
  | ri :: rest => by
    unfold removeGroupLoop
    rw [hurl, hdoy, removeGroupLoop_url tl parms rgroup s hurl hdoy rest]
    cases h : strContains ri.fileName s <;> simp [h]

/-- C12: with URL substring `s` configured (and the day-of-year filter off), the
groups left by the first stage of `filterRasters` are, in their order, exactly the
groups all of whose descriptors have a file name containing `s`; so a group with
at least one descriptor survives iff every descriptor path contains `s`, and with
the empty substring no group is removed. -/
theorem filterUrlDoy_url_substring (tl : TimeLib) (parms : GeoParms) (groupList : GroupOrdering)
    (s : String) (hs : KeysAscending groupList.nodes)
    (hurl : parms.url_substring = some s) (hdoy : parms.filter_doy_range = false) :
    (filterUrlDoy tl parms groupList).nodes =
        groupList.nodes.filter
          (fun n => n.data.infovect.all (fun ri => strContains ri.fileName s)) ∧
      (∀ n, n ∈ (filterUrlDoy tl parms groupList).nodes ↔
        n ∈ groupList.nodes ∧ ∀ ri ∈ n.data.infovect, strContains ri.fileName s = true) ∧
      (s = "" → (filterUrlDoy tl parms groupList).nodes = groupList.nodes) := by
  have h1 : (filterUrlDoy tl parms groupList).nodes =
      groupList.nodes.filter
        (fun n => n.data.infovect.all (fun ri => strContains ri.fileName s)) := by
    rw [filterUrlDoy_nodes tl parms groupList hs]
    apply List.filter_congr
    intro n _
    rw [removeGroupLoop_url tl parms n.data s hurl hdoy, hurl]
    simp
  refine ⟨h1, ?_, ?_⟩
  · intro n
    rw [h1, List.mem_filter, List.all_eq_true]
  · intro he
    rw [h1, List.filter_eq_self]
    intro n _
    rw [List.all_eq_true]
    intro ri _
    rw [he]
    exact strContains_empty ri.fileName

/-- C12, witness: of the groups `a.tif`, `b.tif`, `c.tif` the substring `b.t` keeps
the second one only. -/
theorem filterUrlDoy_url_substring_witness :
    (filterUrlDoy exampleTimeLib { exampleParms with url_substring := some "b.t" }
        exampleGroupList).nodes.map (fun n => n.data.infovect.map (fun ri => ri.fileName)) =
      [["b.tif"]] ∧
    (filterUrlDoy exampleTimeLib { exampleParms with url_substring := some "b.t" }
        exampleGroupList).nodes =
      exampleGroupList.nodes.filter
        (fun n => n.data.infovect.all (fun ri => strContains ri.fileName "b.t")) :=
  ⟨by decide,
   (filterUrlDoy_url_substring exampleTimeLib { exampleParms with url_substring := some "b.t" }
      exampleGroupList "b.t" (by unfold KeysAscending; decide) rfl rfl).1⟩

/-! ## openGeoIndex -/

/-- C11 (amended): when `openGeoIndex` tries to open the index file (no feature is
loaded, or the file differs from the loaded one), it returns false, sets
`SS_INDEX_FILE_ERROR` and leaves the feature list empty if the file cannot be
opened or has no layer; otherwise it returns true and leaves the error word as it
was, with the feature list holding the features of the layer that pass the
temporal filter (none for a layer without features) and with the index polygon
left empty when the extent cannot be computed. -/
theorem openGeoIndex_failure_cases {Geo : Type} (c : Constants) (env : IndexEnvironment Geo)
    (parms : GeoParms) (geo : Geo) (idx : GeoIndex)
    (hnew : idx.featuresList = [] ∨ env.getIndexFile geo ≠ idx.indexFile) :
    ((env.GDALOpenEx (env.getIndexFile geo) = none ∨
        ∃ dset, env.GDALOpenEx (env.getIndexFile geo) = some dset ∧ dset.layer0 = none) →
      (openGeoIndex c env parms geo idx).1 = false ∧
      (openGeoIndex c env parms geo idx).2.ssErrors = idx.ssErrors ||| c.SS_INDEX_FILE_ERROR ∧
      (openGeoIndex c env parms geo idx).2.featuresList = []) ∧
    (∀ dset layer, env.GDALOpenEx (env.getIndexFile geo) = some dset →
      dset.layer0 = some layer →
      (openGeoIndex c env parms geo idx).1 = true ∧
      (openGeoIndex c env parms geo idx).2.ssErrors = idx.ssErrors ∧
      (openGeoIndex c env parms geo idx).2.featuresList =
        layer.features.filter (keepFeature env parms) ∧
      (openGeoIndex c env parms geo idx).2.geoIndexPoly = layer.extent) := by
  have hcond : (!idx.featuresList.isEmpty && env.getIndexFile geo == idx.indexFile) = false := by
    rcases hnew with h | h
    · simp [h]
    · simp [h]
  constructor
  · rintro (h | ⟨dset, h, hl⟩)
    · simp [openGeoIndex, hcond, h, openGeoIndexCatch]
    · simp [openGeoIndex, hcond, h, hl, openGeoIndexCatch]
  · intro dset layer h hl
    rcases he : layer.extent with _ | e
    · simp [openGeoIndex, hcond, h, hl, he]
    · simp [openGeoIndex, hcond, h, hl, he]

/-- C11, witness: a file that cannot be opened gives false, the error bit and an
empty feature list. -/
theorem openGeoIndex_failure_cases_witness :
    (openGeoIndex exampleConstants exampleIndexEnvironment exampleParms "missing.geojson"
        exampleIndex).1 = false ∧
    (openGeoIndex exampleConstants exampleIndexEnvironment exampleParms "missing.geojson"
        exampleIndex).2.ssErrors = 0 ||| 64 ∧
    (openGeoIndex exampleConstants exampleIndexEnvironment exampleParms "missing.geojson"
        exampleIndex).2.featuresList = [] :=
  (openGeoIndex_failure_cases exampleConstants exampleIndexEnvironment exampleParms
    "missing.geojson" exampleIndex (Or.inl rfl)).1 (Or.inl (by decide))

/-- C11, counterexample: for a layer without features, and for a layer whose
extent cannot be computed, `openGeoIndex` returns true and sets no error bit; in
the second case the feature list is not empty. -/
theorem openGeoIndex_counterexample :
    (openGeoIndex exampleConstants exampleIndexEnvironment exampleParms "empty.geojson"
        exampleIndex).1 = true ∧
    (openGeoIndex exampleConstants exampleIndexEnvironment exampleParms "empty.geojson"
        exampleIndex).2.ssErrors = 0 ∧
    (openGeoIndex exampleConstants exampleIndexEnvironment exampleParms "noextent.geojson"
        exampleIndex).1 = true ∧
    (openGeoIndex exampleConstants exampleIndexEnvironment exampleParms "noextent.geojson"
        exampleIndex).2.ssErrors = 0 ∧
    (openGeoIndex exampleConstants exampleIndexEnvironment exampleParms "noextent.geojson"
        exampleIndex).2.featuresList = [⟨7, none⟩] := by
  decide

/-! ## Refraction corrector: geometry over the real numbers -/

/-- The geometry of the refraction block in exact arithmetic: for
`0 < n1 < n2`, positive depth and an incidence angle with positive cosine, the
divisor `p` is positive, and `p sin(beta)`, `p cos(beta)` are the differences of the
vertical and horizontal extents of the unrefracted and the refracted ray. -/
theorem refraction_geometry (n1 n2 depth θ1 : ℝ) (hn1 : 0 < n1) (hn : n1 < n2)
    (hd : 0 < depth) (hc : 0 < Real.cos θ1) :
    let θ2 := Real.arcsin (n1 * Real.sin θ1 / n2)
    let φ := θ1 - θ2
    let s := depth / Real.cos θ1
    let r := s * n1 / n2
    let p := Real.sqrt (r * r + s * s - 2 * r * s * Real.cos (θ1 - θ2))
    let γ := Real.pi / 2 - θ1
    let α := Real.arcsin (r * Real.sin φ / p)
    let β := γ - α
    0 < p ∧ p * Real.sin β = depth - r * Real.cos θ2 ∧
      p * Real.cos β = s * Real.sin θ1 - r * Real.sin θ2 := by
  intro θ2 φ s r p γ α β
  have hn2 : 0 < n2 := lt_trans hn1 hn
  have hs : 0 < s := div_pos hd hc
  have hr0 : 0 < r := div_pos (mul_pos hs hn1) hn2
  have hrs : r < s := by
    show s * n1 / n2 < s
    rw [div_lt_iff₀ hn2]
    exact mul_lt_mul_of_pos_left hn hs
  have hsd : s * Real.cos θ1 = depth := div_mul_cancel₀ depth (ne_of_gt hc)
  have hφ : θ1 - θ2 = φ := rfl
  have hθ2 : θ2 = θ1 - φ := by
    show θ2 = θ1 - (θ1 - θ2)
    ring
  have hsc := Real.sin_sq_add_cos_sq φ
  have hcφ : Real.cos φ ≤ 1 := Real.cos_le_one φ
  have hApos : 0 < s - r * Real.cos φ := by nlinarith
  have hP : r * r + s * s - 2 * r * s * Real.cos (θ1 - θ2) =
      (s - r * Real.cos φ) ^ 2 + (r * Real.sin φ) ^ 2 := by
    rw [hφ]
    have : Real.sin φ ^ 2 = 1 - Real.cos φ ^ 2 := by linarith
    rw [mul_pow, this]
    ring
  have hPpos : 0 < (s - r * Real.cos φ) ^ 2 + (r * Real.sin φ) ^ 2 := by positivity
  have hp : p = Real.sqrt ((s - r * Real.cos φ) ^ 2 + (r * Real.sin φ) ^ 2) := by
    show Real.sqrt _ = _
    rw [hP]
  have hppos : 0 < p := by
    rw [hp]
    exact Real.sqrt_pos.mpr hPpos
  have hp2 : p ^ 2 = (s - r * Real.cos φ) ^ 2 + (r * Real.sin φ) ^ 2 := by
    rw [hp]
    exact Real.sq_sqrt hPpos.le
  have hq2 : (r * Real.sin φ / p) ^ 2 ≤ 1 := by
    rw [div_pow, div_le_one (by positivity), hp2]
    nlinarith [sq_nonneg (s - r * Real.cos φ)]
  have hqr : -1 ≤ r * Real.sin φ / p ∧ r * Real.sin φ / p ≤ 1 := by
    constructor <;> nlinarith
  have hsinα : Real.sin α = r * Real.sin φ / p := Real.sin_arcsin hqr.1 hqr.2
  have hcosα : Real.cos α = (s - r * Real.cos φ) / p := by
    show Real.cos (Real.arcsin (r * Real.sin φ / p)) = _
    rw [Real.cos_arcsin]
    have h1 : 1 - (r * Real.sin φ / p) ^ 2 = ((s - r * Real.cos φ) / p) ^ 2 := by
      rw [div_pow, div_pow, hp2]
      field_simp
    rw [h1, Real.sqrt_sq (by positivity)]
  have hsinγ : Real.sin γ = Real.cos θ1 := Real.sin_pi_div_two_sub θ1
  have hcosγ : Real.cos γ = Real.sin θ1 := Real.cos_pi_div_two_sub θ1
  have hcos2 : Real.cos θ2 = Real.cos θ1 * Real.cos φ + Real.sin θ1 * Real.sin φ := by
    rw [hθ2, Real.cos_sub]
  have hsin2 : Real.sin θ2 = Real.sin θ1 * Real.cos φ - Real.cos θ1 * Real.sin φ := by
    rw [hθ2, Real.sin_sub]
  have hpne : p ≠ 0 := ne_of_gt hppos
  refine ⟨hppos, ?_, ?_⟩
  · show p * Real.sin (γ - α) = _
    rw [Real.sin_sub, hsinγ, hcosγ, hsinα, hcosα, hcos2, ← hsd]
    field_simp
    ring
  · show p * Real.cos (γ - α) = _
    rw [Real.cos_sub, hsinγ, hcosγ, hsinα, hcosα, hsin2]
    field_simp
    ring

/-- The refraction block over the real numbers, for `0 < n1 < n2`, positive depth
and an elevation strictly between 0 and pi. -/
theorem photon_refraction_real (n1 n2 depth ref_el ref_az : ℝ) (hn1 : 0 < n1) (hn : n1 < n2)
    (hd : 0 < depth) (h0 : 0 < ref_el) (h1 : ref_el < Real.pi) :
    0 < (photon_refraction realOps n1 n2 depth ref_el ref_az).p ∧
    (photon_refraction realOps n1 n2 depth ref_el ref_az).dZ =
      depth - (photon_refraction realOps n1 n2 depth ref_el ref_az).r *
        Real.cos (photon_refraction realOps n1 n2 depth ref_el ref_az).theta_2 ∧
    (photon_refraction realOps n1 n2 depth ref_el ref_az).dY =
      (photon_refraction realOps n1 n2 depth ref_el ref_az).s *
          Real.sin (photon_refraction realOps n1 n2 depth ref_el ref_az).theta_1 -
        (photon_refraction realOps n1 n2 depth ref_el ref_az).r *
          Real.sin (photon_refraction realOps n1 n2 depth ref_el ref_az).theta_2 := by
  have hc : 0 < Real.cos (Real.pi / 2 - ref_el) := by
    rw [Real.cos_pi_div_two_sub]
    exact Real.sin_pos_of_pos_of_lt_pi h0 h1
  have h := refraction_geometry n1 n2 depth (Real.pi / 2 - ref_el) hn1 hn hd hc
  simp only [photon_refraction, realOps, Rat.cast_ofNat]
  exact h

/-- Bounds on the square root of two. -/
theorem sqrt_two_bounds : (1.4142 : ℝ) < Real.sqrt 2 ∧ Real.sqrt 2 < 1.4143 := by
  constructor
  · rw [Real.lt_sqrt (by norm_num)]
    norm_num
  · rw [Real.sqrt_lt' (by norm_num)]
    norm_num

/-- The constants of the refraction block for `n1 = 1.00029`, `n2 = 1.34116`,
depth 10 and elevation pi/4, over the real numbers. -/
theorem refraction_example (ref_az : ℝ) :
    (photon_refraction realOps 1.00029 1.34116 10 (Real.pi / 4) ref_az).theta_1 = Real.pi / 4 ∧
    (photon_refraction realOps 1.00029 1.34116 10 (Real.pi / 4) ref_az).theta_2 =
      Real.arcsin (1.00029 * Real.sin (Real.pi / 4) / 1.34116) ∧
    (1.0383 : ℝ) < (photon_refraction realOps 1.00029 1.34116 10 (Real.pi / 4) ref_az).dZ ∧
    (photon_refraction realOps 1.00029 1.34116 10 (Real.pi / 4) ref_az).dZ < 1.0384 ∧
    (photon_refraction realOps 1.00029 1.34116 10 (Real.pi / 4) ref_az).dY =
      10 * (1 - (1.00029 / 1.34116) ^ 2) := by
  have hpi : 0 < Real.pi := Real.pi_pos
  have h := photon_refraction_real 1.00029 1.34116 10 (Real.pi / 4) ref_az (by norm_num)
    (by norm_num) (by norm_num) (by positivity) (by linarith)
  obtain ⟨_, hZ, hY⟩ := h
  have e : Real.pi / 2 - Real.pi / 4 = Real.pi / 4 := by ring
  have ht1 : (photon_refraction realOps 1.00029 1.34116 10 (Real.pi / 4) ref_az).theta_1 =
      Real.pi / 4 := by
    simp only [photon_refraction, realOps, Rat.cast_ofNat]
    exact e
  have ht2 : (photon_refraction realOps 1.00029 1.34116 10 (Real.pi / 4) ref_az).theta_2 =
      Real.arcsin (1.00029 * Real.sin (Real.pi / 4) / 1.34116) := by
    simp only [photon_refraction, realOps, Rat.cast_ofNat, e]
  have hs : (photon_refraction realOps 1.00029 1.34116 10 (Real.pi / 4) ref_az).s =
      10 / Real.cos (Real.pi / 4) := by
    simp only [photon_refraction, realOps, Rat.cast_ofNat, e]
  have hr : (photon_refraction realOps 1.00029 1.34116 10 (Real.pi / 4) ref_az).r =
      10 / Real.cos (Real.pi / 4) * 1.00029 / 1.34116 := by
    simp only [photon_refraction, realOps, Rat.cast_ofNat, e]
  rw [ht1, ht2, hs, hr] at hY
  rw [ht2, hr] at hZ
  rw [Real.sin_pi_div_four, Real.cos_pi_div_four] at hY
  rw [Real.sin_pi_div_four, Real.cos_pi_div_four, Real.cos_arcsin] at hZ
  have h2 : Real.sqrt 2 ^ 2 = 2 := Real.sq_sqrt (by norm_num)
  have h2pos : 0 < Real.sqrt 2 := Real.sqrt_pos.mpr (by norm_num)
  have hx2 : (1.00029 * (Real.sqrt 2 / 2) / 1.34116 : ℝ) ^ 2 = (1.00029 / 1.34116) ^ 2 / 2 := by
    rw [div_pow, mul_pow, div_pow, h2]
    norm_num
  have hxr : -1 ≤ (1.00029 * (Real.sqrt 2 / 2) / 1.34116 : ℝ) ∧
      (1.00029 * (Real.sqrt 2 / 2) / 1.34116 : ℝ) ≤ 1 := by
    have := sqrt_two_bounds
    constructor
    · have : (0 : ℝ) ≤ 1.00029 * (Real.sqrt 2 / 2) / 1.34116 := by positivity
      linarith
    · rw [div_le_one (by norm_num)]
      nlinarith
  have hR2 : (10 / (Real.sqrt 2 / 2) * 1.00029 / 1.34116 : ℝ) ^ 2 =
      200 * (1.00029 / 1.34116) ^ 2 := by
    rw [div_pow, mul_pow, div_pow, div_pow, h2]
    norm_num
  have hx1 : (1.00029 * (Real.sqrt 2 / 2) / 1.34116 : ℝ) ^ 2 ≤ 1 := by
    rw [hx2]
    norm_num
  have hV0 : (0 : ℝ) ≤ 10 / (Real.sqrt 2 / 2) * 1.00029 / 1.34116 *
      Real.sqrt (1 - (1.00029 * (Real.sqrt 2 / 2) / 1.34116) ^ 2) := by positivity
  have hV2 : (10 / (Real.sqrt 2 / 2) * 1.00029 / 1.34116 *
      Real.sqrt (1 - (1.00029 * (Real.sqrt 2 / 2) / 1.34116) ^ 2)) ^ 2 =
      200 * (1.00029 / 1.34116) ^ 2 * (1 - (1.00029 / 1.34116) ^ 2 / 2) := by
    rw [mul_pow, hR2, Real.sq_sqrt (by linarith), hx2]
  have hV : 10 / (Real.sqrt 2 / 2) * 1.00029 / 1.34116 *
      Real.sqrt (1 - (1.00029 * (Real.sqrt 2 / 2) / 1.34116) ^ 2) =
      Real.sqrt (200 * (1.00029 / 1.34116) ^ 2 * (1 - (1.00029 / 1.34116) ^ 2 / 2)) := by
    rw [← hV2, Real.sqrt_sq hV0]
  rw [hV] at hZ
  have hlo : (8.9616 : ℝ) <
      Real.sqrt (200 * (1.00029 / 1.34116) ^ 2 * (1 - (1.00029 / 1.34116) ^ 2 / 2)) := by
    rw [Real.lt_sqrt (by norm_num)]
    norm_num
  have hhi : Real.sqrt (200 * (1.00029 / 1.34116) ^ 2 * (1 - (1.00029 / 1.34116) ^ 2 / 2)) <
      (8.9617 : ℝ) := by
    rw [Real.sqrt_lt' (by norm_num)]
    norm_num
  refine ⟨ht1, ht2, ?_, ?_, ?_⟩
  · rw [hZ]
    linarith
  · rw [hZ]
    linarith
  · rw [hY, Real.sin_arcsin hxr.1 hxr.2]
    field_simp
    ring

/-- The refraction angle of the example lies between 0.55 and 0.57. -/
theorem refraction_example_theta_2 :
    (0.55 : ℝ) < Real.arcsin (1.00029 * Real.sin (Real.pi / 4) / 1.34116) ∧
    Real.arcsin (1.00029 * Real.sin (Real.pi / 4) / 1.34116) < 0.57 := by
  have hpi := Real.pi_gt_three
  have hb := sqrt_two_bounds
  rw [Real.sin_pi_div_four]
  have hx0 : (0 : ℝ) ≤ 1.00029 * (Real.sqrt 2 / 2) / 1.34116 := by positivity
  have hx1 : (1.00029 * (Real.sqrt 2 / 2) / 1.34116 : ℝ) ≤ 1 := by
    rw [div_le_one (by norm_num)]
    nlinarith
  have hxlo : (0.5273 : ℝ) < 1.00029 * (Real.sqrt 2 / 2) / 1.34116 := by
    rw [lt_div_iff₀ (by norm_num)]
    nlinarith
  have hxhi : (1.00029 * (Real.sqrt 2 / 2) / 1.34116 : ℝ) < 0.5275 := by
    rw [div_lt_iff₀ (by norm_num)]
    nlinarith
  constructor
  · rw [Real.lt_arcsin_iff_sin_lt ⟨by linarith, by linarith⟩ ⟨by linarith, hx1⟩]
    have habs : |(0.55 : ℝ)| = 0.55 := abs_of_pos (by norm_num)
    have h := Real.sin_bound (x := 0.55) (by rw [habs]; norm_num)
    rw [habs] at h
    have h2 := (abs_le.mp h).2
    norm_num at h2
    linarith
  · rw [Real.arcsin_lt_iff_lt_sin ⟨by linarith, hx1⟩ ⟨by linarith, by linarith⟩]
    have habs : |(0.57 : ℝ)| = 0.57 := abs_of_pos (by norm_num)
    have h := Real.sin_bound (x := 0.57) (by rw [habs]; norm_num)
    rw [habs] at h
    have h2 := (abs_le.mp h).1
    norm_num at h2
    linarith

/-- With equal refraction indices the refracted ray is the incident ray: over
the real numbers `theta_2 = theta_1`, `phi = 0`, `r = s`, and both the divisor
`p` and the dividend `r sin(phi)` of the quotient under `asin` are zero. -/
theorem photon_refraction_equal_indices (n depth ref_el ref_az : ℝ) (hn : n ≠ 0)
    (h0 : 0 ≤ ref_el) (h1 : ref_el ≤ Real.pi) :
    (photon_refraction realOps n n depth ref_el ref_az).theta_2 =
      (photon_refraction realOps n n depth ref_el ref_az).theta_1 ∧
    (photon_refraction realOps n n depth ref_el ref_az).phi = 0 ∧
    (photon_refraction realOps n n depth ref_el ref_az).r =
      (photon_refraction realOps n n depth ref_el ref_az).s ∧
    (photon_refraction realOps n n depth ref_el ref_az).p = 0 ∧
    (photon_refraction realOps n n depth ref_el ref_az).r *
      Real.sin (photon_refraction realOps n n depth ref_el ref_az).phi = 0 := by
  have e1 : n * Real.sin (Real.pi / 2 - ref_el) / n = Real.sin (Real.pi / 2 - ref_el) :=
    mul_div_cancel_left₀ _ hn
  have e2 : Real.arcsin (Real.sin (Real.pi / 2 - ref_el)) = Real.pi / 2 - ref_el :=
    Real.arcsin_sin (by linarith) (by linarith)
  have e3 : ∀ s : ℝ, s * n / n = s := fun s => mul_div_cancel_right₀ s hn
  simp only [photon_refraction, realOps, Rat.cast_ofNat, e1, e2, e3, sub_self, Real.cos_zero,
    Real.sin_zero, mul_zero, mul_one]
  refine ⟨trivial, trivial, trivial, ?_, trivial⟩
  have : ∀ s : ℝ, s * s + s * s - 2 * s * s = 0 := fun s => by ring
  rw [this, Real.sqrt_zero]

/-! ## Refraction corrector: the pass over the data frame -/

/-- The row left by the loop body does not depend on the counter. -/
theorem runThreadBody_snd {F : Type} (ops : DoubleOps F) (transform : F → F → F × F)
    (rc rc1 : BathyRefractionCorrector F) (ph : Photon F)
    (hp : rc1.parms = rc.parms) (hm : rc1.waterRiMask = rc.waterRiMask) :
    (runThreadBody ops transform rc1 ph).2 = (runThreadBody ops transform rc ph).2 := by
  unfold runThreadBody
  rw [hp, hm]
  split <;> rfl

/-- The corrector left by the loop body: parameters and mask stay, the counter
goes up by one when `depth > 0`. -/
theorem runThreadBody_fst {F : Type} (ops : DoubleOps F) (transform : F → F → F × F)
    (rc : BathyRefractionCorrector F) (ph : Photon F) :
    (runThreadBody ops transform rc ph).1.parms = rc.parms ∧
    (runThreadBody ops transform rc ph).1.waterRiMask = rc.waterRiMask ∧
    (runThreadBody ops transform rc ph).1.subaqueousPhotons =
      rc.subaqueousPhotons + (if ops.gt (depth ops ph) (ops.ofRat 0) then 1 else 0) := by
  unfold runThreadBody
  split <;> simp

/-- The pass rewrites every row by the loop body and counts the rows with
`depth > 0`. -/
theorem runThread_spec {F : Type} (ops : DoubleOps F) (transform : F → F → F × F) :
    ∀ (df : BathyDataFrame F) (rc : BathyRefractionCorrector F),
      (runThread ops transform rc df).2 = df.map (fun ph => (runThreadBody ops transform rc ph).2) ∧
      (runThread ops transform rc df).1.parms = rc.parms ∧
      (runThread ops transform rc df).1.waterRiMask = rc.waterRiMask ∧
      (runThread ops transform rc df).1.subaqueousPhotons =
        rc.subaqueousPhotons + df.countP (fun ph => ops.gt (depth ops ph) (ops.ofRat 0))
  | [], rc => by simp [runThread, mapAccumList_nil]
  | ph :: df, rc => by
    have ih := runThread_spec ops transform df (runThreadBody ops transform rc ph).1
    obtain ⟨hp, hm, hc⟩ := runThreadBody_fst ops transform rc ph
    unfold runThread at ih ⊢
    rw [mapAccumList_cons]
    obtain ⟨h1, h2, h3, h4⟩ := ih
    refine ⟨?_, ?_, ?_, ?_⟩
    · show _ :: _ = _
      rw [h1, List.map_cons]
      congr 1
      apply List.map_congr_left
      intro a _
      exact runThreadBody_snd ops transform rc _ a hp hm
    · exact h2.trans hp
    · exact h3.trans hm
    · show (mapAccumList (runThreadBody ops transform) (runThreadBody ops transform rc ph).1 df).1.subaqueousPhotons = _
      rw [h4, hc, List.countP_cons]
      split <;> omega

/-- Row `i` after the pass is the loop body applied to row `i`. -/
theorem runThread_row {F : Type} (ops : DoubleOps F) (transform : F → F → F × F)
    (rc : BathyRefractionCorrector F) (df : BathyDataFrame F) (i : Nat) (ph : Photon F)
    (h : df[i]? = some ph) :
    (runThread ops transform rc df).2[i]? = some (runThreadBody ops transform rc ph).2 := by
  rw [(runThread_spec ops transform df rc).1, List.getElem?_map, h]
  rfl

/-- C13: a photon with `depth = surface_h - ortho_h <= 0` (the test `depth > 0`
fails) leaves `runThread` with its row unchanged, in particular `delta_h`,
`lat_ph`, `lon_ph`, `x_ph`, `y_ph`, and is not counted: `subaqueousPhotons` goes up
by the number of rows with `depth > 0`. -/
theorem runThread_surface_photon_unchanged {F : Type} (ops : DoubleOps F)
    (transform : F → F → F × F) (rc : BathyRefractionCorrector F) (df : BathyDataFrame F) :
    (runThread ops transform rc df).1.subaqueousPhotons =
        rc.subaqueousPhotons + df.countP (fun ph => ops.gt (depth ops ph) (ops.ofRat 0)) ∧
    ∀ (i : Nat) (ph : Photon F), df[i]? = some ph →
      ops.gt (depth ops ph) (ops.ofRat 0) = false →
      (runThread ops transform rc df).2[i]? = some ph := by
  refine ⟨(runThread_spec ops transform df rc).2.2.2, ?_⟩
  intro i ph h hd
  rw [runThread_row ops transform rc df i ph h]
  unfold runThreadBody
  rw [hd]
  rfl

/-- C13, witness: a photon 5 above the surface passes unchanged. -/
theorem runThread_surface_photon_unchanged_witness :
    (runThread exampleOps (fun x y => (x, y))
        (BathyRefractionCorrector.new exampleRefractionFields exampleMask)
        [examplePhotonDry]).2[0]? = some examplePhotonDry :=
  (runThread_surface_photon_unchanged exampleOps (fun x y => (x, y))
      (BathyRefractionCorrector.new exampleRefractionFields exampleMask)
      [examplePhotonDry]).2 0 examplePhotonDry rfl
    (by simp [exampleOps, depth, examplePhotonDry])

/-- C14 (amended): `runThread` never writes `x_ph` and `y_ph`: every row keeps
them.  For a photon with `depth > 0`, `dE = dY sin(ref_az)`,
`dN = dY cos(ref_az)`, and the corrected easting `x_ph + dE` and northing
`y_ph + dN` are only passed to `calculateCoordinates`, whose result is stored in
`lat_ph` and `lon_ph`. -/
theorem runThread_coordinates {F : Type} (ops : DoubleOps F) (transform : F → F → F × F)
    (rc : BathyRefractionCorrector F) (df : BathyDataFrame F) (i : Nat) (ph : Photon F)
    (h : df[i]? = some ph) :
    ∃ out : Photon F, (runThread ops transform rc df).2[i]? = some out ∧
      out.x_ph = ph.x_ph ∧ out.y_ph = ph.y_ph ∧
      (ops.gt (depth ops ph) (ops.ofRat 0) = true →
        (refractionOf ops rc ph).dE =
          ops.mul (refractionOf ops rc ph).dY (ops.sin ph.ref_az) ∧
        (refractionOf ops rc ph).dN =
          ops.mul (refractionOf ops rc ph).dY (ops.cos ph.ref_az) ∧
        out.lat_ph = (transform (ops.add ph.x_ph (refractionOf ops rc ph).dE)
          (ops.add ph.y_ph (refractionOf ops rc ph).dN)).1 ∧
        out.lon_ph = (transform (ops.add ph.x_ph (refractionOf ops rc ph).dE)
          (ops.add ph.y_ph (refractionOf ops rc ph).dN)).2) := by
  refine ⟨_, runThread_row ops transform rc df i ph h, ?_, ?_, ?_⟩
  · unfold runThreadBody
    split <;> rfl
  · unfold runThreadBody
    split <;> rfl
  · intro hd
    unfold runThreadBody
    rw [hd]
    exact ⟨rfl, rfl, rfl, rfl⟩

/-- C14, witness: the photon south of the mask keeps its easting and northing. -/
theorem runThread_coordinates_witness :
    ∃ out : Photon ℚ,
      (runThread exampleOps (fun x y => (x, y))
        (BathyRefractionCorrector.new exampleRefractionFields exampleMask)
        [examplePhotonSouth]).2[0]? = some out ∧
      out.x_ph = examplePhotonSouth.x_ph ∧ out.y_ph = examplePhotonSouth.y_ph := by
  obtain ⟨out, h1, h2, h3, _⟩ := runThread_coordinates exampleOps (fun x y => (x, y))
    (BathyRefractionCorrector.new exampleRefractionFields exampleMask)
    [examplePhotonSouth] 0 examplePhotonSouth rfl
  exact ⟨out, h1, h2, h3⟩

/-- C16: for a photon with `depth > 0` the stored `delta_h` is `p sin(beta)` with
`theta_1 = pi/2 - ref_el`, `theta_2 = asin(n1 sin(theta_1) / n2)`,
`phi = theta_1 - theta_2`, `s = depth / cos(theta_1)`, `r = s n1 / n2`,
`p = sqrt(r r + s s - 2 r s cos(phi))`, `gamma = pi/2 - theta_1`,
`alpha = asin(r sin(phi) / p)`, `beta = gamma - alpha`, where `n1` is `RIAir` and `n2`
is `RIWater`, or the mask pixel when the mask is loaded. -/
theorem runThread_delta_h {F : Type} (ops : DoubleOps F) (transform : F → F → F × F)
    (rc : BathyRefractionCorrector F) (df : BathyDataFrame F) (i : Nat) (ph : Photon F)
    (h : df[i]? = some ph) (hd : ops.gt (depth ops ph) (ops.ofRat 0) = true) :
    let n1 := rc.parms.RIAir
    let n2 := waterRI ops rc.parms rc.waterRiMask ph
    let theta_1 := ops.sub (ops.div ops.M_PI (ops.ofRat 2)) ph.ref_el
    let theta_2 := ops.asin (ops.div (ops.mul n1 (ops.sin theta_1)) n2)
    let phi := ops.sub theta_1 theta_2
    let s := ops.div (ops.sub ph.surface_h ph.ortho_h) (ops.cos theta_1)
    let r := ops.div (ops.mul s n1) n2
    let p := ops.sqrt (ops.sub (ops.add (ops.mul r r) (ops.mul s s))
      (ops.mul (ops.mul (ops.mul (ops.ofRat 2) r) s) (ops.cos phi)))
    let gamma := ops.sub (ops.div ops.M_PI (ops.ofRat 2)) theta_1
    let alpha := ops.asin (ops.div (ops.mul r (ops.sin phi)) p)
    let beta := ops.sub gamma alpha
    (rc.waterRiMask = none → n2 = rc.parms.RIWater) ∧
    ∃ out : Photon F, (runThread ops transform rc df).2[i]? = some out ∧
      out.delta_h = ops.mul p (ops.sin beta) := by
  intro n1 n2 theta_1 theta_2 phi s r p gamma alpha beta
  refine ⟨?_, _, runThread_row ops transform rc df i ph h, ?_⟩
  · intro hm
    show waterRI ops rc.parms rc.waterRiMask ph = _
    rw [hm]
    rfl
  · unfold runThreadBody
    rw [hd]
    rfl

/-- C16, witness: the photon south of the mask, 10 below the surface. -/
theorem runThread_delta_h_witness :
    ∃ out : Photon ℚ,
      (runThread exampleOps (fun x y => (x, y))
        (BathyRefractionCorrector.new exampleRefractionFields exampleMask)
        [examplePhotonSouth]).2[0]? = some out ∧
      out.delta_h = (refractionOf exampleOps
        (BathyRefractionCorrector.new exampleRefractionFields exampleMask)
        examplePhotonSouth).dZ :=
  (runThread_delta_h exampleOps (fun x y => (x, y))
    (BathyRefractionCorrector.new exampleRefractionFields exampleMask)
    [examplePhotonSouth] 0 examplePhotonSouth rfl
    (by simp [exampleOps, depth, examplePhotonSouth])).2

/-- C18 (amended): when the mask is enabled, `ri_water` is the mask pixel at
`x = (uint32) ((lon_ph + 180) / 0.25)`, `y = getHeight() - (uint32) ((lat_ph + 78.75) / 0.25)`
for every photon, whatever its position; the parameter `RIWater` is used exactly
when the mask is not enabled. -/
theorem waterRI_mask {F : Type} (ops : DoubleOps F) (parms : RefractionFields F)
    (image : TIFFImage F) (ph : Photon F) :
    (parms.useWaterRIMask = true →
      waterRI ops parms (BathyRefractionCorrector.new parms image).waterRiMask ph =
        image.getPixel
          (wrapU32 (ops.toUint32 (ops.div (ops.sub ph.lon_ph (ops.ofRat (-180)))
            (ops.ofRat (1 / 4)))))
          (wrapU32 (image.getHeight + 2 ^ 32 -
            wrapU32 (ops.toUint32 (ops.div (ops.sub ph.lat_ph (ops.ofRat (-315 / 4)))
              (ops.ofRat (1 / 4))))))) ∧
    (parms.useWaterRIMask = false →
      waterRI ops parms (BathyRefractionCorrector.new parms image).waterRiMask ph =
        parms.RIWater) := by
  constructor
  · intro hm
    have e1 : GLOBAL_WATER_RI_MASK_MIN_LAT = -315 / 4 := by
      unfold GLOBAL_WATER_RI_MASK_MIN_LAT
      norm_num
    have e2 : GLOBAL_WATER_RI_MASK_MIN_LON = -180 := by
      unfold GLOBAL_WATER_RI_MASK_MIN_LON
      norm_num
    have e3 : GLOBAL_WATER_RI_MASK_PIXEL_SIZE = 1 / 4 := by
      unfold GLOBAL_WATER_RI_MASK_PIXEL_SIZE
      norm_num
    simp only [BathyRefractionCorrector.new, hm, if_true, waterRI, e1, e2, e3]
  · intro hm
    simp only [BathyRefractionCorrector.new, hm, waterRI]
    rfl

/-- C18, witness: with the mask of the examples the photon south of the mask reads
the pixel value 2. -/
theorem waterRI_mask_witness :
    waterRI exampleOps exampleRefractionFields
      (BathyRefractionCorrector.new exampleRefractionFields exampleMask).waterRiMask
      examplePhotonSouth = 2 :=
  (waterRI_mask exampleOps exampleRefractionFields exampleMask examplePhotonSouth).1 rfl

/-- C18, counterexample: the mask is enabled and the photon lies at latitude -80,
outside the extent of the mask, yet `ri_water` is the pixel value 2 and not the
parameter `RIWater = 1.34116`. -/
theorem waterRI_mask_counterexample :
    exampleRefractionFields.useWaterRIMask = true ∧
    examplePhotonSouth.lat_ph < GLOBAL_WATER_RI_MASK_MIN_LAT ∧
    waterRI exampleOps exampleRefractionFields
      (BathyRefractionCorrector.new exampleRefractionFields exampleMask).waterRiMask
      examplePhotonSouth = 2 ∧
    waterRI exampleOps exampleRefractionFields
      (BathyRefractionCorrector.new exampleRefractionFields exampleMask).waterRiMask
      examplePhotonSouth ≠ exampleRefractionFields.RIWater := by
  have h : waterRI exampleOps exampleRefractionFields
      (BathyRefractionCorrector.new exampleRefractionFields exampleMask).waterRiMask
      examplePhotonSouth = 2 := rfl
  refine ⟨rfl, ?_, h, ?_⟩
  · unfold GLOBAL_WATER_RI_MASK_MIN_LAT examplePhotonSouth
    norm_num
  · rw [h]
    unfold exampleRefractionFields
    norm_num

/-! ## Refraction corrector: the worked example over the real numbers -/

/-- The photon of the worked example has depth 10 and passes the test
`depth > 0`. -/
theorem refractionExample_depth :
    depth realOps refractionExamplePhoton = 10 ∧
    realOps.gt (depth realOps refractionExamplePhoton) (realOps.ofRat 0) = true := by
  have h : depth realOps refractionExamplePhoton = 10 := by
    show (10 : ℝ) - 0 = 10
    exact sub_zero 10
  refine ⟨h, ?_⟩
  rw [h]
  show decide ((10 : ℝ) > ((0 : ℚ) : ℝ)) = true
  rw [decide_eq_true_eq]
  norm_num

/-- The constants of the refraction block for the worked example. -/
theorem refractionOf_example :
    refractionOf realOps refractionExampleCorrector refractionExamplePhoton =
      photon_refraction realOps 1.00029 1.34116 10 (Real.pi / 4) 0 := by
  show photon_refraction realOps 1.00029 1.34116 ((10 : ℝ) - 0) (Real.pi / 4) 0 = _
  rw [sub_zero]

/-- The constants of the refraction block for the worked example with equal
indices. -/
theorem refractionOf_equal_example :
    refractionOf realOps refractionEqualCorrector refractionExamplePhoton =
      photon_refraction realOps 1.34116 1.34116 10 (Real.pi / 4) 0 := by
  show photon_refraction realOps 1.34116 1.34116 ((10 : ℝ) - 0) (Real.pi / 4) 0 = _
  rw [sub_zero]

/-- The row stored for a photon with `depth > 0`. -/
theorem runThread_row_refracted {F : Type} (ops : DoubleOps F) (transform : F → F → F × F)
    (rc : BathyRefractionCorrector F) (ph : Photon F)
    (hd : ops.gt (depth ops ph) (ops.ofRat 0) = true) :
    (runThread ops transform rc [ph]).2[0]? = some (runThreadBody ops transform rc ph).2 ∧
    (runThreadBody ops transform rc ph).2.delta_h = (refractionOf ops rc ph).dZ ∧
    (runThreadBody ops transform rc ph).2.x_ph = ph.x_ph ∧
    (runThreadBody ops transform rc ph).2.y_ph = ph.y_ph := by
  refine ⟨runThread_row ops transform rc [ph] 0 ph rfl, ?_, ?_, ?_⟩ <;>
  · unfold runThreadBody
    rw [hd]
    rfl

/-- C17 (amended): for the photon with `surface_h = 10`, `ortho_h = 0`,
`ref_el = pi/4`, `ref_az = 0`, `x = 0`, `y = 0` and `n1 = 1.00029`, `n2 = 1.34116`, in
exact arithmetic: `depth = 10`, `theta_1 = pi/4`,
`theta_2 = asin(1.00029 sin(pi/4) / 1.34116)` lies between 0.55 and 0.57, and the
stored `delta_h` is within 1e-3 of 1.038. -/
theorem runThread_example_delta_h :
    depth realOps refractionExamplePhoton = 10 ∧
    (refractionOf realOps refractionExampleCorrector refractionExamplePhoton).theta_1 =
      Real.pi / 4 ∧
    (refractionOf realOps refractionExampleCorrector refractionExamplePhoton).theta_2 =
      Real.arcsin (1.00029 * Real.sin (Real.pi / 4) / 1.34116) ∧
    0.55 < (refractionOf realOps refractionExampleCorrector refractionExamplePhoton).theta_2 ∧
    (refractionOf realOps refractionExampleCorrector refractionExamplePhoton).theta_2 < 0.57 ∧
    ∃ out : Photon ℝ,
      (runThread realOps (fun x y => (x, y)) refractionExampleCorrector
        [refractionExamplePhoton]).2[0]? = some out ∧
      |out.delta_h - 1.038| ≤ 1 / 1000 := by
  obtain ⟨h1, h2, h3, h4, _⟩ := refraction_example 0
  obtain ⟨hd, hg⟩ := refractionExample_depth
  obtain ⟨hrow, hdz, _, _⟩ := runThread_row_refracted realOps (fun x y => (x, y))
    refractionExampleCorrector refractionExamplePhoton hg
  have ht := refraction_example_theta_2
  rw [← h2] at ht
  rw [refractionOf_example]
  refine ⟨hd, h1, h2, ht.1, ht.2, _, hrow, ?_⟩
  rw [hdz, refractionOf_example, abs_le]
  constructor <;> linarith

/-- C17, counterexample: in exact arithmetic the stored `delta_h` of the example
is below 1.0384, so it is not within 1e-3 of 2.647. -/
theorem runThread_example_counterexample :
    ∃ out : Photon ℝ,
      (runThread realOps (fun x y => (x, y)) refractionExampleCorrector
        [refractionExamplePhoton]).2[0]? = some out ∧
      out.delta_h < 1.0384 ∧ ¬ |out.delta_h - 2.647| ≤ 1 / 1000 := by
  obtain ⟨_, _, _, h4, _⟩ := refraction_example 0
  obtain ⟨_, hg⟩ := refractionExample_depth
  obtain ⟨hrow, hdz, _, _⟩ := runThread_row_refracted realOps (fun x y => (x, y))
    refractionExampleCorrector refractionExamplePhoton hg
  rw [refractionOf_example] at hdz
  refine ⟨_, hrow, ?_, ?_⟩
  · rw [hdz]
    exact h4
  · rw [hdz, abs_le]
    intro h
    linarith [h.1]

/-- C14, counterexample: for the photon of the worked example (`depth = 10 > 0`,
`y_ph = 0`) the northing offset is `dN = 10 (1 - (1.00029 / 1.34116)^2)`, more
than 4, and `y_ph` is still 0 after the pass. -/
theorem runThread_coordinates_counterexample :
    realOps.gt (depth realOps refractionExamplePhoton) (realOps.ofRat 0) = true ∧
    (refractionOf realOps refractionExampleCorrector refractionExamplePhoton).dN =
      10 * (1 - (1.00029 / 1.34116) ^ 2) ∧
    ∃ out : Photon ℝ,
      (runThread realOps (fun x y => (x, y)) refractionExampleCorrector
        [refractionExamplePhoton]).2[0]? = some out ∧
      out.y_ph = 0 ∧
      out.y_ph ≠ refractionExamplePhoton.y_ph +
        (refractionOf realOps refractionExampleCorrector refractionExamplePhoton).dN := by
  obtain ⟨_, _, _, _, h5⟩ := refraction_example 0
  obtain ⟨_, hg⟩ := refractionExample_depth
  obtain ⟨hrow, _, _, hy⟩ := runThread_row_refracted realOps (fun x y => (x, y))
    refractionExampleCorrector refractionExamplePhoton hg
  have hN : (refractionOf realOps refractionExampleCorrector refractionExamplePhoton).dN =
      10 * (1 - (1.00029 / 1.34116) ^ 2) := by
    rw [refractionOf_example, ← h5]
    show (photon_refraction realOps 1.00029 1.34116 10 (Real.pi / 4) 0).dY * Real.cos 0 = _
    rw [Real.cos_zero, mul_one]
  have hy0 : (runThreadBody realOps (fun x y => (x, y)) refractionExampleCorrector
      refractionExamplePhoton).2.y_ph = 0 := hy
  refine ⟨hg, hN, _, hrow, hy0, ?_⟩
  rw [hy0, hN]
  show (0 : ℝ) ≠ 0 + 10 * (1 - (1.00029 / 1.34116) ^ 2)
  norm_num

/-- C15 (amended): when `n1 == n2` (non-zero) and the elevation lies in
`[0, pi]`, in exact arithmetic `theta_2 = theta_1`, `phi = 0`, `r = s`, and the
quotient `r sin(phi) / p` under `asin` has dividend 0 and divisor `p = 0`. -/
theorem runThread_equal_indices (rc : BathyRefractionCorrector ℝ) (ph : Photon ℝ)
    (hn : waterRI realOps rc.parms rc.waterRiMask ph = rc.parms.RIAir)
    (hn0 : rc.parms.RIAir ≠ 0) (h0 : 0 ≤ ph.ref_el) (h1 : ph.ref_el ≤ Real.pi) :
    (refractionOf realOps rc ph).theta_2 = (refractionOf realOps rc ph).theta_1 ∧
    (refractionOf realOps rc ph).phi = 0 ∧
    (refractionOf realOps rc ph).r = (refractionOf realOps rc ph).s ∧
    (refractionOf realOps rc ph).p = 0 ∧
    (refractionOf realOps rc ph).r * Real.sin (refractionOf realOps rc ph).phi = 0 := by
  unfold refractionOf
  rw [hn]
  exact photon_refraction_equal_indices rc.parms.RIAir (depth realOps ph) ph.ref_el ph.ref_az
    hn0 h0 h1

/-- C15, witness: the photon of the worked example with both indices 1.34116. -/
theorem runThread_equal_indices_witness :
    (refractionOf realOps refractionEqualCorrector refractionExamplePhoton).phi = 0 ∧
    (refractionOf realOps refractionEqualCorrector refractionExamplePhoton).p = 0 :=
  ⟨(runThread_equal_indices refractionEqualCorrector refractionExamplePhoton rfl
      (by show (1.34116 : ℝ) ≠ 0; norm_num)
      (by show (0 : ℝ) ≤ Real.pi / 4; exact (div_pos Real.pi_pos (by norm_num)).le)
      (by show Real.pi / 4 ≤ Real.pi; linarith [Real.pi_pos])).2.1,
   (runThread_equal_indices refractionEqualCorrector refractionExamplePhoton rfl
      (by show (1.34116 : ℝ) ≠ 0; norm_num)
      (by show (0 : ℝ) ≤ Real.pi / 4; exact (div_pos Real.pi_pos (by norm_num)).le)
      (by show Real.pi / 4 ≤ Real.pi; linarith [Real.pi_pos])).2.2.2.1⟩

/-- C15, counterexample: for the photon of the worked example (`depth = 10 > 0`)
and `n1 = n2 = 1.34116` the divisor `p` is zero. -/
theorem runThread_equal_indices_counterexample :
    realOps.gt (depth realOps refractionExamplePhoton) (realOps.ofRat 0) = true ∧
    refractionEqualCorrector.parms.RIAir =
      waterRI realOps refractionEqualCorrector.parms refractionEqualCorrector.waterRiMask
        refractionExamplePhoton ∧
    (refractionOf realOps refractionEqualCorrector refractionExamplePhoton).p = 0 := by
  refine ⟨refractionExample_depth.2, rfl, ?_⟩
  rw [refractionOf_equal_example]
  exact (photon_refraction_equal_indices 1.34116 10 (Real.pi / 4) 0 (by norm_num)
    (div_pos Real.pi_pos (by norm_num)).le (by linarith [Real.pi_pos])).2.2.2.1

/-! ## Ordering: the list stays sorted -/

theorem walkPrevLe_nodes {T : Type} (key : Nat) :
    ∀ (ps : List (sorted_node_t T)) (c : sorted_node_t T) (ns : List (sorted_node_t T)),
      (walkPrevLe key ps c ns).1.reverse ++ (walkPrevLe key ps c ns).2.1 ::
        (walkPrevLe key ps c ns).2.2 = ps.reverse ++ c :: ns
  | [], c, ns => rfl
  | p :: ps, c, ns => by
    unfold walkPrevLe
    split
    · rw [walkPrevLe_nodes key ps p (c :: ns)]
      simp
    · rfl

/-- Where the backward loop of `addNode` stops: the nodes behind the cursor
have keys not below the new key, and a cursor with a key not below the new key
is the first node. -/
theorem walkPrevLe_post {T : Type} (key : Nat) :
    ∀ (ps : List (sorted_node_t T)) (c : sorted_node_t T) (ns : List (sorted_node_t T)),
      (∀ n ∈ ns, key ≤ n.key) →
      (∀ n ∈ (walkPrevLe key ps c ns).2.2, key ≤ n.key) ∧
        (key ≤ (walkPrevLe key ps c ns).2.1.key → (walkPrevLe key ps c ns).1 = [])
  | [], c, ns, h => ⟨h, fun _ => rfl⟩
  | p :: ps, c, ns, h => by
    unfold walkPrevLe
    split
    · rename_i hle
      apply walkPrevLe_post key ps p (c :: ns)
      intro n hn
      rw [List.mem_cons] at hn
      rcases hn with hn | hn
      · rw [hn]; exact hle
      · exact h n hn
    · rename_i hle
      exact ⟨h, fun h2 => absurd h2 hle⟩

/-- Where the forward loop of `addNode` stops: the nodes before the cursor have
keys below the new key, and a cursor with a key below the new key is the last
node. -/
theorem walkNextGt_post {T : Type} (key : Nat) :
    ∀ (ns : List (sorted_node_t T)) (ps : List (sorted_node_t T)) (c : sorted_node_t T),
      (∀ p ∈ ps, p.key < key) →
      (∀ p ∈ (walkNextGt key ps c ns).1, p.key < key) ∧
        (key > (walkNextGt key ps c ns).2.1.key → (walkNextGt key ps c ns).2.2 = [])
  | [], ps, c, h => ⟨h, fun _ => rfl⟩
  | n :: ns, ps, c, h => by
    unfold walkNextGt
    split
    · rename_i hgt
      apply walkNextGt_post key ns (c :: ps) n
      intro p hp
      rw [List.mem_cons] at hp
      rcases hp with hp | hp
      · rw [hp]; exact hgt
      · exact h p hp
    · rename_i hgt
      exact ⟨h, fun h2 => absurd h2 hgt⟩

theorem KeysSorted.insert {T : Type} {l1 l2 : List (sorted_node_t T)}
    (h : KeysSorted (l1 ++ l2)) (key : Nat) (data : T)
    (h1 : ∀ a ∈ l1, a.key ≤ key) (h2 : ∀ b ∈ l2, key ≤ b.key) :
    KeysSorted (l1 ++ ⟨key, data⟩ :: l2) := by
  unfold KeysSorted at h ⊢
  rw [List.pairwise_append] at h ⊢
  obtain ⟨ha, hb, hab⟩ := h
  refine ⟨ha, ?_, ?_⟩
  · rw [List.pairwise_cons]
    exact ⟨h2, hb⟩
  · intro a ha2 b hb2
    rw [List.mem_cons] at hb2
    rcases hb2 with hb2 | hb2
    · rw [hb2]
      exact h1 a ha2
    · exact hab a ha2 b hb2

/-- The search for the insertion point in `addNode`, on a sorted list: the nodes
stay, and the new key fits between the nodes before and behind the place where
the new node is linked. -/
theorem addNode_walk {T : Type} (key : Nat) (ps : List (sorted_node_t T)) (c : sorted_node_t T)
    (ns : List (sorted_node_t T)) (hs : KeysSorted (ps.reverse ++ c :: ns)) :
    (if key ≤ c.key then walkPrevLe key ps c ns else walkNextGt key ps c ns).1.reverse ++
        (if key ≤ c.key then walkPrevLe key ps c ns else walkNextGt key ps c ns).2.1 ::
        (if key ≤ c.key then walkPrevLe key ps c ns else walkNextGt key ps c ns).2.2 =
      ps.reverse ++ c :: ns ∧
    (key ≤ (if key ≤ c.key then walkPrevLe key ps c ns else walkNextGt key ps c ns).2.1.key →
      ∀ p ∈ (if key ≤ c.key then walkPrevLe key ps c ns else walkNextGt key ps c ns).1,
        p.key ≤ key) ∧
    (¬ key ≤ (if key ≤ c.key then walkPrevLe key ps c ns else walkNextGt key ps c ns).2.1.key →
      ∀ n ∈ (if key ≤ c.key then walkPrevLe key ps c ns else walkNextGt key ps c ns).2.2,
        key ≤ n.key) := by
  unfold KeysSorted at hs
  rw [List.pairwise_append] at hs
  obtain ⟨_, hcns, hcross⟩ := hs
  rw [List.pairwise_cons] at hcns
  by_cases hle : key ≤ c.key
  · simp only [hle, if_true]
    have hpost := walkPrevLe_post key ps c ns (fun n hn => le_trans hle (hcns.1 n hn))
    refine ⟨walkPrevLe_nodes key ps c ns, ?_, ?_⟩
    · intro h
      rw [hpost.2 h]
      intro p hp
      simp at hp
    · intro _
      exact hpost.1
  · simp only [hle, if_false]
    have hpost := walkNextGt_post key ns ps c (fun p hp => by
      have := hcross p (List.mem_reverse.mpr hp) c (List.mem_cons_self _ _)
      omega)
    refine ⟨walkNextGt_nodes key ns ps c, ?_, ?_⟩
    · intro _ p hp
      exact Nat.le_of_lt (hpost.1 p hp)
    · intro h
      rw [hpost.2 (by omega)]
      intro n hn
      simp at hn

theorem reverse_dropLast_suffix {α : Type} (l : List α) : l.dropLast.reverse <:+ l.reverse := by
  rcases List.eq_nil_or_concat l with h | ⟨l1, a, h⟩
  · rw [h]
    exact List.suffix_refl _
  · rw [h, List.concat_eq_append, List.dropLast_concat, List.reverse_append]
    exact List.suffix_append _ _

/-- The loop that drops first nodes leaves a suffix of the list. -/
theorem dropFirstNodes_suffix {T : Type} (m : Int) :
    ∀ (fuel : Nat) (l : Links T), (dropFirstNodes m fuel l).nodes <:+ l.nodes
  | 0, l => List.suffix_refl _
  | fuel + 1, .nullCurr [] => by
    unfold dropFirstNodes
    split <;> exact List.suffix_refl _
  | fuel + 1, .nullCurr (a :: rest) => by
    unfold dropFirstNodes
    split
    · exact (dropFirstNodes_suffix m fuel (.nullCurr rest)).trans (List.suffix_cons _ _)
    · exact List.suffix_refl _
  | fuel + 1, .atCurr [] c [] => by
    unfold dropFirstNodes
    split
    · exact List.nil_suffix
    · exact List.suffix_refl _
  | fuel + 1, .atCurr [] c (n :: ns) => by
    unfold dropFirstNodes
    split
    · exact (dropFirstNodes_suffix m fuel (.atCurr [] n ns)).trans (List.suffix_cons _ _)
    · exact List.suffix_refl _
  | fuel + 1, .atCurr (p :: ps) c ns => by
    unfold dropFirstNodes
    split
    · refine (dropFirstNodes_suffix m fuel (.atCurr ((p :: ps).dropLast) c ns)).trans ?_
      simp only [Links.nodes_atCurr]
      obtain ⟨t, ht⟩ := reverse_dropLast_suffix (p :: ps)
      exact ⟨t, by rw [← ht]; simp⟩
    · exact List.suffix_refl _

theorem KeysSorted.suffix {T : Type} {l1 l2 : List (sorted_node_t T)} (h : KeysSorted l2)
    (hsuf : l1 <:+ l2) : KeysSorted l1 :=
  List.Pairwise.sublist hsuf.sublist h

/-- What `addNode` does to a sorted list: either the key is refused because
`unique` is set and a node carries it, or the new node is linked at a place
where the list stays sorted, after which first nodes are dropped only for a
bounded list. -/
theorem Ordering.addNode_nodes {T : Type} (o : Ordering T) (key : Nat) (data : T)
    (unique : Bool) (hs : KeysSorted o.nodes) :
    (o.addNode key data unique).2.maxListSize = o.maxListSize ∧
    (((o.addNode key data unique).1 = false ∧ (o.addNode key data unique).2.nodes = o.nodes ∧
        ∃ n ∈ o.nodes, n.key = key) ∨
      ((o.addNode key data unique).1 = true ∧
        ∃ l1 l2, o.nodes = l1 ++ l2 ∧ KeysSorted (l1 ++ ⟨key, data⟩ :: l2) ∧
          (o.addNode key data unique).2.nodes <:+ l1 ++ ⟨key, data⟩ :: l2 ∧
          (o.maxListSize = INFINITE_LIST_SIZE →
            (o.addNode key data unique).2.nodes = l1 ++ ⟨key, data⟩ :: l2))) := by
  unfold Ordering.addNode
  have hn := Links.resetCurr_nodes o.links
  rcases hr : o.links.resetCurr with l0 | ⟨ps, c, ns⟩
  · obtain ⟨h1, _⟩ := Links.resetCurr_null _ _ hr
    refine ⟨rfl, Or.inr ⟨rfl, [], [], h1, ?_, ?_, ?_⟩⟩
    · unfold KeysSorted
      simp
    · exact dropFirstNodes_suffix _ _ _
    · intro hinf
      simp only [hinf, dropFirstNodes_infinite]
      rfl
  · rw [hr, Links.nodes_atCurr] at hn
    have hs1 : KeysSorted (ps.reverse ++ c :: ns) := by
      rw [hn]
      exact hs
    obtain ⟨hw1, hw2, hw3⟩ := addNode_walk key ps c ns hs1
    simp only
    generalize (if key ≤ c.key then walkPrevLe key ps c ns else walkNextGt key ps c ns) = r
      at hw1 hw2 hw3
    obtain ⟨ps1, c1, ns1⟩ := r
    simp only at hw1 hw2 hw3
    have hnodes : o.nodes = ps1.reverse ++ c1 :: ns1 := (hn.symm.trans hw1.symm)
    have hs2 : KeysSorted (ps1.reverse ++ c1 :: ns1) := hnodes ▸ hs
    by_cases hu : unique = true ∧ c1.key = key
    · rw [if_pos hu]
      refine ⟨rfl, Or.inl ⟨rfl, ?_, c1, ?_, hu.2⟩⟩
      · exact hnodes.symm
      · rw [hnodes]
        simp
    · rw [if_neg hu]
      refine ⟨rfl, Or.inr ⟨rfl, ?_⟩⟩
      have hs3 := hs2
      unfold KeysSorted at hs3
      rw [List.pairwise_append] at hs3
      obtain ⟨_, hcns, hcross⟩ := hs3
      rw [List.pairwise_cons] at hcns
      by_cases hle : key ≤ c1.key
      · refine ⟨ps1.reverse, c1 :: ns1, hnodes, ?_, ?_, ?_⟩
        · apply KeysSorted.insert hs2
          · intro a ha
            exact hw2 hle a (List.mem_reverse.mp ha)
          · intro b hb
            rw [List.mem_cons] at hb
            rcases hb with hb | hb
            · rw [hb]; exact hle
            · exact le_trans hle (hcns.1 b hb)
        · simp only [hle, if_true]
          refine (dropFirstNodes_suffix _ _ _).trans ?_
          simp
        · intro hinf
          simp only [hle, if_true, hinf, dropFirstNodes_infinite]
          simp [Ordering.nodes]
      · refine ⟨ps1.reverse ++ [c1], ns1, by rw [hnodes]; simp, ?_, ?_, ?_⟩
        · apply KeysSorted.insert (by simpa using hs2)
          · intro a ha
            rw [List.mem_append, List.mem_singleton] at ha
            rcases ha with ha | ha
            · have := hcross a ha c1 (List.mem_cons_self _ _)
              omega
            · rw [ha]; omega
          · exact hw3 hle
        · simp only [hle, if_false]
          refine (dropFirstNodes_suffix _ _ _).trans ?_
          simp
        · intro hinf
          simp only [hle, if_false, hinf, dropFirstNodes_infinite]
          simp [Ordering.nodes]

theorem removeSearch_nodes {T : Type} (key : Nat) (smode : searchMode_t)
    (ps : List (sorted_node_t T)) (c : sorted_node_t T) (ns : List (sorted_node_t T)) :
    (removeSearch key smode ps c ns).1.1.reverse ++ (removeSearch key smode ps c ns).1.2.1 ::
      (removeSearch key smode ps c ns).1.2.2 = ps.reverse ++ c :: ns := by
  cases smode <;> simp only [removeSearch]
  · rw [walkNextGt_nodes, walkPrevLt_nodes]
  · rw [walkNextGt_nodes, walkPrevLt_nodes]
  · rw [walkPrevLt_nodes, walkNextGt_nodes]

theorem getSearch_nodes {T : Type} (key : Nat) (smode : searchMode_t)
    (ps : List (sorted_node_t T)) (c : sorted_node_t T) (ns : List (sorted_node_t T)) :
    (getSearch key smode ps c ns).1.1.reverse ++ (getSearch key smode ps c ns).1.2.1 ::
      (getSearch key smode ps c ns).1.2.2 = ps.reverse ++ c :: ns := by
  cases smode <;> simp only [getSearch]
  · rw [walkNextGt_nodes, walkPrevLt_nodes]
  · rw [walkNextGt_nodes, walkPrevLt_nodes]
  · rw [walkPrevLt_nodes, walkNextGt_nodes]
  · rw [walkNextGt_nodes, walkPrevLt_nodes]
  · rw [walkPrevLt_nodes, walkNextGt_nodes]

/-- A removal leaves a sublist of the nodes. -/
theorem Ordering.remove_sublist {T : Type} (o : Ordering T) (key : Nat) (smode : searchMode_t) :
    (o.remove key smode).2.maxListSize = o.maxListSize ∧
    (o.remove key smode).2.nodes.Sublist o.nodes := by
  unfold Ordering.remove
  have hn := Links.resetCurr_nodes o.links
  rcases hr : o.links.resetCurr with l0 | ⟨ps, c, ns⟩
  · obtain ⟨h1, h2⟩ := Links.resetCurr_null _ _ hr
    simp only [Ordering.nodes, h1, h2, Links.nodes_nullCurr]
    exact ⟨trivial, List.Sublist.refl _⟩
  · rw [hr, Links.nodes_atCurr] at hn
    have hw := removeSearch_nodes key smode ps c ns
    simp only
    generalize removeSearch key smode ps c ns = r at hw
    obtain ⟨⟨ps2, c2, ns2⟩, found⟩ := r
    simp only at hw
    have hnodes : o.nodes = ps2.reverse ++ c2 :: ns2 := hn.symm.trans hw.symm
    cases found
    · refine ⟨rfl, ?_⟩
      show (ps2.reverse ++ c2 :: ns2).Sublist o.nodes
      rw [hnodes]
    · refine ⟨rfl, ?_⟩
      show (unlinkCurr ps2 ns2).nodes.Sublist o.nodes
      rw [unlinkCurr_nodes, hnodes]
      exact List.Sublist.append_left (List.sublist_cons_self _ _) _

/-- A lookup keeps the nodes. -/
theorem Ordering.get_nodes {T : Type} (o : Ordering T) (key : Nat) (smode : searchMode_t) :
    (o.get key smode).2.maxListSize = o.maxListSize ∧ (o.get key smode).2.nodes = o.nodes := by
  unfold Ordering.get
  have hn := Links.resetCurr_nodes o.links
  rcases hr : o.links.resetCurr with l0 | ⟨ps, c, ns⟩
  · obtain ⟨h1, h2⟩ := Links.resetCurr_null _ _ hr
    simp only [Ordering.nodes, h1, h2, Links.nodes_nullCurr]
    exact ⟨trivial, trivial⟩
  · rw [hr, Links.nodes_atCurr] at hn
    have hw := getSearch_nodes key smode ps c ns
    simp only
    generalize getSearch key smode ps c ns = r at hw
    obtain ⟨⟨ps2, c2, ns2⟩, found⟩ := r
    simp only at hw
    have hnodes : o.nodes = ps2.reverse ++ c2 :: ns2 := hn.symm.trans hw.symm
    cases found <;> exact ⟨rfl, hnodes.symm⟩

theorem Ordering.first_nodes {T : Type} (INVALID_KEY : Nat) (o : Ordering T) :
    (o.first INVALID_KEY).2.2.maxListSize = o.maxListSize ∧
    (o.first INVALID_KEY).2.2.nodes = o.nodes := by
  unfold Ordering.first
  rcases h : o.nodes with _ | ⟨c, ns⟩
  · exact ⟨rfl, rfl⟩
  · exact ⟨rfl, rfl⟩

theorem Ordering.next_nodes {T : Type} (INVALID_KEY : Nat) (o : Ordering T) :
    (o.next INVALID_KEY).2.2.maxListSize = o.maxListSize ∧
    (o.next INVALID_KEY).2.2.nodes = o.nodes := by
  unfold Ordering.next Ordering.nodes
  rcases h : o.links with l | ⟨ps, c, ns⟩
  · exact ⟨rfl, rfl⟩
  · cases ns with
    | nil => exact ⟨rfl, by simp⟩
    | cons n ns => exact ⟨rfl, by simp⟩

theorem Ordering.last_nodes {T : Type} (INVALID_KEY : Nat) (o : Ordering T) :
    (o.last INVALID_KEY).2.2.maxListSize = o.maxListSize ∧
    (o.last INVALID_KEY).2.2.nodes = o.nodes := by
  unfold Ordering.last
  rcases h : o.nodes.reverse with _ | ⟨c, ps⟩
  · refine ⟨rfl, ?_⟩
    have h2 : o.nodes = [] := by simpa using h
    rw [h2]
    rfl
  · refine ⟨rfl, ?_⟩
    have h2 := congrArg List.reverse h
    rw [List.reverse_reverse] at h2
    rw [h2]
    simp [Ordering.nodes]

theorem Ordering.prev_nodes {T : Type} (INVALID_KEY : Nat) (o : Ordering T) :
    (o.prev INVALID_KEY).2.2.maxListSize = o.maxListSize ∧
    (o.prev INVALID_KEY).2.2.nodes = o.nodes := by
  unfold Ordering.prev Ordering.nodes
  rcases h : o.links with l | ⟨ps, c, ns⟩
  · exact ⟨rfl, rfl⟩
  · cases ns with
    | nil => exact ⟨rfl, by simp⟩
    | cons n ns => exact ⟨rfl, by simp⟩

/-- Every call keeps the list sorted and the bound of the list. -/
theorem Ordering.call_sorted {T : Type} (INVALID_KEY : Nat) (o : Ordering T)
    (c : OrderingCall T) (hs : KeysSorted o.nodes) :
    KeysSorted (o.call INVALID_KEY c).nodes ∧
    (o.call INVALID_KEY c).maxListSize = o.maxListSize := by
  cases c with
  | add key data unique =>
    obtain ⟨hm, h | h⟩ := Ordering.addNode_nodes o key data unique hs
    · exact ⟨by show KeysSorted (o.addNode key data unique).2.nodes; rw [h.2.1]; exact hs, hm⟩
    · obtain ⟨_, l1, l2, _, h2, h3, _⟩ := h
      exact ⟨h2.suffix h3, hm⟩
  | remove key smode =>
    exact ⟨List.Pairwise.sublist (o.remove_sublist key smode).2 hs, (o.remove_sublist key smode).1⟩
  | get key smode =>
    exact ⟨by show KeysSorted (o.get key smode).2.nodes; rw [(o.get_nodes key smode).2]; exact hs,
      (o.get_nodes key smode).1⟩
  | first =>
    exact ⟨by show KeysSorted (o.first INVALID_KEY).2.2.nodes
              rw [(o.first_nodes INVALID_KEY).2]; exact hs, (o.first_nodes INVALID_KEY).1⟩
  | next =>
    exact ⟨by show KeysSorted (o.next INVALID_KEY).2.2.nodes
              rw [(o.next_nodes INVALID_KEY).2]; exact hs, (o.next_nodes INVALID_KEY).1⟩
  | last =>
    exact ⟨by show KeysSorted (o.last INVALID_KEY).2.2.nodes
              rw [(o.last_nodes INVALID_KEY).2]; exact hs, (o.last_nodes INVALID_KEY).1⟩
  | prev =>
    exact ⟨by show KeysSorted (o.prev INVALID_KEY).2.2.nodes
              rw [(o.prev_nodes INVALID_KEY).2]; exact hs, (o.prev_nodes INVALID_KEY).1⟩

/-- Every sequence of calls keeps the list sorted and the bound of the list. -/
theorem Ordering.calls_sorted {T : Type} (INVALID_KEY : Nat) :
    ∀ (cs : List (OrderingCall T)) (o : Ordering T), KeysSorted o.nodes →
      KeysSorted (o.calls INVALID_KEY cs).nodes ∧
      (o.calls INVALID_KEY cs).maxListSize = o.maxListSize
  | [], _, hs => ⟨hs, rfl⟩
  | c :: cs, o, hs => by
    obtain ⟨h1, h2⟩ := Ordering.call_sorted INVALID_KEY o c hs
    obtain ⟨h3, h4⟩ := Ordering.calls_sorted INVALID_KEY cs (o.call INVALID_KEY c) h1
    exact ⟨h3, h4.trans h2⟩

/-- From a cursor on a node, as many calls of `next` as there are nodes behind
it, plus one, return these nodes in order and then `INVALID_KEY`. -/
theorem nextCalls_atCurr {T : Type} (INVALID_KEY : Nat) (m : Int) :
    ∀ (ns ps : List (sorted_node_t T)) (c : sorted_node_t T),
      nextCalls INVALID_KEY (ns.length + 1) ⟨.atCurr ps c ns, m⟩ =
        ns.map (fun n => (n.key, some n.data)) ++ [(INVALID_KEY, none)]
  | [], ps, c => rfl
  | n :: ns, ps, c => by
    have ih := nextCalls_atCurr INVALID_KEY m ns (c :: ps) n
    rw [List.length_cons, nextCalls]
    show (n.key, some n.data) :: nextCalls INVALID_KEY (ns.length + 1) ⟨.atCurr (c :: ps) n ns, m⟩ = _
    rw [ih]
    rfl

/-- The traversal by `first` and `next` returns the nodes from first to last and
then `INVALID_KEY`. -/
theorem Ordering.traverse_nodes {T : Type} (INVALID_KEY : Nat) (o : Ordering T) :
    o.traverse INVALID_KEY =
      o.nodes.map (fun n => (n.key, some n.data)) ++ [(INVALID_KEY, none)] := by
  unfold Ordering.traverse Ordering.first Ordering.length
  rcases h : o.nodes with _ | ⟨c, ns⟩
  · rfl
  · simp only [List.length_cons, List.map_cons, List.cons_append]
    rw [nextCalls_atCurr INVALID_KEY o.maxListSize ns [] c]

/-- C19: after every sequence of calls of `add`, `remove` and of the methods that
move the cursor (`get`, `first`, `next`, `last`, `prev`) on an initially empty
ordering, with any bound of the list and with duplicates allowed, `first()`
followed by `length()` calls of `next()` returns the nodes from first to last,
one per call, with non-decreasing keys, and the last of these calls returns
`INVALID_KEY`. -/
theorem ordering_sorted_traversal {T : Type} (INVALID_KEY : Nat) (maxListSize : Int)
    (cs : List (OrderingCall T)) :
    (Ordering.calls INVALID_KEY ⟨.nullCurr [], maxListSize⟩ cs).traverse INVALID_KEY =
      (Ordering.calls INVALID_KEY ⟨.nullCurr [], maxListSize⟩ cs).nodes.map
        (fun n => (n.key, some n.data)) ++ [(INVALID_KEY, none)] ∧
    ((Ordering.calls INVALID_KEY ⟨.nullCurr [], maxListSize⟩ cs).traverse INVALID_KEY).length =
      (Ordering.calls INVALID_KEY ⟨.nullCurr [], maxListSize⟩ cs).length + 1 ∧
    (Ordering.calls INVALID_KEY ⟨.nullCurr [], maxListSize⟩ cs).nodes.Pairwise
      (fun a b => a.key ≤ b.key) := by
  refine ⟨Ordering.traverse_nodes _ _, ?_, ?_⟩
  · rw [Ordering.traverse_nodes]
    simp [Ordering.length]
  · exact (Ordering.calls_sorted INVALID_KEY cs ⟨.nullCurr [], maxListSize⟩
      (by unfold KeysSorted; exact List.Pairwise.nil)).1

/-! ## Ordering: add, get and remove of a key -/

/-- On a sorted list, a position reached by the exact-match search that does not
carry the key shows that no node carries it. -/
theorem SeekPost.absent {T : Type} {key : Nat} {ps : List (sorted_node_t T)}
    {c : sorted_node_t T} {ns : List (sorted_node_t T)} (hp : SeekPost key (ps, c, ns))
    (hs : KeysSorted (ps.reverse ++ c :: ns)) (hk : c.key ≠ key) :
    ∀ n ∈ ps.reverse ++ c :: ns, n.key ≠ key := by
  unfold KeysSorted at hs
  rw [List.pairwise_append] at hs
  obtain ⟨hps, hcns, hcross⟩ := hs
  rw [List.pairwise_cons] at hcns
  intro n hn
  unfold SeekPost at hp
  simp only at hp
  rw [List.mem_append, List.mem_cons] at hn
  rcases hp with h | ⟨h, h0⟩ | ⟨h, h0⟩
  · exact absurd h hk
  · subst h0
    rcases hn with h3 | h3 | h3
    · have := hcross n h3 c (List.mem_cons_self _ _)
      omega
    · subst h3; omega
    · simp at h3
  · rcases hn with h3 | h3 | h3
    · rcases h0 with h0 | ⟨p, ps0, h0, hp⟩
      · subst h0; simp at h3
      · subst h0
        rw [List.mem_reverse, List.mem_cons] at h3
        rcases h3 with h3 | h3
        · subst h3; omega
        · rw [List.reverse_cons, List.pairwise_append] at hps
          have := hps.2.2 n (List.mem_reverse.mpr h3) p (List.mem_singleton_self _)
          omega
    · subst h3; omega
    · have := hcns.1 n h3
      omega

/-- The two loops of the exact-match search keep the nodes and end in a position
that satisfies `SeekPost`. -/
theorem exactSearch_spec {T : Type} (key : Nat) (ps : List (sorted_node_t T))
    (c : sorted_node_t T) (ns : List (sorted_node_t T)) :
    (walkNextGt key (walkPrevLt key ps c ns).1 (walkPrevLt key ps c ns).2.1
        (walkPrevLt key ps c ns).2.2).1.reverse ++
      (walkNextGt key (walkPrevLt key ps c ns).1 (walkPrevLt key ps c ns).2.1
        (walkPrevLt key ps c ns).2.2).2.1 ::
      (walkNextGt key (walkPrevLt key ps c ns).1 (walkPrevLt key ps c ns).2.1
        (walkPrevLt key ps c ns).2.2).2.2 = ps.reverse ++ c :: ns ∧
    SeekPost key (walkNextGt key (walkPrevLt key ps c ns).1 (walkPrevLt key ps c ns).2.1
      (walkPrevLt key ps c ns).2.2) := by
  constructor
  · rw [walkNextGt_nodes, walkPrevLt_nodes]
  · exact walkNextGt_stop key _ _ _ (by
      have := walkPrevLt_stop key ps c ns
      tauto)

/-- An exact-match lookup on a sorted list: a present key is found, with the data
of a node that carries it; an absent key is not found. -/
theorem Ordering.get_exact {T : Type} (o : Ordering T) (key : Nat) (hs : KeysSorted o.nodes) :
    ((∃ n ∈ o.nodes, n.key = key) →
      ∃ n ∈ o.nodes, n.key = key ∧ (o.get key .EXACT_MATCH).1 = some n.data) ∧
    ((∀ n ∈ o.nodes, n.key ≠ key) → (o.get key .EXACT_MATCH).1 = none) := by
  unfold Ordering.get
  have hn := Links.resetCurr_nodes o.links
  rcases hr : o.links.resetCurr with l0 | ⟨ps, c, ns⟩
  · obtain ⟨h1, _⟩ := Links.resetCurr_null _ _ hr
    constructor
    · rintro ⟨n, hn1, _⟩
      rw [show o.nodes = [] from h1] at hn1
      simp at hn1
    · intro _
      rfl
  · rw [hr, Links.nodes_atCurr] at hn
    obtain ⟨hw, hp⟩ := exactSearch_spec key ps c ns
    simp only [getSearch]
    generalize walkNextGt key (walkPrevLt key ps c ns).1 (walkPrevLt key ps c ns).2.1
      (walkPrevLt key ps c ns).2.2 = r at hw hp
    obtain ⟨ps2, c2, ns2⟩ := r
    simp only at hw
    have hnodes : o.nodes = ps2.reverse ++ c2 :: ns2 := hn.symm.trans hw.symm
    have hs2 : KeysSorted (ps2.reverse ++ c2 :: ns2) := hnodes ▸ hs
    by_cases hk : key = c2.key
    · simp only [hk, decide_True]
      constructor
      · intro _
        exact ⟨c2, by rw [hnodes]; simp, rfl, rfl⟩
      · intro h
        exact absurd rfl (h c2 (by rw [hnodes]; simp))
    · simp only [hk, decide_False]
      constructor
      · rintro ⟨n, hn1, hn2⟩
        rw [hnodes] at hn1
        exact absurd hn2 (hp.absent hs2 (fun e => hk e.symm) n hn1)
      · intro _
        trivial

/-- An exact-match removal on a sorted list: a present key is found and one node
that carries it is unlinked; an absent key is not found and the nodes stay. -/
theorem Ordering.remove_exact {T : Type} (o : Ordering T) (key : Nat)
    (hs : KeysSorted o.nodes) :
    ((∃ n ∈ o.nodes, n.key = key) →
      (o.remove key .EXACT_MATCH).1 = true ∧
      ∃ l1 n l2, o.nodes = l1 ++ n :: l2 ∧ n.key = key ∧
        (o.remove key .EXACT_MATCH).2.nodes = l1 ++ l2) ∧
    ((∀ n ∈ o.nodes, n.key ≠ key) →
      (o.remove key .EXACT_MATCH).1 = false ∧ (o.remove key .EXACT_MATCH).2.nodes = o.nodes) := by
  unfold Ordering.remove
  have hn := Links.resetCurr_nodes o.links
  rcases hr : o.links.resetCurr with l0 | ⟨ps, c, ns⟩
  · obtain ⟨h1, h2⟩ := Links.resetCurr_null _ _ hr
    constructor
    · rintro ⟨n, hn1, _⟩
      rw [show o.nodes = [] from h1] at hn1
      simp at hn1
    · intro _
      refine ⟨rfl, ?_⟩
      rw [show o.nodes = [] from h1, h2]
      rfl
  · rw [hr, Links.nodes_atCurr] at hn
    obtain ⟨hw, hp⟩ := exactSearch_spec key ps c ns
    simp only [removeSearch]
    generalize walkNextGt key (walkPrevLt key ps c ns).1 (walkPrevLt key ps c ns).2.1
      (walkPrevLt key ps c ns).2.2 = r at hw hp
    obtain ⟨ps2, c2, ns2⟩ := r
    simp only at hw
    have hnodes : o.nodes = ps2.reverse ++ c2 :: ns2 := hn.symm.trans hw.symm
    have hs2 : KeysSorted (ps2.reverse ++ c2 :: ns2) := hnodes ▸ hs
    by_cases hk : key = c2.key
    · simp only [hk, decide_True]
      constructor
      · intro _
        refine ⟨trivial, ps2.reverse, c2, ns2, hnodes, rfl, ?_⟩
        show (unlinkCurr ps2 ns2).nodes = _
        exact unlinkCurr_nodes ps2 ns2
      · intro h
        exact absurd rfl (h c2 (by rw [hnodes]; simp))
    · simp only [hk, decide_False]
      constructor
      · rintro ⟨n, hn1, hn2⟩
        rw [hnodes] at hn1
        exact absurd hn2 (hp.absent hs2 (fun e => hk e.symm) n hn1)
      · intro _
        exact ⟨trivial, hnodes.symm⟩

/-- A list splits in one way only around its single element with a property. -/
theorem append_cons_unique {α : Type} (P : α → Prop) :
    ∀ (l1 m1 : List α) (a b : α) (l2 m2 : List α), l1 ++ a :: l2 = m1 ++ b :: m2 →
      P a → P b → (∀ x ∈ l1, ¬ P x) → (∀ x ∈ l2, ¬ P x) → l1 = m1 ∧ a = b ∧ l2 = m2
  | [], [], a, b, l2, m2, h, _, _, _, _ => by
    simp only [List.nil_append, List.cons.injEq] at h
    exact ⟨rfl, h.1, h.2⟩
  | [], y :: m1, a, b, l2, m2, h, _, hb, _, h2 => by
    simp only [List.nil_append, List.cons_append, List.cons.injEq] at h
    exact absurd hb (h2 b (by rw [h.2]; simp))
  | x :: l1, [], a, b, l2, m2, h, _, hb, h1, _ => by
    simp only [List.nil_append, List.cons_append, List.cons.injEq] at h
    exact absurd (h.1 ▸ hb) (h1 x (List.mem_cons_self _ _))
  | x :: l1, y :: m1, a, b, l2, m2, h, ha, hb, h1, h2 => by
    simp only [List.cons_append, List.cons.injEq] at h
    obtain ⟨e1, e2, e3⟩ := append_cons_unique P l1 m1 a b l2 m2 h.2 ha hb
      (fun z hz => h1 z (List.mem_cons_of_mem _ hz)) h2
    exact ⟨by rw [h.1, e1], e2, e3⟩

/-- On a sorted unbounded ordering that does not hold the key `k`: `add` links a
node, `get` then returns its data, `remove` then unlinks it again, after which
`get` fails; and `remove` of the absent key changes nothing. -/
theorem Ordering.add_get_remove_sorted {T : Type} (o : Ordering T) (k : Nat) (d : T)
    (unique : Bool) (hm : o.maxListSize = INFINITE_LIST_SIZE) (hs : KeysSorted o.nodes)
    (hk : ∀ n ∈ o.nodes, n.key ≠ k) :
    (o.add k d unique).1 = true ∧
    (o.add k d unique).2.length = o.length + 1 ∧
    ((o.add k d unique).2.get k .EXACT_MATCH).1 = some d ∧
    ((o.add k d unique).2.remove k .EXACT_MATCH).1 = true ∧
    ((o.add k d unique).2.remove k .EXACT_MATCH).2.nodes = o.nodes ∧
    ((((o.add k d unique).2.get k .EXACT_MATCH).2).remove k .EXACT_MATCH).1 = true ∧
    ((((o.add k d unique).2.get k .EXACT_MATCH).2).remove k .EXACT_MATCH).2.nodes = o.nodes ∧
    ((((((o.add k d unique).2.get k .EXACT_MATCH).2).remove k .EXACT_MATCH).2).get k
      .EXACT_MATCH).1 = none ∧
    (o.remove k .EXACT_MATCH).1 = false ∧
    (o.remove k .EXACT_MATCH).2.nodes = o.nodes := by
  obtain ⟨_, hadd⟩ := Ordering.addNode_nodes o k d unique hs
  rcases hadd with ⟨_, _, n, hn1, hn2⟩ | ⟨hret, l1, l2, hl, hs1, _, hnodes⟩
  · exact absurd hn2 (hk n hn1)
  have hnodes1 : (o.add k d unique).2.nodes = l1 ++ ⟨k, d⟩ :: l2 := hnodes hm
  have hs1' : KeysSorted (o.add k d unique).2.nodes := by
    rw [hnodes1]
    exact hs1
  have hk1 : ∀ x ∈ l1, ¬ x.key = k := fun x hx => hk x (by rw [hl]; simp [hx])
  have hk2 : ∀ x ∈ l2, ¬ x.key = k := fun x hx => hk x (by rw [hl]; simp [hx])
  have hpres : ∃ n ∈ (o.add k d unique).2.nodes, n.key = k :=
    ⟨⟨k, d⟩, by rw [hnodes1]; simp, rfl⟩
  -- removal from any ordering with the nodes of the ordering after `add`
  have hrem : ∀ o1 : Ordering T, o1.nodes = l1 ++ ⟨k, d⟩ :: l2 →
      (o1.remove k .EXACT_MATCH).1 = true ∧ (o1.remove k .EXACT_MATCH).2.nodes = o.nodes := by
    intro o1 h1
    have hso : KeysSorted o1.nodes := by
      rw [h1]
      exact hs1
    obtain ⟨hr1, m1, n, m2, hm1, hnk, hr2⟩ :=
      (Ordering.remove_exact o1 k hso).1 ⟨⟨k, d⟩, by rw [h1]; simp, rfl⟩
    rw [h1] at hm1
    obtain ⟨e1, _, e3⟩ := append_cons_unique (fun x : sorted_node_t T => x.key = k)
      l1 m1 ⟨k, d⟩ n l2 m2 hm1 rfl hnk hk1 hk2
    exact ⟨hr1, by rw [hr2, hl, e1, e3]⟩
  have hget : ((o.add k d unique).2.get k .EXACT_MATCH).1 = some d := by
    obtain ⟨n, hn1, hn2, hn3⟩ := (Ordering.get_exact (o.add k d unique).2 k hs1').1 hpres
    rw [hnodes1] at hn1
    obtain ⟨m1, m2, hm⟩ := List.append_of_mem hn1
    obtain ⟨_, e2, _⟩ := append_cons_unique (fun x : sorted_node_t T => x.key = k)
      l1 m1 ⟨k, d⟩ n l2 m2 hm rfl hn2 hk1 hk2
    rw [hn3, ← e2]
  have hgn : ((o.add k d unique).2.get k .EXACT_MATCH).2.nodes = l1 ++ ⟨k, d⟩ :: l2 := by
    rw [((o.add k d unique).2.get_nodes k .EXACT_MATCH).2, hnodes1]
  have h2 := hrem ((o.add k d unique).2.get k .EXACT_MATCH).2 hgn
  have h1 := hrem (o.add k d unique).2 hnodes1
  refine ⟨hret, ?_, hget, h1.1, h1.2, h2.1, h2.2, ?_, ?_⟩
  · show (o.add k d unique).2.nodes.length = o.nodes.length + 1
    rw [hnodes1, hl]
    simp
    omega
  · apply (Ordering.get_exact _ k (by rw [h2.2]; exact hs)).2
    rw [h2.2]
    exact hk
  · exact (Ordering.remove_exact o k hs).2 hk

/-- C20: for every unbounded ordering, as reached from the empty ordering by any
sequence of calls, and every key `k` not present in it: `add(k, d)` returns true
and increases `length()` by one, after which `get(k)` returns `d`; a following
`remove(k)` returns true and restores `length()` and the previous sequence of keys
and data, after which `get(k)` throws `out_of_range`; and `remove` of the absent
key returns false and leaves the sequence unchanged. -/
theorem ordering_add_get_remove {T : Type} (INVALID_KEY : Nat) (cs : List (OrderingCall T))
    (k : Nat) (d : T) (unique : Bool)
    (hk : ∀ n ∈ (Ordering.calls INVALID_KEY Ordering.new cs).nodes, n.key ≠ k) :
    ((Ordering.calls INVALID_KEY Ordering.new cs).add k d unique).1 = true ∧
    ((Ordering.calls INVALID_KEY Ordering.new cs).add k d unique).2.length =
      (Ordering.calls INVALID_KEY Ordering.new cs).length + 1 ∧
    (((Ordering.calls INVALID_KEY Ordering.new cs).add k d unique).2.get k .EXACT_MATCH).1 =
      some d ∧
    (((((Ordering.calls INVALID_KEY Ordering.new cs).add k d unique).2.get k
      .EXACT_MATCH).2).remove k .EXACT_MATCH).1 = true ∧
    (((((Ordering.calls INVALID_KEY Ordering.new cs).add k d unique).2.get k
      .EXACT_MATCH).2).remove k .EXACT_MATCH).2.length =
      (Ordering.calls INVALID_KEY Ordering.new cs).length ∧
    (((((Ordering.calls INVALID_KEY Ordering.new cs).add k d unique).2.get k
      .EXACT_MATCH).2).remove k .EXACT_MATCH).2.nodes =
      (Ordering.calls INVALID_KEY Ordering.new cs).nodes ∧
    (((((((Ordering.calls INVALID_KEY Ordering.new cs).add k d unique).2.get k
      .EXACT_MATCH).2).remove k .EXACT_MATCH).2).get k .EXACT_MATCH).1 = none ∧
    ((Ordering.calls INVALID_KEY Ordering.new cs).remove k .EXACT_MATCH).1 = false ∧
    ((Ordering.calls INVALID_KEY Ordering.new cs).remove k .EXACT_MATCH).2.nodes =
      (Ordering.calls INVALID_KEY Ordering.new cs).nodes := by
  obtain ⟨hs, hm⟩ := Ordering.calls_sorted INVALID_KEY cs (Ordering.new : Ordering T)
    (by unfold KeysSorted; exact List.Pairwise.nil)
  obtain ⟨h1, h2, h3, _, _, h6, h7, h8, h9, h10⟩ :=
    Ordering.add_get_remove_sorted _ k d unique hm hs hk
  refine ⟨h1, h2, h3, h6, ?_, h7, h8, h9, h10⟩
  show (((((Ordering.calls INVALID_KEY Ordering.new cs).add k d unique).2.get k
      .EXACT_MATCH).2).remove k .EXACT_MATCH).2.nodes.length = _
  rw [h7]
  rfl

/-- C20, witness: the ordering with keys 1, 1, 3 (data 11, 10, 30) and the absent
key 2. -/
theorem ordering_add_get_remove_witness :
    (((Ordering.calls 0 Ordering.new
        [.add 1 10 false, .add 3 30 false, .add 1 11 false]).add 2 20 false).2.get 2
      .EXACT_MATCH).1 = some 20 ∧
    (((((Ordering.calls 0 Ordering.new
        [.add 1 10 false, .add 3 30 false, .add 1 11 false]).add 2 20 false).2.get 2
      .EXACT_MATCH).2).remove 2 .EXACT_MATCH).2.nodes =
      (Ordering.calls 0 Ordering.new
        [OrderingCall.add 1 10 false, .add 3 30 false, .add 1 11 false]).nodes :=
  ⟨(ordering_add_get_remove 0 [.add 1 10 false, .add 3 30 false, .add 1 11 false] 2 20 false
      (by decide)).2.2.1,
   (ordering_add_get_remove 0 [.add 1 10 false, .add 3 30 false, .add 1 11 false] 2 20 false
      (by decide)).2.2.2.2.2.1⟩

/-! ## Ordering: unique add, assignment, reverse step -/

/-- C21: when the cursor stands on a node with key `k` whose predecessor has a
smaller key, `add(k, d, unique = true)` on an unbounded ordering walks back past
the node, compares `k` with the key of the predecessor only, returns true and
links a second node with key `k`. -/
theorem add_unique_duplicate {T : Type} (p c : sorted_node_t T)
    (ps0 ns : List (sorted_node_t T)) (d : T) (hp : p.key < c.key) :
    (Ordering.add ⟨.atCurr (p :: ps0) c ns, INFINITE_LIST_SIZE⟩ c.key d true).1 = true ∧
    (Ordering.add ⟨.atCurr (p :: ps0) c ns, INFINITE_LIST_SIZE⟩ c.key d true).2.nodes =
      ps0.reverse ++ p :: ⟨c.key, d⟩ :: c :: ns := by
  have hw : walkPrevLe c.key (p :: ps0) c ns = (ps0, p, c :: ns) := by
    unfold walkPrevLe
    rw [if_pos (Nat.le_refl _)]
    cases ps0 with
    | nil => rfl
    | cons q qs =>
      unfold walkPrevLe
      rw [if_neg (by omega)]
  have hne : ¬ (True ∧ p.key = c.key) := by
    intro h
    omega
  have hle : ¬ c.key ≤ p.key := by omega
  unfold Ordering.add Ordering.addNode
  simp only [Links.resetCurr, Nat.le_refl, if_true, hw, hne, if_false, hle,
    dropFirstNodes_infinite, Ordering.nodes, Links.nodes_atCurr]
  simp

/-- C21, witness: the ordering built by `add(5, unique)`, `add(1, unique)` has
its cursor on the node with key 5; a further `add(5, unique)` returns true, and
the ordering built by the three unique adds holds the keys 1, 5, 5. -/
theorem add_unique_duplicate_witness :
    Ordering.calls 0 Ordering.new [OrderingCall.add 5 50 true, .add 1 10 true] =
      ⟨.atCurr [⟨1, 10⟩] ⟨5, 50⟩ [], INFINITE_LIST_SIZE⟩ ∧
    (Ordering.add (⟨.atCurr [⟨1, 10⟩] ⟨5, 50⟩ [], INFINITE_LIST_SIZE⟩ : Ordering Nat)
      5 51 true).1 = true ∧
    (Ordering.add (⟨.atCurr [⟨1, 10⟩] ⟨5, 50⟩ [], INFINITE_LIST_SIZE⟩ : Ordering Nat)
      5 51 true).2.nodes = [⟨1, 10⟩, ⟨5, 51⟩, ⟨5, 50⟩] ∧
    (Ordering.calls 0 Ordering.new
      [OrderingCall.add 5 50 true, .add 1 10 true, .add 5 51 true]).nodes.map
        (fun n => n.key) = [1, 5, 5] :=
  ⟨by decide,
   (add_unique_duplicate ⟨1, 10⟩ ⟨5, 50⟩ [] [] 51 (by decide)).1,
   (add_unique_duplicate ⟨1, 10⟩ ⟨5, 50⟩ [] [] 51 (by decide)).2,
   by decide⟩

/-- C22: the assignment `a = b` leaves `a` empty, with the bound of `b`, whatever
`b` holds: `operator=` clears `a` and then iterates over `a` itself.  The length
of `a` is then 0 and its traversal returns `INVALID_KEY` at once. -/
theorem ordering_assign_empty {T : Type} (INVALID_KEY : Nat) (fuel : Nat) (data0 : T)
    (a b : Ordering T) :
    Ordering.assign INVALID_KEY fuel data0 a b = some ⟨.nullCurr [], b.maxListSize⟩ ∧
    (Ordering.assign INVALID_KEY fuel data0 a b).map Ordering.length = some 0 ∧
    (Ordering.assign INVALID_KEY fuel data0 a b).map (Ordering.traverse INVALID_KEY) =
      some [(INVALID_KEY, none)] := by
  have h : Ordering.assign INVALID_KEY fuel data0 a b = some ⟨.nullCurr [], b.maxListSize⟩ := by
    unfold Ordering.assign Ordering.clear Ordering.first
    simp only [Ordering.nodes, Links.nodes_nullCurr]
    cases fuel with
    | zero => simp [assignLoop]
    | succ f => simp [assignLoop]
  rw [h]
  exact ⟨rfl, rfl, rfl⟩

/-- C26: `prev` does what `next` does, and after `last()` a call of `prev()`
returns `INVALID_KEY`, writes no data and leaves the cursor at `NULL`. -/
theorem ordering_prev_is_next {T : Type} (INVALID_KEY : Nat) (o : Ordering T) :
    o.prev INVALID_KEY = o.next INVALID_KEY ∧
    ((o.last INVALID_KEY).2.2.prev INVALID_KEY).1 = INVALID_KEY ∧
    ((o.last INVALID_KEY).2.2.prev INVALID_KEY).2.1 = none ∧
    ((o.last INVALID_KEY).2.2.prev INVALID_KEY).2.2.links = .nullCurr o.nodes := by
  refine ⟨rfl, ?_⟩
  unfold Ordering.last
  rcases h : o.nodes.reverse with _ | ⟨c, ps⟩
  · have h2 : o.nodes = [] := by simpa using h
    rw [h2]
    exact ⟨rfl, rfl, rfl⟩
  · have h2 := congrArg List.reverse h
    rw [List.reverse_reverse] at h2
    rw [h2]
    refine ⟨rfl, rfl, ?_⟩
    simp [Ordering.prev]

/-! ## Ordering: get with GREATER_THAN and LESS_THAN -/

/-- Where the forward loop stops: on a node whose key is not below the searched
key, or on the last node. -/
theorem walkNextGt_stop_ge {T : Type} (key : Nat) :
    ∀ (ns : List (sorted_node_t T)) (ps : List (sorted_node_t T)) (c : sorted_node_t T),
      key ≤ (walkNextGt key ps c ns).2.1.key ∨ (walkNextGt key ps c ns).2.2 = []
  | [], _, _ => Or.inr rfl
  | n :: ns, ps, c => by
    unfold walkNextGt
    split
    · exact walkNextGt_stop_ge key ns (c :: ps) n
    · rename_i h
      exact Or.inl (Nat.le_of_not_lt h)

theorem walkPrevLt_stop_rev {T : Type} (key : Nat) :
    ∀ (ps : List (sorted_node_t T)) (c : sorted_node_t T) (ns : List (sorted_node_t T)),
      (key ≤ c.key ∨ ns = [] ∨ ∃ n ns0, ns = n :: ns0 ∧ key < n.key) →
      SeekPostRev key (walkPrevLt key ps c ns)
  | [], c, ns, hq => by
    unfold walkPrevLt
    unfold SeekPostRev
    rcases Nat.lt_trichotomy c.key key with h | h | h
    · refine Or.inr (Or.inr ⟨h, ?_⟩)
      rcases hq with h1 | h1
      · omega
      · exact h1
    · exact Or.inl h
    · exact Or.inr (Or.inl ⟨h, rfl⟩)
  | p :: ps, c, ns, hq => by
    unfold walkPrevLt
    split
    · rename_i h
      exact walkPrevLt_stop_rev key ps p (c :: ns) (Or.inr (Or.inr ⟨c, ns, rfl, h⟩))
    · rename_i h
      unfold SeekPostRev
      rcases Nat.lt_trichotomy c.key key with h2 | h2 | h2
      · refine Or.inr (Or.inr ⟨h2, ?_⟩)
        rcases hq with h1 | h1
        · omega
        · exact h1
      · exact Or.inl h2
      · exact absurd h2 h

/-- The two loops of the search that walks forward first keep the nodes and end
in a position that satisfies `SeekPostRev`. -/
theorem reverseSearch_spec {T : Type} (key : Nat) (ps : List (sorted_node_t T))
    (c : sorted_node_t T) (ns : List (sorted_node_t T)) :
    (walkPrevLt key (walkNextGt key ps c ns).1 (walkNextGt key ps c ns).2.1
        (walkNextGt key ps c ns).2.2).1.reverse ++
      (walkPrevLt key (walkNextGt key ps c ns).1 (walkNextGt key ps c ns).2.1
        (walkNextGt key ps c ns).2.2).2.1 ::
      (walkPrevLt key (walkNextGt key ps c ns).1 (walkNextGt key ps c ns).2.1
        (walkNextGt key ps c ns).2.2).2.2 = ps.reverse ++ c :: ns ∧
    SeekPostRev key (walkPrevLt key (walkNextGt key ps c ns).1 (walkNextGt key ps c ns).2.1
      (walkNextGt key ps c ns).2.2) := by
  constructor
  · rw [walkPrevLt_nodes, walkNextGt_nodes]
  · exact walkPrevLt_stop_rev key _ _ _ (by
      have := walkNextGt_stop_ge key ns ps c
      tauto)

/-- On a sorted list, a position reached by the search that walks forward first
and that does not carry the key shows that no node carries it. -/
theorem SeekPostRev.not_found {T : Type} {key : Nat} {ps : List (sorted_node_t T)}
    {c : sorted_node_t T} {ns : List (sorted_node_t T)} (hp : SeekPostRev key (ps, c, ns))
    (hs : KeysSorted (ps.reverse ++ c :: ns)) (hk : c.key ≠ key) :
    ∀ n ∈ ps.reverse ++ c :: ns, n.key ≠ key := by
  unfold KeysSorted at hs
  rw [List.pairwise_append] at hs
  obtain ⟨hps, hcns, hcross⟩ := hs
  rw [List.pairwise_cons] at hcns
  intro n hn
  unfold SeekPostRev at hp
  simp only at hp
  rw [List.mem_append, List.mem_cons] at hn
  rcases hp with h | ⟨h, h0⟩ | ⟨h, h0⟩
  · exact absurd h hk
  · subst h0
    rcases hn with h3 | h3 | h3
    · simp at h3
    · subst h3; omega
    · have := hcns.1 n h3
      omega
  · rcases hn with h3 | h3 | h3
    · have := hcross n h3 c (List.mem_cons_self _ _)
      omega
    · subst h3; omega
    · rcases h0 with h0 | ⟨m, ns0, h0, hm⟩
      · subst h0; simp at h3
      · subst h0
        rw [List.mem_cons] at h3
        rcases h3 with h3 | h3
        · subst h3; omega
        · rw [List.pairwise_cons] at hcns
          have := hcns.2.1 n h3
          omega

theorem find?_skip {α : Type} (p : α → Bool) (l1 l2 : List α) (h : ∀ x ∈ l1, p x = false) :
    (l1 ++ l2).find? p = l2.find? p := by
  induction l1 with
  | nil => rfl
  | cons a l ih =>
    rw [List.cons_append, List.find?_cons, h a (List.mem_cons_self _ _)]
    exact ih (fun x hx => h x (List.mem_cons_of_mem _ hx))

/-- The lookup `get(k, GREATER_THAN)` on a sorted list: when a node carries `k`
nothing is found, whatever nodes follow; when no node carries `k` the data of
the first node with a key above `k` is returned, if there is one. -/
theorem Ordering.get_greater_than {T : Type} (o : Ordering T) (k : Nat)
    (hs : KeysSorted o.nodes) :
    ((∃ n ∈ o.nodes, n.key = k) → (o.get k .GREATER_THAN).1 = none) ∧
    ((∀ n ∈ o.nodes, n.key ≠ k) →
      (o.get k .GREATER_THAN).1 =
        (o.nodes.find? (fun n => decide (k < n.key))).map (fun n => n.data)) := by
  unfold Ordering.get
  have hn := Links.resetCurr_nodes o.links
  rcases hr : o.links.resetCurr with l0 | ⟨ps, c, ns⟩
  · obtain ⟨h1, _⟩ := Links.resetCurr_null _ _ hr
    have h2 : o.nodes = [] := h1
    constructor
    · intro _
      rfl
    · intro _
      rw [h2]
      rfl
  · rw [hr, Links.nodes_atCurr] at hn
    obtain ⟨hw, hp⟩ := exactSearch_spec k ps c ns
    simp only [getSearch]
    generalize walkNextGt k (walkPrevLt k ps c ns).1 (walkPrevLt k ps c ns).2.1
      (walkPrevLt k ps c ns).2.2 = r at hw hp
    obtain ⟨ps2, c2, ns2⟩ := r
    simp only at hw
    have hnodes : o.nodes = ps2.reverse ++ c2 :: ns2 := hn.symm.trans hw.symm
    have hs2 : KeysSorted (ps2.reverse ++ c2 :: ns2) := hnodes ▸ hs
    constructor
    · rintro ⟨n, hn1, hn2⟩
      have hc : c2.key = k := by
        by_contra hne
        rw [hnodes] at hn1
        exact hp.absent hs2 hne n hn1 hn2
      have hlt : ¬ k < c2.key := by omega
      simp only [hlt, decide_False]
    · intro habs
      have hc : c2.key ≠ k := habs c2 (by rw [hnodes]; simp)
      have hs3 := hs2
      unfold KeysSorted at hs3
      rw [List.pairwise_append] at hs3
      obtain ⟨hps, hcns, hcross⟩ := hs3
      rw [hnodes]
      unfold SeekPost at hp
      simp only at hp
      rcases hp with h | ⟨h, h0⟩ | ⟨h, h0⟩
      · exact absurd h hc
      · have hlt : ¬ k < c2.key := by omega
        simp only [hlt, decide_False]
        subst h0
        symm
        rw [Option.map_eq_none', List.find?_eq_none]
        intro x hx
        rw [List.mem_append, List.mem_singleton] at hx
        rcases hx with hx | hx
        · have := hcross x hx c2 (List.mem_cons_self _ _)
          simp only [decide_eq_true_eq]
          omega
        · subst hx
          simp only [decide_eq_true_eq]
          omega
      · simp only [h, decide_True]
        rw [find?_skip, List.find?_cons]
        · simp [h]
        · intro x hx
          rw [List.mem_reverse] at hx
          rcases h0 with h0 | ⟨p, ps0, h0, hp0⟩
          · subst h0; simp at hx
          · subst h0
            rw [List.mem_cons] at hx
            rw [decide_eq_false_iff_not]
            rcases hx with hx | hx
            · subst hx; omega
            · rw [List.reverse_cons, List.pairwise_append] at hps
              have := hps.2.2 x (List.mem_reverse.mpr hx) p (List.mem_singleton_self _)
              omega

/-- The lookup `get(k, LESS_THAN)` on a sorted list: when a node carries `k`
nothing is found, whatever nodes precede; when no node carries `k` the data of
the last node with a key below `k` is returned, if there is one. -/
theorem Ordering.get_less_than {T : Type} (o : Ordering T) (k : Nat)
    (hs : KeysSorted o.nodes) :
    ((∃ n ∈ o.nodes, n.key = k) → (o.get k .LESS_THAN).1 = none) ∧
    ((∀ n ∈ o.nodes, n.key ≠ k) →
      (o.get k .LESS_THAN).1 =
        (o.nodes.reverse.find? (fun n => decide (n.key < k))).map (fun n => n.data)) := by
  unfold Ordering.get
  have hn := Links.resetCurr_nodes o.links
  rcases hr : o.links.resetCurr with l0 | ⟨ps, c, ns⟩
  · obtain ⟨h1, _⟩ := Links.resetCurr_null _ _ hr
    have h2 : o.nodes = [] := h1
    constructor
    · intro _
      rfl
    · intro _
      rw [h2]
      rfl
  · rw [hr, Links.nodes_atCurr] at hn
    obtain ⟨hw, hp⟩ := reverseSearch_spec k ps c ns
    simp only [getSearch]
    generalize walkPrevLt k (walkNextGt k ps c ns).1 (walkNextGt k ps c ns).2.1
      (walkNextGt k ps c ns).2.2 = r at hw hp
    obtain ⟨ps2, c2, ns2⟩ := r
    simp only at hw
    have hnodes : o.nodes = ps2.reverse ++ c2 :: ns2 := hn.symm.trans hw.symm
    have hs2 : KeysSorted (ps2.reverse ++ c2 :: ns2) := hnodes ▸ hs
    constructor
    · rintro ⟨n, hn1, hn2⟩
      have hc : c2.key = k := by
        by_contra hne
        rw [hnodes] at hn1
        exact hp.not_found hs2 hne n hn1 hn2
      have hlt : ¬ k > c2.key := by omega
      simp only [hlt, decide_False]
    · intro habs
      have hc : c2.key ≠ k := habs c2 (by rw [hnodes]; simp)
      have hs3 := hs2
      unfold KeysSorted at hs3
      rw [List.pairwise_append] at hs3
      obtain ⟨hps, hcns, hcross⟩ := hs3
      rw [List.pairwise_cons] at hcns
      rw [hnodes]
      have hrev : (ps2.reverse ++ c2 :: ns2).reverse = ns2.reverse ++ c2 :: ps2 := by simp
      rw [hrev]
      unfold SeekPostRev at hp
      simp only at hp
      rcases hp with h | ⟨h, h0⟩ | ⟨h, h0⟩
      · exact absurd h hc
      · have hlt : ¬ k > c2.key := by omega
        simp only [hlt, decide_False]
        subst h0
        symm
        rw [Option.map_eq_none', List.find?_eq_none]
        intro x hx
        rw [List.mem_append, List.mem_singleton, List.mem_reverse] at hx
        rcases hx with hx | hx
        · have := hcns.1 x hx
          simp only [decide_eq_true_eq]
          omega
        · subst hx
          simp only [decide_eq_true_eq]
          omega
      · have hgt : k > c2.key := h
        simp only [hgt, decide_True]
        rw [find?_skip, List.find?_cons]
        · simp [h]
        · intro x hx
          rw [List.mem_reverse] at hx
          rcases h0 with h0 | ⟨m, ns0, h0, hm0⟩
          · subst h0; simp at hx
          · subst h0
            rw [List.mem_cons] at hx
            rw [decide_eq_false_iff_not]
            rcases hx with hx | hx
            · subst hx; omega
            · rw [List.pairwise_cons] at hcns
              have := hcns.2.1 x hx
              omega

/-- C27: on every sorted ordering that holds a node with key `k`, whatever the
cursor and whatever other nodes there are, `get(k, GREATER_THAN)` and
`get(k, LESS_THAN)` throw `out_of_range`; when no node carries `k` they return
the data of the first node above `k` and of the last node below `k`, and throw
when there is no such node. -/
theorem ordering_get_strict {T : Type} (o : Ordering T) (k : Nat) (hs : KeysSorted o.nodes) :
    ((∃ n ∈ o.nodes, n.key = k) →
      (o.get k .GREATER_THAN).1 = none ∧ (o.get k .LESS_THAN).1 = none) ∧
    ((∀ n ∈ o.nodes, n.key ≠ k) →
      (o.get k .GREATER_THAN).1 =
        (o.nodes.find? (fun n => decide (k < n.key))).map (fun n => n.data) ∧
      (o.get k .LESS_THAN).1 =
        (o.nodes.reverse.find? (fun n => decide (n.key < k))).map (fun n => n.data)) :=
  ⟨fun h => ⟨(o.get_greater_than k hs).1 h, (o.get_less_than k hs).1 h⟩,
   fun h => ⟨(o.get_greater_than k hs).2 h, (o.get_less_than k hs).2 h⟩⟩

/-- C27, witness: in the ordering with keys 1, 5, 9 the lookups
`get(5, GREATER_THAN)` and `get(5, LESS_THAN)` throw, although the nodes with keys
9 and 1 exist. -/
theorem ordering_get_strict_witness :
    (Ordering.calls 0 Ordering.new
      [OrderingCall.add 1 10 false, .add 5 50 false, .add 9 90 false]).nodes.map
        (fun n => n.key) = [1, 5, 9] ∧
    ((Ordering.calls 0 Ordering.new
      [OrderingCall.add 1 10 false, .add 5 50 false, .add 9 90 false]).get 5
        .GREATER_THAN).1 = none ∧
    ((Ordering.calls 0 Ordering.new
      [OrderingCall.add 1 10 false, .add 5 50 false, .add 9 90 false]).get 5
        .LESS_THAN).1 = none :=
  ⟨by decide,
   (ordering_get_strict (Ordering.calls 0 Ordering.new
      [OrderingCall.add 1 10 false, .add 5 50 false, .add 9 90 false]) 5
      (by unfold KeysSorted; decide)).1 (by decide)⟩

/-! ## PgcDemStripsRaster: index file of a geocell -/

theorem wrap32_of_range (x : Int) (h1 : -(2 ^ 31) ≤ x) (h2 : x < 2 ^ 31) : wrap32 x = x := by
  unfold wrap32
  omega

theorem abs32_of_range (x : Int) (h1 : -(2 ^ 31) < x) (h2 : x < 2 ^ 31) :
    abs32 x = (x.natAbs : Int) := by
  unfold abs32
  split
  · rw [wrap32_of_range _ (by omega) (by omega)]
    omega
  · rw [wrap32_of_range _ (by omega) (by omega)]
    omega

theorem sprintf0d_natAbs (width : Nat) (n : Nat) : sprintf0d width (n : Int) = zeroPadded width n := by
  unfold sprintf0d zeroPadded
  rw [if_neg (by omega)]
  rfl

set_option maxRecDepth 1000000 in
theorem zeroPadded_three_length : ∀ n < 1000, (zeroPadded 3 n).length = 3 := by
  decide

set_option maxRecDepth 1000000 in
theorem zeroPadded_two_length : ∀ n < 100, (zeroPadded 2 n).length = 2 := by
  decide

/-- C23: for every point whose floored coordinates are in the range of `int`,
`getIndexFile` yields `path2geocells` followed by `|floor(lat)|` zero-padded to
two digits, `w` if `floor(lon) < 0` and `e` otherwise, `|floor(lon)|` zero-padded
to three digits, and `.geojson`; the two numbers take exactly two and three
characters for `|floor(lat)| < 100` and `|floor(lon)| < 1000`. -/
theorem getIndexFile_geocell (path2geocells : String) (lon lat : double)
    (hlon1 : -(2 ^ 31) < ⌊lon⌋) (hlon2 : ⌊lon⌋ < 2 ^ 31)
    (hlat1 : -(2 ^ 31) < ⌊lat⌋) (hlat2 : ⌊lat⌋ < 2 ^ 31) :
    getIndexFile path2geocells lon lat = geocellFile path2geocells lon lat ∧
    (⌊lat⌋.natAbs < 100 → (zeroPadded 2 ⌊lat⌋.natAbs).length = 2) ∧
    (⌊lon⌋.natAbs < 1000 → (zeroPadded 3 ⌊lon⌋.natAbs).length = 3) := by
  refine ⟨?_, zeroPadded_two_length _, zeroPadded_three_length _⟩
  unfold getIndexFile geocellFile floorToInt
  simp only
  rw [wrap32_of_range _ (by omega) hlon2, wrap32_of_range _ (by omega) hlat2,
    abs32_of_range _ hlon1 hlon2, abs32_of_range _ hlat1 hlat2, sprintf0d_natAbs,
    sprintf0d_natAbs]

theorem geocellFile_of_floor (path2geocells : String) (lon lat : double) (a b : Int)
    (ha : ⌊lon⌋ = a) (hb : ⌊lat⌋ = b) :
    geocellFile path2geocells lon lat =
      path2geocells ++ zeroPadded 2 b.natAbs ++ (if a < 0 then "w" else "e") ++
        zeroPadded 3 a.natAbs ++ ".geojson" := by
  unfold geocellFile
  rw [ha, hb]

/-- C23, witness: the four examples of the source comment: (lat 61, lon -120.3),
(61, -50.8), (61, -5) and (61, 5). -/
theorem getIndexFile_geocell_witness :
    getIndexFile "/pgc/n" (-120.3) 61 = "/pgc/n61w121.geojson" ∧
    getIndexFile "/pgc/n" (-50.8) 61 = "/pgc/n61w051.geojson" ∧
    getIndexFile "/pgc/n" (-5) 61 = "/pgc/n61w005.geojson" ∧
    getIndexFile "/pgc/n" 5 61 = "/pgc/n61e005.geojson" := by
  have f1 : ⌊(-120.3 : ℚ)⌋ = -121 := by rw [Int.floor_eq_iff]; norm_num
  have f2 : ⌊(-50.8 : ℚ)⌋ = -51 := by rw [Int.floor_eq_iff]; norm_num
  have f3 : ⌊(-5 : ℚ)⌋ = -5 := by rw [Int.floor_eq_iff]; norm_num
  have f4 : ⌊(5 : ℚ)⌋ = 5 := by rw [Int.floor_eq_iff]; norm_num
  have f5 : ⌊(61 : ℚ)⌋ = 61 := by rw [Int.floor_eq_iff]; norm_num
  refine ⟨?_, ?_, ?_, ?_⟩
  · rw [(getIndexFile_geocell "/pgc/n" (-120.3) 61 (by rw [f1]; decide) (by rw [f1]; decide)
      (by rw [f5]; decide) (by rw [f5]; decide)).1, geocellFile_of_floor _ _ _ _ _ f1 f5]
    decide
  · rw [(getIndexFile_geocell "/pgc/n" (-50.8) 61 (by rw [f2]; decide) (by rw [f2]; decide)
      (by rw [f5]; decide) (by rw [f5]; decide)).1, geocellFile_of_floor _ _ _ _ _ f2 f5]
    decide
  · rw [(getIndexFile_geocell "/pgc/n" (-5) 61 (by rw [f3]; decide) (by rw [f3]; decide)
      (by rw [f5]; decide) (by rw [f5]; decide)).1, geocellFile_of_floor _ _ _ _ _ f3 f5]
    decide
  · rw [(getIndexFile_geocell "/pgc/n" 5 61 (by rw [f4]; decide) (by rw [f4]; decide)
      (by rw [f5]; decide) (by rw [f5]; decide)).1, geocellFile_of_floor _ _ _ _ _ f4 f5]
    decide

/-! ## Refraction corrector: pixel coordinates in the mask -/

/-- The value of `ri_water` with a loaded mask is the pixel at the coordinates
of `waterRiMaskPixel`. -/
theorem waterRI_eq_getPixel {F : Type} (ops : DoubleOps F) (parms : RefractionFields F)
    (mask : TIFFImage F) (ph : Photon F) :
    waterRI ops parms (some mask) ph =
      mask.getPixel (waterRiMaskPixel ops mask ph).1 (waterRiMaskPixel ops mask ph).2 := rfl

/-- The conversion to `uint32_t` of a non-negative value below `2^32` is its
floor. -/
theorem doubleToU32_of_nonneg (v : ℚ) (h0 : 0 ≤ v) (h1 : v < 2 ^ 32) :
    doubleToU32 v = ⌊v⌋.toNat := by
  unfold doubleToU32
  have hnum : 0 ≤ v.num := Rat.num_nonneg.mpr h0
  rw [Int.tdiv_eq_ediv hnum (by positivity), ← Rat.floor_def]
  have hf0 : 0 ≤ ⌊v⌋ := Int.floor_nonneg.mpr h0
  have hf1 : ⌊v⌋ < 2 ^ 32 := by
    rw [Int.floor_lt]
    exact_mod_cast h1
  rw [Int.emod_eq_of_lt hf0 hf1]

/-- C28: in exact arithmetic, for a mask of 675 rows and a photon inside the
extent `[-180, 180] x [-78.75, 90]`, the block computes
`x = floor((lon + 180) / 0.25)`, at most 1440 and equal to 1440 exactly for
`lon = 180`, and `y = 675 - floor((lat + 78.75) / 0.25)`, at most 675 and equal to
675 exactly for `lat < -78.5`. -/
theorem waterRiMaskPixel_extent (mask : TIFFImage ℚ) (ph : Photon ℚ)
    (hh : mask.getHeight = 675)
    (hlat1 : -78.75 ≤ ph.lat_ph) (hlat2 : ph.lat_ph ≤ 90)
    (hlon1 : -180 ≤ ph.lon_ph) (hlon2 : ph.lon_ph ≤ 180) :
    (waterRiMaskPixel exampleOps mask ph).1 = ⌊(ph.lon_ph + 180) / 0.25⌋.toNat ∧
    (waterRiMaskPixel exampleOps mask ph).2 = 675 - ⌊(ph.lat_ph + 78.75) / 0.25⌋.toNat ∧
    (waterRiMaskPixel exampleOps mask ph).1 ≤ 1440 ∧
    (waterRiMaskPixel exampleOps mask ph).2 ≤ 675 ∧
    ((waterRiMaskPixel exampleOps mask ph).1 = 1440 ↔ ph.lon_ph = 180) ∧
    ((waterRiMaskPixel exampleOps mask ph).2 = 675 ↔ ph.lat_ph < -78.5) := by
  have ev : waterRiMaskPixel exampleOps mask ph =
      (wrapU32 (doubleToU32 ((ph.lon_ph - GLOBAL_WATER_RI_MASK_MIN_LON) /
          GLOBAL_WATER_RI_MASK_PIXEL_SIZE)),
       wrapU32 (mask.getHeight + 2 ^ 32 -
        wrapU32 (doubleToU32 ((ph.lat_ph - GLOBAL_WATER_RI_MASK_MIN_LAT) /
          GLOBAL_WATER_RI_MASK_PIXEL_SIZE)))) := rfl
  have e1 : (ph.lon_ph - GLOBAL_WATER_RI_MASK_MIN_LON) / GLOBAL_WATER_RI_MASK_PIXEL_SIZE =
      (ph.lon_ph + 180) / 0.25 := by
    unfold GLOBAL_WATER_RI_MASK_MIN_LON GLOBAL_WATER_RI_MASK_PIXEL_SIZE
    norm_num
  have e2 : (ph.lat_ph - GLOBAL_WATER_RI_MASK_MIN_LAT) / GLOBAL_WATER_RI_MASK_PIXEL_SIZE =
      (ph.lat_ph + 78.75) / 0.25 := by
    unfold GLOBAL_WATER_RI_MASK_MIN_LAT GLOBAL_WATER_RI_MASK_PIXEL_SIZE
    norm_num
  have hx0 : (0 : ℚ) ≤ (ph.lon_ph + 180) / 0.25 := by
    apply div_nonneg <;> norm_num
    linarith
  have hx1 : (ph.lon_ph + 180) / 0.25 ≤ 1440 := by
    rw [div_le_iff₀ (by norm_num)]
    norm_num
    linarith
  have hy0 : (0 : ℚ) ≤ (ph.lat_ph + 78.75) / 0.25 := by
    apply div_nonneg <;> norm_num
    linarith
  have hy1 : (ph.lat_ph + 78.75) / 0.25 ≤ 675 := by
    rw [div_le_iff₀ (by norm_num)]
    norm_num
    linarith
  have fx0 : 0 ≤ ⌊(ph.lon_ph + 180) / 0.25⌋ := Int.floor_nonneg.mpr hx0
  have fx1 : ⌊(ph.lon_ph + 180) / 0.25⌋ ≤ 1440 := by
    have := Int.floor_le ((ph.lon_ph + 180) / 0.25)
    have h : ((⌊(ph.lon_ph + 180) / 0.25⌋ : ℤ) : ℚ) ≤ ((1440 : ℤ) : ℚ) := by
      push_cast
      linarith
    exact_mod_cast h
  have fy0 : 0 ≤ ⌊(ph.lat_ph + 78.75) / 0.25⌋ := Int.floor_nonneg.mpr hy0
  have fy1 : ⌊(ph.lat_ph + 78.75) / 0.25⌋ ≤ 675 := by
    have := Int.floor_le ((ph.lat_ph + 78.75) / 0.25)
    have h : ((⌊(ph.lat_ph + 78.75) / 0.25⌋ : ℤ) : ℚ) ≤ ((675 : ℤ) : ℚ) := by
      push_cast
      linarith
    exact_mod_cast h
  have fx : ⌊(ph.lon_ph + 180) / 0.25⌋ = 1440 ↔ ph.lon_ph = 180 := by
    rw [Int.floor_eq_iff]
    constructor
    · rintro ⟨h, _⟩
      have h3 : (1440 : ℚ) ≤ (ph.lon_ph + 180) / 0.25 := by exact_mod_cast h
      rw [le_div_iff₀ (by norm_num)] at h3
      norm_num at h3
      linarith
    · intro h
      rw [h]
      norm_num
  have fy : ⌊(ph.lat_ph + 78.75) / 0.25⌋ = 0 ↔ ph.lat_ph < -78.5 := by
    rw [Int.floor_eq_iff]
    constructor
    · rintro ⟨_, h⟩
      have h3 : (ph.lat_ph + 78.75) / 0.25 < 1 := by
        have : (((0 : ℤ) : ℚ) + 1) = 1 := by norm_num
        rw [this] at h
        exact h
      rw [div_lt_iff₀ (by norm_num)] at h3
      norm_num at h3
      linarith
    · intro h
      refine ⟨by exact_mod_cast hy0, ?_⟩
      rw [div_lt_iff₀ (by norm_num)]
      norm_num
      linarith
  rw [ev, e1, e2, hh, doubleToU32_of_nonneg _ hx0 (by linarith),
    doubleToU32_of_nonneg _ hy0 (by linarith)]
  simp only
  unfold wrapU32
  refine ⟨?_, ?_, ?_, ?_, ?_, ?_⟩
  · omega
  · omega
  · omega
  · omega
  · rw [← fx]
    omega
  · rw [← fy]
    omega

/-- C28, witness: the photon at latitude -78.75 and longitude 180 addresses the
pixel (1440, 675) of a mask with 1440 columns and 675 rows. -/
theorem waterRiMaskPixel_extent_witness :
    (waterRiMaskPixel exampleOps exampleMaskRows examplePhotonCorner).1 = 1440 ∧
    (waterRiMaskPixel exampleOps exampleMaskRows examplePhotonCorner).2 = 675 :=
  ⟨(waterRiMaskPixel_extent exampleMaskRows examplePhotonCorner rfl
      (by unfold examplePhotonCorner; norm_num) (by unfold examplePhotonCorner; norm_num)
      (by unfold examplePhotonCorner; norm_num) (by unfold examplePhotonCorner; norm_num)).2.2.2.2.1.mpr rfl,
   (waterRiMaskPixel_extent exampleMaskRows examplePhotonCorner rfl
      (by unfold examplePhotonCorner; norm_num) (by unfold examplePhotonCorner; norm_num)
      (by unfold examplePhotonCorner; norm_num) (by unfold examplePhotonCorner; norm_num)).2.2.2.2.2.mpr
      (by unfold examplePhotonCorner; norm_num)⟩

/-! ## ArcticDEMRaster: window and retries of the pixel read -/

/-- The retry loop started with counter 2 makes one, two or three attempts: it
stops at the first attempt that succeeds, and after the third in any case. -/
theorem retryRead_two {α : Type} (read : Nat → Option α) :
    retryRead read 2 0 =
      match read 0 with
      | some v => (some v, 1)
      | none =>
        match read 1 with
        | some v => (some v, 2)
        | none => (read 2, 3) := by
  unfold retryRead
  cases h0 : read 0 with
  | some v => rfl
  | none =>
    simp only
    unfold retryRead
    cases h1 : read 1 with
    | some v => rfl
    | none => rfl

theorem retryRead_two_attempts {α : Type} (read : Nat → Option α) :
    1 ≤ (retryRead read 2 0).2 ∧ (retryRead read 2 0).2 ≤ 3 := by
  rw [retryRead_two]
  cases read 0 with
  | some v => simp
  | none =>
    cases read 1 with
    | some v => simp
    | none => simp

/-- C24: in the kernel branch of `readRaster` the read falls back to the 1x1
nearest-neighbour read at `(col, row)` exactly when `col - r < 0` or
`row - r < 0`, with `r` the radius in pixels; otherwise the full window with
origin `(col - r, row - r)` and side `2r + 1` is read, also when it reaches beyond
the last column or row of the raster (`col + r >= cols` or `row + r >= rows`). -/
theorem readPixel_window {V : Type} (band : GDALRasterBand V)
    (rinfo : ArcticDEMRaster.raster_info_t) (sampleAlg : GDALRIOResampleAlg) (radius : Int)
    (col row : Int) (hk : sampleAlg ≠ .GRIORA_NearestNeighbour) :
    ((col - radius_in_pixels radius rinfo.cellSize < 0 ∨
        row - radius_in_pixels radius rinfo.cellSize < 0) →
      (ArcticDEMRaster.readPixel band rinfo sampleAlg radius col row).window =
        some ⟨col, row, 1, 1, .GRIORA_NearestNeighbour⟩) ∧
    (0 ≤ col - radius_in_pixels radius rinfo.cellSize →
      0 ≤ row - radius_in_pixels radius rinfo.cellSize →
      (ArcticDEMRaster.readPixel band rinfo sampleAlg radius col row).window =
        some ⟨col - radius_in_pixels radius rinfo.cellSize,
          row - radius_in_pixels radius rinfo.cellSize,
          radius_in_pixels radius rinfo.cellSize + 1 + radius_in_pixels radius rinfo.cellSize,
          radius_in_pixels radius rinfo.cellSize + 1 + radius_in_pixels radius rinfo.cellSize,
          sampleAlg⟩ ∧
      ((rinfo.cols ≤ col + radius_in_pixels radius rinfo.cellSize ∨
          rinfo.rows ≤ row + radius_in_pixels radius rinfo.cellSize) →
        ∃ w, (ArcticDEMRaster.readPixel band rinfo sampleAlg radius col row).window = some w ∧
          w.eResampleAlg = sampleAlg ∧
          (rinfo.cols < w.nXOff + w.nXSize ∨ rinfo.rows < w.nYOff + w.nYSize))) := by
  have hw : (ArcticDEMRaster.readPixel band rinfo sampleAlg radius col row).window =
      some (kernelWindow sampleAlg radius rinfo.cellSize col row) := by
    unfold ArcticDEMRaster.readPixel
    rw [if_neg hk]
  constructor
  · intro h
    rw [hw]
    unfold kernelWindow
    simp only
    rw [if_pos h]
  · intro h1 h2
    have hwin : kernelWindow sampleAlg radius rinfo.cellSize col row =
        ⟨col - radius_in_pixels radius rinfo.cellSize,
          row - radius_in_pixels radius rinfo.cellSize,
          radius_in_pixels radius rinfo.cellSize + 1 + radius_in_pixels radius rinfo.cellSize,
          radius_in_pixels radius rinfo.cellSize + 1 + radius_in_pixels radius rinfo.cellSize,
          sampleAlg⟩ := by
      unfold kernelWindow
      simp only
      rw [if_neg (by omega)]
    refine ⟨by rw [hw, hwin], ?_⟩
    intro h3
    refine ⟨_, hw, ?_, ?_⟩
    · rw [hwin]
    · rw [hwin]
      simp only
      omega

/-- C24, witness: in a 10 by 10 raster with cells of size 2, the bilinear read
at the last pixel (9, 9) with radius 2 reads the 3 by 3 window with origin
(8, 8), which reaches column and row 10. -/
theorem readPixel_window_witness :
    radius_in_pixels 2 exampleRasterInfo.cellSize = 1 ∧
    (ArcticDEMRaster.readPixel exampleBand exampleRasterInfo .GRIORA_Bilinear 2 9 9).window =
      some ⟨8, 8, 3, 3, .GRIORA_Bilinear⟩ ∧
    exampleRasterInfo.cols < 8 + 3 := by
  have hr : radius_in_pixels 2 exampleRasterInfo.cellSize = 1 := by decide
  have h := (readPixel_window exampleBand exampleRasterInfo .GRIORA_Bilinear 2 9 9
    (by decide)).2 (by rw [hr]; decide) (by rw [hr]; decide)
  rw [hr] at h
  exact ⟨hr, h.1, by decide⟩

/-- C25 (amended): the pixel read of `readRaster` calls the underlying read
(`GetLockedBlockRef` or `RasterIO`) at least once and at most three times: the
first attempt and up to two retries; the retry loop stops at the first attempt
that succeeds and after the third attempt in any case. -/
theorem readPixel_attempts {V : Type} (band : GDALRasterBand V)
    (rinfo : ArcticDEMRaster.raster_info_t) (sampleAlg : GDALRIOResampleAlg) (radius : Int)
    (col row : Int) :
    1 ≤ (ArcticDEMRaster.readPixel band rinfo sampleAlg radius col row).attempts ∧
    (ArcticDEMRaster.readPixel band rinfo sampleAlg radius col row).attempts ≤ 3 ∧
    (ArcticDEMRaster.readPixel band rinfo sampleAlg radius col row).attempts =
      (if sampleAlg = .GRIORA_NearestNeighbour then
        (retryRead (band.GetLockedBlockRef (intToU32 (Int.tdiv col rinfo.xBlockSize))
          (intToU32 (Int.tdiv row rinfo.yBlockSize))) 2 0).2
      else
        (retryRead (band.RasterIO (kernelWindow sampleAlg radius rinfo.cellSize col row))
          2 0).2) := by
  have h : (ArcticDEMRaster.readPixel band rinfo sampleAlg radius col row).attempts =
      (if sampleAlg = .GRIORA_NearestNeighbour then
        (retryRead (band.GetLockedBlockRef (intToU32 (Int.tdiv col rinfo.xBlockSize))
          (intToU32 (Int.tdiv row rinfo.yBlockSize))) 2 0).2
      else
        (retryRead (band.RasterIO (kernelWindow sampleAlg radius rinfo.cellSize col row))
          2 0).2) := by
    unfold ArcticDEMRaster.readPixel
    by_cases hk : sampleAlg = .GRIORA_NearestNeighbour
    · simp only [hk, if_true]
      cases (retryRead (band.GetLockedBlockRef (intToU32 (Int.tdiv col rinfo.xBlockSize))
          (intToU32 (Int.tdiv row rinfo.yBlockSize))) 2 0).1 <;> rfl
    · simp only [hk, if_false]
  refine ⟨?_, ?_, h⟩
  · rw [h]
    split
    · exact (retryRead_two_attempts _).1
    · exact (retryRead_two_attempts _).1
  · rw [h]
    split
    · exact (retryRead_two_attempts _).2
    · exact (retryRead_two_attempts _).2

/-- C25, counterexample: on a band whose reads fail on every call, the read is
attempted three times in the nearest-neighbour branch and three times in the
kernel branch before the failure is reported. -/
theorem readPixel_attempts_counterexample :
    (ArcticDEMRaster.readPixel exampleFailingBand exampleRasterInfo .GRIORA_NearestNeighbour
      2 3 4).attempts = 3 ∧
    (ArcticDEMRaster.readPixel exampleFailingBand exampleRasterInfo .GRIORA_NearestNeighbour
      2 3 4).value = none ∧
    (ArcticDEMRaster.readPixel exampleFailingBand exampleRasterInfo .GRIORA_Bilinear
      2 3 4).attempts = 3 ∧
    (ArcticDEMRaster.readPixel exampleFailingBand exampleRasterInfo .GRIORA_Bilinear
      2 3 4).value = none := by
  decide

/-! ## Atl03BathyViewer: the segment loop -/

/-- C29: for a region with at least one segment and a reader that stays active,
the loop of `subsettingThread` is not left after any number of passes: every
pass finds `current_segment = 0` below the number of segments, so the thread
never counts its completion. -/
theorem subsettingThread_never_completes {F : Type} (ops : DoubleOps F) (active : Nat → Bool)
    (getPixel : Nat → Nat → Nat) (region : Atl03BathyViewer.Region F)
    (reader : Atl03BathyViewer) (hactive : ∀ n, active n = true)
    (hsize : 0 < region.segment_ph_cnt.length) (fuel : Nat) :
    subsettingThread ops active getPixel region reader fuel = none := by
  have hloop : ∀ (fuel n : Nat) (photons_in_mask : Int),
      subsettingLoop ops active getPixel region fuel n 0 photons_in_mask = none := by
    intro fuel
    induction fuel with
    | zero =>
      intro n p
      rfl
    | succ f ih =>
      intro n p
      unfold subsettingLoop
      have hc : (active n && decide ((0 : Int) < (region.segment_ph_cnt.length : Int))) = true := by
        rw [hactive n]
        simp
        omega
      rw [if_pos hc]
      exact ih _ _
  unfold subsettingThread
  rw [hloop]

/-- C29, witness: with one segment and an active reader, a thousand passes do
not leave the loop. -/
theorem subsettingThread_never_completes_witness :
    subsettingThread exampleOps (fun _ => true) (fun _ _ => 0) exampleRegion exampleReader
      1000 = none :=
  subsettingThread_never_completes exampleOps (fun _ => true) (fun _ _ => 0) exampleRegion
    exampleReader (fun _ => rfl) (by decide) 1000

/-! ## FieldList: copy -/

theorem FieldList.copyLoop_eq {T : Type} :
    ∀ (values listValues : List T),
      FieldList.copyLoop values listValues =
        if values.length ≤ listValues.length then some (listValues.take values.length) else none
  | [], _ => by simp [FieldList.copyLoop]
  | _ :: _, [] => by simp [FieldList.copyLoop]
  | _ :: values, v :: listValues => by
    unfold FieldList.copyLoop
    rw [FieldList.copyLoop_eq values listValues]
    by_cases h : values.length ≤ listValues.length
    · simp [h]
    · simp [h]

/-- C30: `FieldList::copy` runs over the indices of the target: the copy
constructor `FieldList(b)` yields the empty list for every `b`, and the assignment
`a = b` keeps the length of `a`, copies the first `a.length()` elements of `b` when
`a` is not longer than `b`, and reads `b` outside its bounds when `a` is longer. -/
theorem FieldList_copy_target_length {T : Type} (impliedEncoding : Nat) (a b : FieldList T) :
    FieldList.copyConstructor impliedEncoding b = some ⟨[], b.encoding⟩ ∧
    FieldList.assign a b =
      (if a.length ≤ b.length then some ⟨b.values.take a.length, b.encoding⟩ else none) ∧
    (FieldList.assignFromList a b.values).values = b.values := by
  refine ⟨rfl, ?_, ?_⟩
  · unfold FieldList.assign FieldList.copy FieldList.length
    rw [FieldList.copyLoop_eq]
    split <;> rfl
  · unfold FieldList.assignFromList
    simp only
    have : ∀ (l acc : List T), l.foldl (fun values element => values ++ [element]) acc = acc ++ l := by
      intro l
      induction l with
      | nil => intro acc; simp
      | cons x xs ih => intro acc; rw [List.foldl_cons, ih]; simp
    rw [this]
    rfl

end SlideRule
